import Mathlib

/-!
Verification of the chessoteric chess-engine core against its specification.

The development shallowly embeds the Rust sources of the repository
(src/core/src/bitboard.rs, board.rs, magic.rs, moves.rs, eval.rs, tree.rs,
ai/simple.rs) into Lean.  Machine 64-bit words are modelled as natural
numbers below 2^64, with wrap-around made explicit by reduction modulo 2^64;
the f32 scores used by the search are modelled by an exact three-way type
(minus infinity, a finite integer, plus infinity), which is faithful for
every value the embedded code manipulates (material counts and the two
infinities; no rounding or NaN ever arises on those inputs).
-/

namespace Chess

/-- 2^64, the size of the machine word domain. -/
def wordSize : Nat := 18446744073709551616

/-- 2^64 - 1, the all-ones 64-bit word. -/
def wordMask : Nat := 18446744073709551615

/-- Bitwise complement within 64 bits (Rust `!x` on u64). -/
def bnot64 (x : Nat) : Nat := x ^^^ wordMask

/-- 64-bit left shift with wrap-around (Rust `x << n` on u64). -/
def shl64 (x n : Nat) : Nat := (x <<< n) % wordSize

/-- 64-bit rotate left (Rust `x.rotate_left(r)`), for 0 < r < 64. -/
def rotl64 (x r : Nat) : Nat := ((x <<< r) % wordSize) ||| (x >>> (64 - r))

/-- 64-bit wrapping multiplication (Rust `x.wrapping_mul(y)`). -/
def wmul64 (x y : Nat) : Nat := (x * y) % wordSize

/-- Single-bit word `1 << i` (Rust `1u64 << i` for i < 64). -/
def bit64 (i : Nat) : Nat := shl64 1 i

/-- Bit test (Rust `(x & (1 << i)) != 0`). -/
def getBit (x i : Nat) : Bool := Nat.testBit x i

/-- Set a bit (Rust `x |= 1 << i`). -/
def setBit (x i : Nat) : Nat := x ||| bit64 i

/-- Clear a bit (Rust `x &= !(1 << i)`). -/
def unsetBit (x i : Nat) : Nat := x &&& bnot64 (bit64 i)

/-- Number of set bits, by structural recursion on a fuel bound of 64
(Rust `u64::count_ones`). -/
def countOnesGo : Nat → Nat → Nat
  | 0, _ => 0
  | fuel + 1, x => if x = 0 then 0 else x % 2 + countOnesGo fuel (x / 2)

/-- Population count of a 64-bit word. -/
def countOnes (x : Nat) : Nat := countOnesGo 64 x

/-! ### Directions (bitboard.rs, enum Direction) -/

/-- The eight compass directions of bitboard.rs. -/
inductive Direction
  | northEast | east | southEast | south | southWest | west | northWest | north
deriving DecidableEq

/-- Per-direction rotation amount (bitboard.rs, Bitboard::SHIFT). -/
def Direction.shiftAmt : Direction → Nat
  | .northEast => 9
  | .east => 1
  | .southEast => 57
  | .south => 56
  | .southWest => 55
  | .west => 63
  | .northWest => 7
  | .north => 8

/-- Per-direction wrap-avoidance mask (bitboard.rs, Bitboard::AVOID_WRAP). -/
def Direction.avoidWrap : Direction → Nat
  | .northEast => 0xfefefefefefefe00
  | .east => 0xfefefefefefefefe
  | .southEast => 0x00fefefefefefefe
  | .south => 0x00ffffffffffffff
  | .southWest => 0x007f7f7f7f7f7f7f
  | .west => 0x7f7f7f7f7f7f7f7f
  | .northWest => 0x7f7f7f7f7f7f7f00
  | .north => 0xffffffffffffff00

/-- Per-direction square-index offset (bitboard.rs, Direction::as_offset). -/
def Direction.asOffset : Direction → Int
  | .northEast => 9
  | .east => 1
  | .southEast => -7
  | .south => -8
  | .southWest => -9
  | .west => -1
  | .northWest => 7
  | .north => 8

/-- Square-index shift with bounds check (bitboard.rs, Direction::shift).
The Rust code performs unsigned u8 arithmetic and returns Some only when the
result is below 64; a negative intermediate would panic in debug builds,
which we model as none (the program never reaches that case). -/
def Direction.shiftIdx (d : Direction) (index : Nat) : Option Nat :=
  match d.asOffset with
  | .ofNat k => if index + k < 64 then some (index + k) else none
  | .negSucc k =>
    if k + 1 ≤ index then
      (if index - (k + 1) < 64 then some (index - (k + 1)) else none)
    else none

/-! ### Bitboard operations (bitboard.rs, impl Bitboard) -/

/-- File and rank constants used by the sources. -/
def FILE_A : Nat := 0x0101010101010101

/-- File H mask. -/
def FILE_H : Nat := 0x8080808080808080

/-- Rank 3 mask (bitboard.rs, Bitboard::RANK_3). -/
def RANK_3 : Nat := 0x0000000000FF0000

/-- Rank 6 mask (bitboard.rs, Bitboard::RANK_6). -/
def RANK_6 : Nat := 0x0000FF0000000000

/-- The per-file masks (bitboard.rs, Bitboard::FILE). -/
def fileMask : Nat → Nat
  | 0 => 0x0101010101010101
  | 1 => 0x0202020202020202
  | 2 => 0x0404040404040404
  | 3 => 0x0808080808080808
  | 4 => 0x1010101010101010
  | 5 => 0x2020202020202020
  | 6 => 0x4040404040404040
  | _ => 0x8080808080808080

/-- Directional single shift avoiding wrap-around
(bitboard.rs, Bitboard::shift_one). -/
def shiftOne (x : Nat) (d : Direction) : Nat :=
  rotl64 x d.shiftAmt &&& d.avoidWrap

/-- The loop body of Bitboard::occluded_fill, with an explicit fuel bound;
the Rust loop runs until `current` is zero, which happens after at most
eight iterations because every direction empties a 64-bit word after at
most eight masked one-step shifts. -/
def fillLoop (r occl : Nat) : Nat → Nat → Nat → Nat
  | 0, _, fill => fill
  | fuel + 1, current, fill =>
    if current = 0 then fill
    else
      let next := rotl64 current r &&& bnot64 occl
      fillLoop r occl fuel next (fill ||| next)

/-- Kogge–Stone style occluded fill (bitboard.rs, Bitboard::occluded_fill). -/
def occludedFill (x occlusion : Nat) (d : Direction) : Nat :=
  if x = 0 then 0
  else fillLoop d.shiftAmt (occlusion ||| bnot64 d.avoidWrap) 64 x 0

/-- Sliding attack in one direction including the first blocker
(bitboard.rs, Bitboard::sliding_attack). -/
def slidingAttack (x occlusion : Nat) (d : Direction) : Nat :=
  let next := occludedFill x occlusion d
  shiftOne (next ||| x) d ||| next

/-- Bishop attacks by raycast (bitboard.rs, Bitboard::bishop_raycast). -/
def bishopRaycast (x occ : Nat) : Nat :=
  slidingAttack x occ .northEast ||| slidingAttack x occ .northWest |||
    slidingAttack x occ .southEast ||| slidingAttack x occ .southWest

/-- Rook attacks by raycast (bitboard.rs, Bitboard::rook_raycast). -/
def rookRaycast (x occ : Nat) : Nat :=
  slidingAttack x occ .north ||| slidingAttack x occ .east |||
    slidingAttack x occ .south ||| slidingAttack x occ .west

/-- King-neighbourhood mask (bitboard.rs, Bitboard::surrounding_mask). -/
def surroundingMask (x : Nat) : Nat :=
  (shl64 x 8 ||| x >>> 8) |||
    shl64 (x &&& bnot64 FILE_H) 1 ||| (x &&& bnot64 FILE_A) >>> 1 |||
    shl64 (x &&& bnot64 FILE_H) 9 ||| (x &&& bnot64 FILE_A) >>> 9 |||
    (x &&& bnot64 FILE_H) >>> 7 ||| shl64 (x &&& bnot64 FILE_A) 7

/-- Pawn connected mask (bitboard.rs, Bitboard::connected_mask); the colour
argument is true for White. -/
def connectedMask (x : Nat) (isWhite : Bool) : Nat :=
  if isWhite then
    ((x >>> 7) &&& bnot64 FILE_A) ||| ((x >>> 9) &&& bnot64 FILE_H)
  else
    (shl64 x 7 &&& bnot64 FILE_H) ||| (shl64 x 9 &&& bnot64 FILE_A)

/-- Structurally recursive base-2 logarithm (Rust `u64::ilog2`, the index
of the most significant set bit), kernel-reducible unlike Nat.log2. -/
def ilog2Go : Nat → Nat → Nat
  | 0, _ => 0
  | fuel + 1, x => if x < 2 then 0 else ilog2Go fuel (x / 2) + 1

/-- Rust u64::ilog2 (0 on the zero word, which the sources never pass). -/
def ilog2 (x : Nat) : Nat := ilog2Go 64 x

/-- One step of Bitboard::scan: the Rust iterator takes `ilog2` of the word
(the index of its most significant set bit, despite the comment in the
source claiming the least significant one) and clears that bit. -/
def scanGo : Nat → Nat → List Nat
  | 0, _ => []
  | fuel + 1, x =>
    if x = 0 then []
    else
      let i := ilog2 x
      i :: scanGo fuel (x &&& bnot64 (bit64 i))

/-- Bitboard::scan as a list of square indices, in the order the Rust
iterator produces them. -/
def scanBits (x : Nat) : List Nat := scanGo 64 x

/-- One step of Bitboard::scan_bitboard: clear the least significant bit and
yield it as a one-bit word. -/
def scanBBGo : Nat → Nat → List Nat
  | 0, _ => []
  | fuel + 1, x =>
    if x = 0 then []
    else
      let next := x &&& (x - 1)
      (x &&& bnot64 next) :: scanBBGo fuel next

/-- Bitboard::scan_bitboard as a list of one-bit words, least significant
first. -/
def scanBB (x : Nat) : List Nat := scanBBGo 64 x

/-- Bitboard::square: index of the single set bit, computed by ilog2. -/
def squareOf (x : Nat) : Nat := ilog2 x

/-! ### Pieces, colours and board state (board.rs) -/

/-- Colourless piece kind; board.rs stores one bitboard per kind and keeps
colour in the separate `white` bitboard. -/
inductive PieceT
  | pawn | knight | bishop | rook | queen | king
deriving DecidableEq

/-- Colour of a side (board.rs, enum Color). -/
inductive Color
  | white | black
deriving DecidableEq

/-- Color::opposite. -/
def Color.opposite : Color → Color
  | .white => .black
  | .black => .white

/-- The board state of board.rs (struct Board).  The BoardFlags bit set is
modelled by five named booleans: side to move and the four castling
rights. -/
structure Board where
  pawn : Nat
  knight : Nat
  bishop : Nat
  rook : Nat
  queen : Nat
  king : Nat
  white : Nat
  occupied : Nat
  whiteToMove : Bool
  wk : Bool
  wq : Bool
  bk : Bool
  bq : Bool
  enPassantSquare : Nat
deriving DecidableEq

/-- Board::get on a colourless piece: the bitboard of that piece kind. -/
def Board.bb (b : Board) : PieceT → Nat
  | .pawn => b.pawn
  | .knight => b.knight
  | .bishop => b.bishop
  | .rook => b.rook
  | .queen => b.queen
  | .king => b.king

/-- Functional update of one piece-kind bitboard. -/
def Board.setBB (b : Board) : PieceT → Nat → Board
  | .pawn, v => { b with pawn := v }
  | .knight, v => { b with knight := v }
  | .bishop, v => { b with bishop := v }
  | .rook, v => { b with rook := v }
  | .queen, v => { b with queen := v }
  | .king, v => { b with king := v }

/-- Board::next_to_move. -/
def Board.nextToMove (b : Board) : Color :=
  if b.whiteToMove then .white else .black

/-- Board::friendly_bitboard. -/
def Board.friendly (b : Board) : Nat :=
  if b.whiteToMove then b.white else b.occupied ^^^ b.white

/-- Board::enemy_bitboard. -/
def Board.enemy (b : Board) : Nat :=
  if b.whiteToMove then b.occupied ^^^ b.white else b.white

/-- Board::verify: the six piece bitboards are pairwise disjoint, their union
is `occupied`, and `white` is a subset of `occupied`. -/
def Board.verify (b : Board) : Bool :=
  (b.pawn &&& b.knight = 0) && (b.pawn ||| b.knight) &&& b.bishop = 0 &&
    (b.pawn ||| b.knight ||| b.bishop) &&& b.rook = 0 &&
    (b.pawn ||| b.knight ||| b.bishop ||| b.rook) &&& b.queen = 0 &&
    (b.pawn ||| b.knight ||| b.bishop ||| b.rook ||| b.queen) &&& b.king = 0 &&
    (b.pawn ||| b.knight ||| b.bishop ||| b.rook ||| b.queen ||| b.king)
      = b.occupied &&
    (b.white &&& b.occupied = b.white)

/-! ### Moves (moves.rs, struct Move and Move::apply) -/

/-- The move value type of moves.rs; MoveFlags is modelled by the two
booleans `castle` and `ep`. -/
structure Move where
  fromSq : Nat
  toSq : Nat
  piece : PieceT
  promotion : Option PieceT
  castle : Bool
  ep : Bool
deriving DecidableEq

/-- Move::apply stage 1: remove every piece kind from the destination
square (captures). -/
def applyClearDest (m : Move) (b : Board) : Board :=
  { b with
    pawn := unsetBit b.pawn m.toSq
    knight := unsetBit b.knight m.toSq
    bishop := unsetBit b.bishop m.toSq
    rook := unsetBit b.rook m.toSq
    queen := unsetBit b.queen m.toSq
    king := unsetBit b.king m.toSq }

/-- Move::apply stage 2: move (or promote) the mover on its own bitboard. -/
def applyMover (m : Move) (b : Board) : Board :=
  match m.promotion with
  | some promo =>
    let b := b.setBB m.piece (unsetBit (b.bb m.piece) m.fromSq)
    b.setBB promo (setBit (b.bb promo) m.toSq)
  | none =>
    b.setBB m.piece (b.bb m.piece ^^^ (bit64 m.fromSq ||| bit64 m.toSq))

/-- Move::apply stage 3: update occupied and white. -/
def applyOccWhite (m : Move) (b : Board) : Board :=
  let b := { b with occupied := setBit (unsetBit b.occupied m.fromSq) m.toSq }
  let b := { b with white := unsetBit b.white m.fromSq }
  if b.whiteToMove then { b with white := setBit b.white m.toSq }
  else { b with white := unsetBit b.white m.toSq }

/-- Move::apply stage 4: en-passant square emission on double pawn pushes. -/
def applyEpEmit (m : Move) (b : Board) : Board :=
  if m.piece = .pawn ∧ ((m.toSq : Int) - (m.fromSq : Int)).natAbs = 16 then
    { b with enPassantSquare :=
        match b.nextToMove with
        | .white => m.toSq - 8
        | .black => m.toSq + 8 }
  else { b with enPassantSquare := 64 }

/-- The square of the pawn captured en passant. -/
def epCaptured (m : Move) (b : Board) : Nat :=
  match b.nextToMove with
  | .white => m.toSq - 8
  | .black => m.toSq + 8

/-- Move::apply stage 5: en-passant execution, removing the captured
pawn. -/
def applyEpCapture (m : Move) (b : Board) : Board :=
  if m.ep then
    { b with
      pawn := unsetBit b.pawn (epCaptured m b)
      occupied := unsetBit b.occupied (epCaptured m b)
      white := unsetBit b.white (epCaptured m b) }
  else b

/-- Move::apply stage 6: king moves clear both castling rights of the
mover. -/
def applyKingRights (m : Move) (b : Board) : Board :=
  if m.piece = .king then
    match b.nextToMove with
    | .white => { b with wk := false, wq := false }
    | .black => { b with bk := false, bq := false }
  else b

/-- Move::apply stage 7: a destination on a corner square clears the
matching right. -/
def applyDestRights (m : Move) (b : Board) : Board :=
  if m.toSq = 0 then { b with wq := false }
  else if m.toSq = 7 then { b with wk := false }
  else if m.toSq = 56 then { b with bq := false }
  else if m.toSq = 63 then { b with bk := false }
  else b

/-- Move::apply stage 8: an origin on the mover's own corner square clears
the matching right. -/
def applyOriginRights (m : Move) (b : Board) : Board :=
  match b.nextToMove with
  | .white =>
    if m.fromSq = 0 then { b with wq := false }
    else if m.fromSq = 7 then { b with wk := false }
    else b
  | .black =>
    if m.fromSq = 56 then { b with bq := false }
    else if m.fromSq = 63 then { b with bk := false }
    else b

/-- Move::apply stage 9: castling execution, moving the rook alongside the
king. -/
def applyCastleRook (m : Move) (b : Board) : Board :=
  if m.piece = .king ∧ m.castle then
    if m.toSq = 6 then
      { b with
        rook := setBit (unsetBit b.rook 7) 5
        occupied := setBit (unsetBit b.occupied 7) 5
        white := setBit (unsetBit b.white 7) 5
        wk := false
        wq := false }
    else if m.toSq = 2 then
      { b with
        rook := setBit (unsetBit b.rook 0) 3
        occupied := setBit (unsetBit b.occupied 0) 3
        white := setBit (unsetBit b.white 0) 3
        wk := false
        wq := false }
    else if m.toSq = 62 then
      { b with
        rook := setBit (unsetBit b.rook 63) 61
        occupied := setBit (unsetBit b.occupied 63) 61
        bk := false
        bq := false }
    else if m.toSq = 58 then
      { b with
        rook := setBit (unsetBit b.rook 56) 59
        occupied := setBit (unsetBit b.occupied 56) 59
        bk := false
        bq := false }
    else b
  else b

/-- Move::apply (moves.rs lines 232-362), as a pure function on boards.
Each stage mirrors one statement block of the Rust method, in order; the
final step toggles the side to move. -/
def Move.apply (m : Move) (b : Board) : Board :=
  let b := applyClearDest m b
  let b := applyMover m b
  let b := applyOccWhite m b
  let b := applyEpEmit m b
  let b := applyEpCapture m b
  let b := applyKingRights m b
  let b := applyDestRights m b
  let b := applyOriginRights m b
  let b := applyCastleRook m b
  { b with whiteToMove := !b.whiteToMove }

/-! ### Move generation (moves.rs, generate_moves and helpers) -/

/-- moves.rs, generate_rook_movement. -/
def genRookMovement (occlusion origin : Nat) : Nat :=
  slidingAttack origin occlusion .east ||| slidingAttack origin occlusion .west |||
    slidingAttack origin occlusion .north ||| slidingAttack origin occlusion .south

/-- moves.rs, generate_bishop_movement. -/
def genBishopMovement (occlusion origin : Nat) : Nat :=
  slidingAttack origin occlusion .northEast |||
    slidingAttack origin occlusion .southWest |||
    slidingAttack origin occlusion .northWest |||
    slidingAttack origin occlusion .southEast

/-- moves.rs, generate_queen_movement. -/
def genQueenMovement (occlusion origin : Nat) : Nat :=
  genRookMovement occlusion origin ||| genBishopMovement occlusion origin

/-- moves.rs, generate_knight_movement. -/
def genKnightMovement (origin : Nat) : Nat :=
  let l1 := (origin >>> 1) &&& 0x7f7f7f7f7f7f7f7f
  let l2 := (origin >>> 2) &&& 0x3f3f3f3f3f3f3f3f
  let r1 := shl64 origin 1 &&& 0xfefefefefefefefe
  let r2 := shl64 origin 2 &&& 0xfcfcfcfcfcfcfcfc
  let h1 := l1 ||| r1
  let h2 := l2 ||| r2
  shl64 h1 16 ||| h1 >>> 16 ||| shl64 h2 8 ||| h2 >>> 8

/-- moves.rs, generate_king_movement. -/
def genKingMovement (origin : Nat) : Nat := surroundingMask origin

/-- moves.rs, generate_pawn_attacks. -/
def genPawnAttacks (origin : Nat) : Color → Nat
  | .white => (shl64 origin 9 &&& bnot64 FILE_A) ||| (shl64 origin 7 &&& bnot64 FILE_H)
  | .black => ((origin >>> 7) &&& bnot64 FILE_A) ||| ((origin >>> 9) &&& bnot64 FILE_H)

/-- The pin-ray `retain` predicate at the end of generate_moves: a move by a
pinned piece is kept only when king, origin and destination are collinear
(signum-of-delta test, moves.rs lines 829-859).  Returns true when the move
is kept. -/
def pinKeep (pinnedBitboard kingSquare : Nat) (m : Move) : Bool :=
  if getBit pinnedBitboard m.fromSq then
    let kx : Int := (kingSquare % 8 : Nat)
    let ky : Int := (kingSquare / 8 : Nat)
    let fdu0 : Int := (((m.fromSq % 8 : Nat) : Int) - kx).sign
    let fdu1 : Int := (((m.fromSq / 8 : Nat) : Int) - ky).sign
    let td0 : Int := ((m.toSq % 8 : Nat) : Int) - kx
    let td1 : Int := ((m.toSq / 8 : Nat) : Int) - ky
    let a := td0 * fdu0
    let c := td1 * fdu1
    if a = 0 then td0 = 0 ∧ fdu0 = 0
    else if c = 0 then td1 = 0 ∧ fdu1 = 0
    else if a ≠ c then false
    else true
  else true

/-- The four promotion pieces, in the order the source pushes them. -/
def promotionPieces : List PieceT := [.queen, .rook, .bishop, .knight]

/-- moves.rs, generate_moves: returns the move list (in exactly the order
the Rust code pushes and retains moves) together with the
`currently_in_check` flag. -/
def generateMoves (b : Board) : List Move × Bool :=
  let rookLike := b.rook ||| b.queen
  let bishopLike := b.bishop ||| b.queen
  let rookLikeEnemy := rookLike &&& b.enemy
  let bishopLikeEnemy := bishopLike &&& b.enemy
  let knightEnemy := b.knight &&& b.enemy
  let pawnLikeEnemy := b.pawn &&& b.enemy
  let allyKingBB := b.king &&& b.friendly
  let kingSquare := squareOf allyKingBB
  let occExceptKing := b.occupied &&& bnot64 allyKingBB
  let enemyRookAtt := genRookMovement occExceptKing rookLikeEnemy
  let enemyBishopAtt := genBishopMovement occExceptKing bishopLikeEnemy
  let enemyKnightAtt := genKnightMovement knightEnemy
  let enemyPawnAtt := genPawnAttacks pawnLikeEnemy b.nextToMove.opposite
  let enemyKingAtt := genKingMovement (b.king &&& b.enemy)
  let allEnemyAttacks := enemyRookAtt ||| enemyBishopAtt ||| enemyKnightAtt |||
    enemyPawnAtt ||| enemyKingAtt
  -- Check masks: slider checkers restrict the destination filter to the
  -- blocking squares and the checker itself.
  let kingRookRay := genRookMovement b.occupied allyKingBB
  let kingBishopRay := genBishopMovement b.occupied allyKingBB
  let kingRookCheckers := kingRookRay &&& rookLikeEnemy
  let kingBishopCheckers := kingBishopRay &&& bishopLikeEnemy
  let st1 := (scanBB kingRookCheckers).foldl
    (fun (st : Nat × Bool) cs =>
      (st.1 &&& ((genRookMovement b.occupied cs &&& kingRookRay) ||| cs), true))
    (bnot64 b.friendly, false)
  let st2 := (scanBB kingBishopCheckers).foldl
    (fun (st : Nat × Bool) cs =>
      (st.1 &&& ((genBishopMovement b.occupied cs &&& kingBishopRay) ||| cs), true))
    st1
  -- Pinned pieces via king x-rays with the first friendly blocker removed.
  let kingRookFriendlyBlocker := kingRookRay &&& b.friendly
  let kingBishopFriendlyBlocker := kingBishopRay &&& b.friendly
  let kingRookXray :=
    genRookMovement (b.occupied &&& bnot64 kingRookFriendlyBlocker) allyKingBB
  let kingBishopXray :=
    genBishopMovement (b.occupied &&& bnot64 kingBishopFriendlyBlocker) allyKingBB
  let pinnerRookSquares := kingRookXray &&& rookLikeEnemy &&& bnot64 kingRookRay
  let pinnerBishopSquares :=
    kingBishopXray &&& bishopLikeEnemy &&& bnot64 kingBishopRay
  let pinned1 := (scanBB pinnerRookSquares).foldl
    (fun acc p => acc ||| (genRookMovement b.occupied p &&& kingRookRay)) 0
  let pinnedBitboard := (scanBB pinnerBishopSquares).foldl
    (fun acc p => acc ||| (genBishopMovement b.occupied p &&& kingBishopRay))
    pinned1
  -- Leaper checkers collapse the filter to the checker square.
  let kingKnightCheckers := genKnightMovement allyKingBB &&& knightEnemy
  let kingPawnCheckers := genPawnAttacks allyKingBB b.nextToMove &&& pawnLikeEnemy
  let st3 := (scanBB (kingKnightCheckers ||| kingPawnCheckers)).foldl
    (fun (st : Nat × Bool) cs => (st.1 &&& cs, true)) st2
  let destFilter := st3.1
  let inCheck := st3.2
  -- Pawn pushes.
  let friendlyPawns := b.pawn &&& b.friendly
  let pawnSingles :=
    match b.nextToMove with
    | .white => shl64 friendlyPawns 8 &&& bnot64 b.occupied
    | .black => (friendlyPawns >>> 8) &&& bnot64 b.occupied
  let pawnDoubles :=
    match b.nextToMove with
    | .white => shl64 (pawnSingles &&& RANK_3) 8 &&& bnot64 b.occupied
    | .black => ((pawnSingles &&& RANK_6) >>> 8) &&& bnot64 b.occupied
  let singleMoves := (scanBits (pawnSingles &&& destFilter)).flatMap fun t =>
    let canPromote :=
      match b.nextToMove with
      | .white => decide (56 ≤ t)
      | .black => decide (t ≤ 7)
    let f :=
      match b.nextToMove with
      | .white => t - 8
      | .black => t + 8
    if canPromote then
      promotionPieces.map fun promo => Move.mk f t .pawn (some promo) false false
    else [Move.mk f t .pawn none false false]
  let doubleMoves := (scanBits (pawnDoubles &&& destFilter)).map fun t =>
    let f :=
      match b.nextToMove with
      | .white => t - 16
      | .black => t + 16
    Move.mk f t .pawn none false false
  -- Pawn captures.
  let pawnAttacksBB := genPawnAttacks friendlyPawns b.nextToMove
  let pawnCaptureTargets := pawnAttacksBB &&& b.enemy &&& destFilter
  let captureDirs : List (Direction × Nat) :=
    match b.nextToMove with
    | .white => [(.southEast, bnot64 FILE_A), (.southWest, bnot64 FILE_H)]
    | .black => [(.northEast, bnot64 FILE_A), (.northWest, bnot64 FILE_H)]
  let captureMoves := (scanBits pawnCaptureTargets).flatMap fun t =>
    let canPromote :=
      match b.nextToMove with
      | .white => decide (56 ≤ t)
      | .black => decide (t ≤ 7)
    captureDirs.flatMap fun dm =>
      let f := (dm.1.shiftIdx t).getD 0
      if (bit64 f &&& dm.2) &&& friendlyPawns ≠ 0 then
        if canPromote then
          promotionPieces.map fun promo => Move.mk f t .pawn (some promo) false false
        else [Move.mk f t .pawn none false false]
      else []
  -- En-passant captures; bit64 of the sentinel square 64 is zero, exactly as
  -- the source's checked_shl(1, ep).unwrap_or(0).
  let epDirs : List Direction :=
    match b.nextToMove with
    | .white => [.southEast, .southWest]
    | .black => [.northEast, .northWest]
  let epMoves :=
    if (pawnAttacksBB &&& destFilter) &&& bit64 b.enPassantSquare ≠ 0 then
      epDirs.flatMap fun d =>
        let f := (d.shiftIdx b.enPassantSquare).getD 0
        if bit64 f &&& friendlyPawns ≠ 0 then
          [Move.mk f b.enPassantSquare .pawn none false true]
        else []
    else []
  -- Slider and knight moves.
  let rookMoves := (scanBits (b.rook &&& b.friendly)).flatMap fun f =>
    (scanBits (genRookMovement b.occupied (bit64 f) &&& destFilter)).map fun t =>
      Move.mk f t .rook none false false
  let bishopMoves := (scanBits (b.bishop &&& b.friendly)).flatMap fun f =>
    (scanBits (genBishopMovement b.occupied (bit64 f) &&& destFilter)).map fun t =>
      Move.mk f t .bishop none false false
  let queenMoves := (scanBits (b.queen &&& b.friendly)).flatMap fun f =>
    (scanBits (genQueenMovement b.occupied (bit64 f) &&& destFilter)).map fun t =>
      Move.mk f t .queen none false false
  let knightFriendly := b.knight &&& b.friendly
  let knightMoves :=
    (scanBits (genKnightMovement knightFriendly &&& destFilter)).flatMap fun t =>
      (scanBits (genKnightMovement (bit64 t) &&& knightFriendly)).map fun f =>
        Move.mk f t .knight none false false
  -- King moves avoid friendly pieces and every enemy-attacked square.
  let kingMoves :=
    (scanBits (genKingMovement allyKingBB &&& bnot64 b.friendly &&&
        bnot64 allEnemyAttacks)).map fun t =>
      Move.mk kingSquare t .king none false false
  -- Castling: not while in check; transit squares empty and unattacked.
  let threatOrNonEmpty := b.occupied ||| allEnemyAttacks
  let castleMoves :=
    if !inCheck then
      match b.nextToMove with
      | .white =>
        (if b.wk ∧ threatOrNonEmpty &&& 0x60 = 0 then
          [Move.mk kingSquare 6 .king none true false] else []) ++
        (if b.wq ∧ threatOrNonEmpty &&& 0x0c = 0 ∧ b.occupied &&& 0x0e = 0 then
          [Move.mk kingSquare 2 .king none true false] else [])
      | .black =>
        (if b.bk ∧ threatOrNonEmpty &&& 0x6000000000000000 = 0 then
          [Move.mk kingSquare 62 .king none true false] else []) ++
        (if b.bq ∧ threatOrNonEmpty &&& 0x0c00000000000000 = 0 ∧
            b.occupied &&& 0x0e00000000000000 = 0 then
          [Move.mk kingSquare 58 .king none true false] else [])
    else []
  let allMoves := singleMoves ++ doubleMoves ++ captureMoves ++ epMoves ++
    rookMoves ++ bishopMoves ++ queenMoves ++ knightMoves ++ kingMoves ++
    castleMoves
  (allMoves.filter (pinKeep pinnedBitboard kingSquare), inCheck)

/-- The structural facts generate_moves guarantees about every move it
returns, used to prove that apply preserves the invariants. -/
structure MoveFacts (b : Board) (m : Move) : Prop where
  from_lt : m.fromSq < 64
  to_lt : m.toSq < 64
  piece_at : (b.bb m.piece).testBit m.fromSq = true
  friendly_from : b.friendly.testBit m.fromSq = true
  friendly_to : b.friendly.testBit m.toSq = false
  promo_shape : ∀ p, m.promotion = some p → m.piece = PieceT.pawn ∧
    (p = PieceT.queen ∨ p = PieceT.rook ∨ p = PieceT.bishop ∨
      p = PieceT.knight)
  pawn_to : m.piece = PieceT.pawn → m.promotion = none →
    8 ≤ m.toSq ∧ m.toSq < 56
  ep_shape : m.ep = true → m.piece = PieceT.pawn ∧ m.promotion = none ∧
    m.castle = false ∧ m.toSq = b.enPassantSquare
  castle_shape : m.castle = true → m.piece = PieceT.king ∧
    m.promotion = none ∧ m.ep = false ∧
    ((b.whiteToMove = true ∧
       ((m.toSq = 6 ∧ b.wk = true ∧ b.occupied &&& 0x60 = 0) ∨
        (m.toSq = 2 ∧ b.wq = true ∧ b.occupied &&& 0x0e = 0))) ∨
     (b.whiteToMove = false ∧
       ((m.toSq = 62 ∧ b.bk = true ∧
          b.occupied &&& 0x6000000000000000 = 0) ∨
        (m.toSq = 58 ∧ b.bq = true ∧
          b.occupied &&& 0x0e00000000000000 = 0))))

/-! ### FEN parsing and emission (board.rs, SquareCentricBoard) -/

/-- A coloured piece, the element type of the square-centric board. -/
structure CPiece where
  kind : PieceT
  color : Color
deriving DecidableEq

/-- Piece::symbol. -/
def CPiece.symbol (p : CPiece) : Char :=
  match p.color, p.kind with
  | .white, .pawn => 'P'
  | .white, .knight => 'N'
  | .white, .bishop => 'B'
  | .white, .rook => 'R'
  | .white, .queen => 'Q'
  | .white, .king => 'K'
  | .black, .pawn => 'p'
  | .black, .knight => 'n'
  | .black, .bishop => 'b'
  | .black, .rook => 'r'
  | .black, .queen => 'q'
  | .black, .king => 'k'

/-- Piece::from_str: recover a coloured piece from its FEN symbol. -/
def parseSymbol (c : Char) : Option CPiece :=
  match c with
  | 'P' => some ⟨.pawn, .white⟩
  | 'N' => some ⟨.knight, .white⟩
  | 'B' => some ⟨.bishop, .white⟩
  | 'R' => some ⟨.rook, .white⟩
  | 'Q' => some ⟨.queen, .white⟩
  | 'K' => some ⟨.king, .white⟩
  | 'p' => some ⟨.pawn, .black⟩
  | 'n' => some ⟨.knight, .black⟩
  | 'b' => some ⟨.bishop, .black⟩
  | 'r' => some ⟨.rook, .black⟩
  | 'q' => some ⟨.queen, .black⟩
  | 'k' => some ⟨.king, .black⟩
  | _ => none

/-- board.rs, struct SquareCentricBoard; the flags byte is again modelled by
five booleans. -/
structure SquareCentricBoard where
  squares : List (Option CPiece)
  whiteToMove : Bool
  wk : Bool
  wq : Bool
  bk : Bool
  bq : Bool
  ep : Nat
deriving DecidableEq

/-- Rust char::is_ascii_whitespace. -/
def isWS (c : Char) : Bool :=
  c = ' ' ∨ c = '\t' ∨ c = '\n' ∨ c = '\x0c' ∨ c = '\r'

/-- Rust char::is_digit(10). -/
def isDigitCh (c : Char) : Bool := '0' ≤ c ∧ c ≤ '9'

/-- Rust is_ascii_alphabetic && is_ascii_lowercase. -/
def isLowerAlpha (c : Char) : Bool := 'a' ≤ c ∧ c ≤ 'z'

/-- The running state of SquareCentricBoard::parse_fen. -/
structure FenState where
  squares : List (Option CPiece)
  whiteToMove : Bool
  wk : Bool
  wq : Bool
  bk : Bool
  bq : Bool
  ep : Nat
  rank : Int
  file : Nat
  metaIndex : Nat

/-- The initial parser state: an empty square-centric board (whose
en-passant field is 8), rank 7, file 0, metadata section not yet reached. -/
def fenInit : FenState :=
  ⟨List.replicate 64 none, false, false, false, false, false, 8, 7, 0, 0⟩

/-- One character step of SquareCentricBoard::parse_fen.  A `none` result
models both the Err returns and the out-of-range square write (which would
panic in Rust); the latter is unreachable on well-formed input. -/
def fenStep (st : FenState) (c : Char) : Option FenState :=
  if 1 ≤ st.metaIndex then
    if isWS c then some { st with metaIndex := st.metaIndex + 1 }
    else if st.metaIndex = 1 then
      if c = 'w' then some { st with whiteToMove := true }
      else if c = 'b' then some { st with whiteToMove := false }
      else none
    else if st.metaIndex = 2 then
      if c = 'K' then some { st with wk := true }
      else if c = 'Q' then some { st with wq := true }
      else if c = 'k' then some { st with bk := true }
      else if c = 'q' then some { st with bq := true }
      else if c = '-' then some st
      else none
    else if st.metaIndex = 3 then
      if c = '-' then some { st with ep := 64 }
      else if isLowerAlpha c then
        some { st with ep :=
          (c.toNat - 97) % 8 + (if st.whiteToMove then 40 else 16) }
      else if isDigitCh c then some st
      else none
    else some st
  else
    if c = '/' then
      if st.file ≠ 8 then none
      else some { st with rank := st.rank - 1, file := 0 }
    else if isWS c then
      if st.file ≠ 8 ∨ st.rank ≠ 0 then none
      else some { st with metaIndex := 1 }
    else if isDigitCh c then
      some { st with file := st.file + (c.toNat - 48) }
    else if 8 ≤ st.file then none
    else
      match parseSymbol c with
      | none => none
      | some p =>
        let idx : Int := st.rank * 8 + st.file
        if 0 ≤ idx ∧ idx < 64 then
          some { st with
            squares := st.squares.set idx.toNat (some p)
            file := st.file + 1 }
        else none

/-- SquareCentricBoard::parse_fen over a character list. -/
def parseFen (fen : List Char) : Option SquareCentricBoard :=
  (fen.foldlM fenStep fenInit).map fun st =>
    ⟨st.squares, st.whiteToMove, st.wk, st.wq, st.bk, st.bq, st.ep⟩

/-- Decimal digit character for the run lengths of FEN (always 1-8 here). -/
def digitCh (n : Nat) : Char := Char.ofNat (48 + n)

/-- bitboard.rs, square_to_algebraic. -/
def algebraicChars (square : Nat) : List Char :=
  [Char.ofNat (97 + square % 8), Char.ofNat (49 + square / 8)]

/-- The run-length emission of one FEN rank
(board.rs, SquareCentricBoard::fen, inner loop). -/
def emitRow : List (Option CPiece) → Nat → List Char
  | [], emptyCount => if 0 < emptyCount then [digitCh emptyCount] else []
  | none :: rest, emptyCount => emitRow rest (emptyCount + 1)
  | some p :: rest, emptyCount =>
    (if 0 < emptyCount then [digitCh emptyCount] else []) ++
      p.symbol :: emitRow rest 0

/-- The pieces of one rank, most significant rank first. -/
def SquareCentricBoard.row (s : SquareCentricBoard) (r : Nat) :
    List (Option CPiece) :=
  (List.range 8).map fun f => s.squares.getD (r * 8 + f) none

/-- SquareCentricBoard::fen as a character list.  The source emits the
placement, the active colour surrounded by single spaces, the castling
rights and the en-passant square; it emits no halfmove or fullmove field. -/
def SquareCentricBoard.fenChars (s : SquareCentricBoard) : List Char :=
  ([7, 6, 5, 4, 3, 2, 1, 0].flatMap fun r =>
    emitRow (s.row r) 0 ++ if 0 < r then ['/'] else []) ++
  [' ', if s.whiteToMove then 'w' else 'b', ' '] ++
  ((if s.wk then ['K'] else []) ++ (if s.wq then ['Q'] else []) ++
    (if s.bk then ['k'] else []) ++ (if s.bq then ['q'] else []) ++
    (if s.wk ∨ s.wq ∨ s.bk ∨ s.bq then [] else ['-'])) ++
  (if s.ep < 64 then ' ' :: algebraicChars s.ep else [' ', '-'])

/-- board.rs, Board::empty (its en-passant sentinel is 8). -/
def Board.empty : Board :=
  ⟨0, 0, 0, 0, 0, 0, 0, 0, false, false, false, false, false, 8⟩

/-- The From<SquareCentricBoard> conversion into the bitboard Board. -/
def SquareCentricBoard.toBoard (s : SquareCentricBoard) : Board :=
  let b := (List.range 64).foldl
    (fun (b : Board) i =>
      match s.squares.getD i none with
      | none => b
      | some p =>
        let b := b.setBB p.kind (setBit (b.bb p.kind) i)
        let b := { b with occupied := setBit b.occupied i }
        if p.color = .white then { b with white := setBit b.white i } else b)
    Board.empty
  { b with
    whiteToMove := s.whiteToMove
    wk := s.wk
    wq := s.wq
    bk := s.bk
    bq := s.bq
    enPassantSquare := s.ep }

/-- The From<Board> conversion into the square-centric board (board.rs); the
Rust code asserts Board::verify first, which holds on every board this
development feeds to it. -/
def Board.toSCB (b : Board) : SquareCentricBoard :=
  let sqs := [PieceT.pawn, .knight, .bishop, .rook, .queen, .king].foldl
    (fun sqs k =>
      (scanBits (b.bb k)).foldl
        (fun (sqs : List (Option CPiece)) i =>
          sqs.set i (some ⟨k, if getBit b.white i then .white else .black⟩))
        sqs)
    (List.replicate 64 none)
  ⟨sqs, b.whiteToMove, b.wk, b.wq, b.bk, b.bq, b.enPassantSquare⟩

/-- Board::from_fen. -/
def Board.fromFen (fen : List Char) : Option Board :=
  (parseFen fen).map SquareCentricBoard.toBoard

/-- Board::fen, as a character list. -/
def Board.fenChars (b : Board) : List Char := b.toSCB.fenChars

/-! ### Scores and the static evaluator (eval.rs)

The f32 scores the search manipulates are modelled exactly: on the inputs
this development evaluates, every score is either a signed infinity
(Color::infinity, Color::minmax_ini) or a small integer produced by the
material evaluator, so the model below loses nothing. -/

/-- Exact model of the f32 score values used by the engine. -/
inductive Score
  | negInf
  | fin (v : Int)
  | posInf
deriving DecidableEq

/-- f32 strict order on the modelled values. -/
def Score.lt : Score → Score → Bool
  | .negInf, .negInf => false
  | .negInf, _ => true
  | .fin _, .negInf => false
  | .fin a, .fin c => a < c
  | .fin _, .posInf => true
  | .posInf, _ => false

/-- f32 max (no NaN arises on the modelled values). -/
def Score.max (a c : Score) : Score := if Score.lt a c then c else a

/-- f32 min. -/
def Score.min (a c : Score) : Score := if Score.lt c a then c else a

/-- Color::minmax: max for White, min for Black. -/
def Color.minmax : Color → Score → Score → Score
  | .white, a, c => Score.max a c
  | .black, a, c => Score.min a c

/-- Color::minmax_cmp: strictly better for the given side. -/
def Color.minmaxCmp : Color → Score → Score → Bool
  | .white, a, c => Score.lt c a
  | .black, a, c => Score.lt a c

/-- Color::minmax_ini: the worst score for the given side. -/
def Color.minmaxIni : Color → Score
  | .white => .negInf
  | .black => .posInf

/-- eval.rs, simple_evaluation: material count only.  This is the evaluator
selected when the eval_larry_kaufman feature is disabled (the default). -/
def evaluate (b : Board) : Score :=
  let term := fun (bb : Nat) (value : Int) =>
    let total : Int := countOnes bb
    let whiteCnt : Int := countOnes (bb &&& b.white)
    value * (whiteCnt - (total - whiteCnt))
  .fin (term b.pawn 1 + term b.knight 3 + term b.bishop 3 + term b.rook 5 +
    term b.queen 9 + term b.king 0)

/-! ### The game tree (tree.rs) and the search loop (ai/simple.rs)

The search is embedded for the configuration the claims exercise: the
alpha_beta_soft_pruning cargo feature disabled (the crate's default), the
stop signal never set and no movetime limit (both fixed by the claims under
study), and printing ignored.  Wall-clock reads then never influence the
loop, so the embedding is exact. -/

/-- ai/simple.rs, struct TreeEntry; TerminalFlags is modelled by three
booleans. -/
structure TreeEntry where
  mv : Option Move
  depth : Nat
  score : Score
  board : Board
  cmWhiteWin : Bool
  cmBlackWin : Bool
  stalemate : Bool
deriving DecidableEq

/-- TreeEntry::is_terminal. -/
def TreeEntry.isTerminal (e : TreeEntry) : Bool :=
  e.cmWhiteWin ∨ e.cmBlackWin ∨ e.stalemate

/-- TreeEntry::should_evaluate. -/
def TreeEntry.shouldEvaluate (e : TreeEntry) (epoch : Nat) : Bool :=
  !e.isTerminal ∧ e.depth < epoch

/-- tree.rs, struct TreeNode. -/
structure TreeNode where
  value : TreeEntry
  nextSibling : Option Nat
  firstChild : Option Nat
  parent : Nat
deriving DecidableEq

/-- The arena of tree.rs, a vector of nodes with the root at index 0. -/
abbrev Tree := List TreeNode

/-- Tree::new. -/
def Tree.new (root : TreeEntry) : Tree := [TreeNode.mk root none none 0]

/-- Node access (tree indices are always in range in the embedded runs). -/
def Tree.node (t : Tree) (i : Nat) : TreeNode :=
  t.getD i (TreeNode.mk (TreeEntry.mk none 0 (.fin 0) Board.empty
    false false false) none none 0)

/-- Functional node update. -/
def Tree.setNode (t : Tree) (i : Nat) (n : TreeNode) : Tree := t.set i n

/-- TreeRefMut::push_child: the new node is appended to the arena, its next
sibling is the parent's previous first child, and it becomes the parent's
first child (so siblings are linked in reverse insertion order). -/
def Tree.pushChild (t : Tree) (parent : Nat) (value : TreeEntry) : Tree :=
  let newIndex := t.length
  let parentNode := t.node parent
  let t := t ++ [TreeNode.mk value parentNode.firstChild none parent]
  t.set parent { parentNode with firstChild := some newIndex }

/-- The two stack-frame kinds of SimpleAiCtx::run. -/
inductive StackEntry
  | evaluating (noderef : Nat) (alpha beta : Score)
  | backtracking (noderef : Nat) (current alpha beta : Score)
deriving DecidableEq

/-- Handling of an Evaluating frame (ai/simple.rs lines 137-227). -/
def processEvaluating (t : Tree) (stack : List StackEntry) (epoch : Nat)
    (noderef : Nat) (alpha beta : Score) : Tree × List StackEntry :=
  let node := t.node noderef
  let entry := node.value
  let nextToMove := entry.board.nextToMove
  match node.firstChild with
  | some childRef =>
    (t, .evaluating childRef alpha beta ::
      .backtracking noderef (nextToMove.minmaxIni) alpha beta :: stack)
  | none =>
    if entry.shouldEvaluate epoch then
      let gen := generateMoves entry.board
      match gen.1 with
      | [] =>
        -- Terminal position: checkmate for the side not to move, or
        -- stalemate; the score is the side to move's minmax_ini (its
        -- losing infinity) on checkmate and zero on stalemate.
        let inCheck := gen.2
        let entry :=
          if inCheck then
            if nextToMove = .white then { entry with cmBlackWin := true }
            else { entry with cmWhiteWin := true }
          else { entry with stalemate := true }
        let entry :=
          { entry with
            score := if inCheck then nextToMove.minmaxIni else Score.fin 0 }
        let t := t.setNode noderef { node with value := entry }
        (t, .backtracking noderef entry.score alpha beta :: stack)
      | moves =>
        let t := moves.foldl
          (fun t mv =>
            let newBoard := mv.apply entry.board
            t.pushChild noderef
              (TreeEntry.mk (some mv) (entry.depth + 1) (evaluate newBoard)
                newBoard false false false))
          t
        let firstChildRef := (t.node noderef).firstChild.getD 0
        (t, .evaluating firstChildRef alpha beta ::
          .backtracking noderef (nextToMove.minmaxIni) alpha beta :: stack)
    else
      (t, .backtracking noderef entry.score alpha beta :: stack)

/-- Handling of a Backtracking frame, without the feature-gated soft
pruning (ai/simple.rs lines 229-302). -/
def processBacktracking (t : Tree) (stack : List StackEntry)
    (noderef : Nat) (current alpha beta : Score) : Tree × List StackEntry :=
  let node := t.node noderef
  let nextSiblingRef := node.nextSibling
  let t := t.setNode noderef { node with value := { node.value with score := current } }
  -- Fold the finished child's score into the parent frame below.
  let stack :=
    match stack with
    | .backtracking pRef pCurrent pAlpha pBeta :: rest =>
      let parentColor := ((t.node pRef).value.board).nextToMove
      .backtracking pRef (parentColor.minmax pCurrent current) pAlpha pBeta ::
        rest
    | other => other
  match nextSiblingRef with
  | some sib => (t, .evaluating sib alpha beta :: stack)
  | none => (t, stack)

/-- The match on the popped stack entry inside the run loop. -/
def runIterBody (t : Tree) (stack : List StackEntry) (epoch : Nat) :
    Option (Tree × List StackEntry × Nat) :=
  match stack with
  | .evaluating noderef alpha beta :: rest =>
    let (t, stack) := processEvaluating t rest epoch noderef alpha beta
    some (t, stack, epoch)
  | .backtracking noderef current alpha beta :: rest =>
    let (t, stack) := processBacktracking t rest noderef current alpha beta
    some (t, stack, epoch)
  | [] =>
    some (t, [.evaluating 0 .negInf .posInf], epoch + 1)

/-- One iteration of the run loop of SimpleAiCtx::run for the configuration
under study (no movetime and the stop flag never set): either the loop has
exited (none) or it produced a new state.  The depth check happens before
the stack is popped, exactly as in the source. -/
def runIter (depthLimit : Option Nat) (t : Tree) (stack : List StackEntry)
    (epoch : Nat) : Option (Tree × List StackEntry × Nat) :=
  match depthLimit with
  | some d => if d ≤ epoch then none else runIterBody t stack epoch
  | none => runIterBody t stack epoch

/-- The run loop, driven by fuel (the loop itself terminates only through
its limit checks, which the claims under study always trigger). -/
def runLoop (fuel : Nat) (depthLimit : Option Nat) (t : Tree)
    (stack : List StackEntry) (epoch : Nat) : Tree × List StackEntry × Nat :=
  match fuel with
  | 0 => (t, stack, epoch)
  | fuel + 1 =>
    match runIter depthLimit t stack epoch with
    | none => (t, stack, epoch)
    | some (t, stack, epoch) => runLoop fuel depthLimit t stack epoch

/-- SimpleAiCtx::run on a fresh tree for the given root board. -/
def runSearch (fuel : Nat) (depthLimit : Option Nat) (b : Board) : Tree :=
  (runLoop fuel depthLimit (Tree.new (TreeEntry.mk none 0 (evaluate b) b
    false false false)) [] 0).1

/-- The sibling scan inside derive_results: walk the sibling chain keeping
the child that is strictly better for the parent's side to move. -/
def bestSibling (t : Tree) (color : Color) : Nat → Nat → Nat → Nat
  | 0, _, best => best
  | fuel + 1, childRef, best =>
    match (t.node childRef).nextSibling with
    | none => best
    | some sib =>
      let best :=
        if color.minmaxCmp ((t.node sib).value.score)
            ((t.node best).value.score) then sib else best
      bestSibling t color fuel sib best

/-- The downward walk of derive_results collecting the principal
variation. -/
def pvWalk (t : Tree) : Nat → Nat → List Move
  | 0, _ => []
  | fuel + 1, current =>
    match (t.node current).firstChild with
    | none => []
    | some child =>
      let color := ((t.node current).value.board).nextToMove
      let best := bestSibling t color t.length child child
      match (t.node best).value.mv with
      | some mv => mv :: pvWalk t fuel best
      | none => []

/-- ai/simple.rs, SimpleAiCtx::derive_results: the principal variation, its
first move, and the root score; none when the root has no expanded best
move (the engine then reports bestmove (none)). -/
def deriveResults (t : Tree) : Option (List Move × Move × Score) :=
  let pv := pvWalk t t.length 0
  match pv with
  | [] => none
  | best :: _ => some (pv, best, (t.node 0).value.score)

/-! ### Attack detection and board validity -/

/-- The union of the squares attacked by the side to move, assembled from
the same helpers generate_moves uses for the enemy attack set (with the
full occupancy; a ray stops at and includes its first blocker, so an
attacked king is always inside the set). -/
def sideAttacks (b : Board) : Nat :=
  genRookMovement b.occupied ((b.rook ||| b.queen) &&& b.friendly) |||
    genBishopMovement b.occupied ((b.bishop ||| b.queen) &&& b.friendly) |||
    genKnightMovement (b.knight &&& b.friendly) |||
    genPawnAttacks (b.pawn &&& b.friendly) b.nextToMove |||
    genKingMovement (b.king &&& b.friendly)

/-- Does the side to move attack the enemy king?  Applied to the position
after a move, this says the mover left its own king in check. -/
def enemyKingAttacked (b : Board) : Bool :=
  sideAttacks b &&& (b.king &&& b.enemy) ≠ 0

/-- Does a rook or queen of the side to move attack the enemy king along a
file or rank? -/
def enemyKingAttackedOnLine (b : Board) : Bool :=
  genRookMovement b.occupied ((b.rook ||| b.queen) &&& b.friendly) &&&
    (b.king &&& b.enemy) ≠ 0

/-- All bitboard fields are 64-bit words. -/
def Board.wordsOk (b : Board) : Prop :=
  b.pawn < wordSize ∧ b.knight < wordSize ∧ b.bishop < wordSize ∧
    b.rook < wordSize ∧ b.queen < wordSize ∧ b.king < wordSize ∧
    b.white < wordSize ∧ b.occupied < wordSize

/-- Exactly one king of each colour (spec section 3). -/
def Board.kingsOk (b : Board) : Prop :=
  (∃ k : Fin 64, b.king &&& b.white = bit64 k.val) ∧
    ∃ k : Fin 64, b.king &&& bnot64 b.white = bit64 k.val

/-- No pawn on rank 1 or rank 8 (spec section 3). -/
def Board.pawnsOk (b : Board) : Prop :=
  b.pawn &&& 0xFF000000000000FF = 0

/-- A valid en-passant square sits on the capture rank of the side to move
and the pawn that just advanced two squares belongs to the opposite colour
(spec section 3). -/
def Board.epOk (b : Board) : Prop :=
  b.enPassantSquare < 64 →
    if b.whiteToMove then
      40 ≤ b.enPassantSquare ∧ b.enPassantSquare < 48 ∧
        getBit b.pawn (b.enPassantSquare - 8) = true ∧
        getBit b.white (b.enPassantSquare - 8) = false
    else
      16 ≤ b.enPassantSquare ∧ b.enPassantSquare < 24 ∧
        getBit b.pawn (b.enPassantSquare + 8) = true ∧
        getBit b.white (b.enPassantSquare + 8) = true

/-- A standing castling right implies king and rook still on their home
squares (the static reading of the castling invariant of spec section 3). -/
def Board.castleOk (b : Board) : Prop :=
  (b.wk = true → getBit b.rook 7 = true ∧ getBit b.white 7 = true ∧
    getBit b.king 4 = true ∧ getBit b.white 4 = true) ∧
  (b.wq = true → getBit b.rook 0 = true ∧ getBit b.white 0 = true ∧
    getBit b.king 4 = true ∧ getBit b.white 4 = true) ∧
  (b.bk = true → getBit b.rook 63 = true ∧ getBit b.white 63 = false ∧
    getBit b.king 60 = true ∧ getBit b.white 60 = false) ∧
  (b.bq = true → getBit b.rook 56 = true ∧ getBit b.white 56 = false ∧
    getBit b.king 60 = true ∧ getBit b.white 60 = false)

/-- The Board invariants of spec section 3. -/
def Board.valid (b : Board) : Prop :=
  b.wordsOk ∧ b.verify = true ∧ b.kingsOk ∧ b.pawnsOk ∧ b.epOk ∧ b.castleOk

instance (b : Board) : Decidable b.wordsOk := by
  unfold Board.wordsOk; infer_instance

instance (b : Board) : Decidable b.kingsOk := by
  unfold Board.kingsOk; infer_instance

instance (b : Board) : Decidable b.pawnsOk := by
  unfold Board.pawnsOk; infer_instance

instance (b : Board) : Decidable b.epOk := by
  unfold Board.epOk; infer_instance

instance (b : Board) : Decidable b.castleOk := by
  unfold Board.castleOk; infer_instance

instance (b : Board) : Decidable b.valid := by
  unfold Board.valid; infer_instance

/-! ### The magic candidate pre-filter (magic.rs, find_magic) -/

/-- The candidate rejection test of Magic::find_magic (magic.rs line 107):
the Rust code keeps the masked high byte as a 64-bit value and compares
that value, not its popcount, against 6. -/
def magicCandidateRejected (mask magic : Nat) : Bool :=
  (wmul64 mask magic &&& 0xFF00000000000000) < 6

/-! ### Concrete positions used by the theorems -/

/-- FEN of the en-passant discovered-check position: white Ph5-king... the
white king on h5 and pawn on e5, a black rook on a5 and pawn on d5 (which
just advanced d7-d5, so d6 is capturable en passant), the black king on
a8. -/
def epBugFen : List Char :=
  ['k', '7', '/', '8', '/', '8', '/', 'r', '2', 'p', 'P', '2', 'K', '/',
    '8', '/', '8', '/', '8', '/', '8', ' ', 'w', ' ', '-', ' ', 'd', '6',
    ' ', '0', ' ', '1']

/-- The board parsed from epBugFen. -/
def epBugBoard : Board := (Board.fromFen epBugFen).getD Board.empty

/-- The en-passant capture e5xd6 in that position. -/
def epBugMove : Move := Move.mk 36 43 .pawn none false true

/-- A position in which the black king stands en prise: white Ra1 and Ke1,
black Ka8, white to move. -/
def kingCaptureBoard : Board :=
  (Board.fromFen ['k', '7', '/', '8', '/', '8', '/', '8', '/', '8', '/',
    '8', '/', '8', '/', 'R', '3', 'K', '3', ' ', 'w', ' ', '-', ' ', '-',
    ' ', '0', ' ', '1']).getD Board.empty

/-- The rook move a1xa8 capturing the black king. -/
def kingCaptureMove : Move := Move.mk 0 56 .rook none false false

/-- FEN of the mate-in-one scenario of spec section 8
(6k1/5ppp/8/8/8/8/5PPP/R5K1 w - - 0 1). -/
def mateFen : List Char :=
  ['6', 'k', '1', '/', '5', 'p', 'p', 'p', '/', '8', '/', '8', '/', '8',
    '/', '8', '/', '5', 'P', 'P', 'P', '/', 'R', '5', 'K', '1', ' ', 'w',
    ' ', '-', ' ', '-', ' ', '0', ' ', '1']

/-- The board parsed from mateFen. -/
def mateBoard : Board := (Board.fromFen mateFen).getD Board.empty

/-- The position after Ra1-a8 in the mate scenario: black is checkmated. -/
def matedBoard : Board := (Move.mk 0 56 .rook none false false).apply mateBoard


/-! ### FEN round-trip support -/

/-- The squares written when one emitted rank is parsed back: every `some`
entry of the row lands at its square, `none` entries are skipped. -/
def writeRowAux (rank8 : Nat) : List (Option CPiece) → Nat →
    List (Option CPiece) → List (Option CPiece)
  | [], _, sqs => sqs
  | none :: rest, pos, sqs => writeRowAux rank8 rest (pos + 1) sqs
  | some p :: rest, pos, sqs =>
    writeRowAux rank8 rest (pos + 1) (sqs.set (rank8 + pos) (some p))

/-- The placement section of fenChars, ranks r down to 0. -/
def placeFrom (s : SquareCentricBoard) : Nat → List Char
  | 0 => emitRow (s.row 0) 0
  | r + 1 => emitRow (s.row (r + 1)) 0 ++ '/' :: placeFrom s r

/-- The accumulated square writes of parsing ranks r down to 0. -/
def rowsWritten (s : SquareCentricBoard) (sqs : List (Option CPiece)) :
    Nat → List (Option CPiece)
  | 0 => writeRowAux 0 (s.row 0) 0 sqs
  | r + 1 => rowsWritten s (writeRowAux ((r + 1) * 8) (s.row (r + 1)) 0 sqs) r

/-- The squares recovered by parsing an emitted placement section. -/
def parsedSquares (s : SquareCentricBoard) : List (Option CPiece) :=
  rowsWritten s (List.replicate 64 none) 7

/-- The piece kind recorded at square i of a square-centric board. -/
def kindAtIs (s : SquareCentricBoard) (i : Nat) (k : PieceT) : Bool :=
  match s.squares.getD i none with
  | some p => p.kind = k
  | none => false

/-- Whether square i of a square-centric board holds a white piece. -/
def whiteAtIs (s : SquareCentricBoard) (i : Nat) : Bool :=
  match s.squares.getD i none with
  | some p => p.color = .white
  | none => false

/-- Whether square i of a square-centric board is occupied. -/
def occAtIs (s : SquareCentricBoard) (i : Nat) : Bool :=
  (s.squares.getD i none).isSome

/-- The loop body of the From<SquareCentricBoard> conversion. -/
def toBoardAux (s : SquareCentricBoard) (b : Board) (i : Nat) : Board :=
  match s.squares.getD i none with
  | none => b
  | some p =>
    let b := b.setBB p.kind (setBit (b.bb p.kind) i)
    let b := { b with occupied := setBit b.occupied i }
    if p.color = .white then { b with white := setBit b.white i } else b

end Chess

namespace Chess

set_option maxRecDepth 40000

/-! ### Bit-level toolkit -/

theorem wordSize_eq : wordSize = 2 ^ 64 := rfl

theorem testBit_wordMask (i : Nat) : wordMask.testBit i = decide (i < 64) := by
  have h : wordMask = 2 ^ 64 - 1 := rfl
  rw [h, Nat.testBit_two_pow_sub_one]

theorem testBit_bnot64 (x i : Nat) :
    (bnot64 x).testBit i = ((x.testBit i).xor (decide (i < 64))) := by
  rw [bnot64, Nat.testBit_xor, testBit_wordMask]

theorem testBit_bnot64_lt (x : Nat) {i : Nat} (h : i < 64) :
    (bnot64 x).testBit i = !x.testBit i := by
  rw [testBit_bnot64]
  simp [h]

theorem bit64_eq {i : Nat} (h : i < 64) : bit64 i = 2 ^ i := by
  rw [bit64, shl64, Nat.shiftLeft_eq, one_mul, wordSize_eq]
  exact Nat.mod_eq_of_lt (Nat.pow_lt_pow_right one_lt_two h)

theorem bit64_eq_zero {i : Nat} (h : 64 ≤ i) : bit64 i = 0 := by
  rw [bit64, shl64, Nat.shiftLeft_eq, one_mul, wordSize_eq]
  have hsplit : (2 : Nat) ^ i = 2 ^ 64 * 2 ^ (i - 64) := by
    rw [← pow_add]
    congr 1
    omega
  rw [hsplit, Nat.mul_mod_right]

theorem testBit_bit64 {i : Nat} (h : i < 64) (j : Nat) :
    (bit64 i).testBit j = decide (i = j) := by
  rw [bit64_eq h, Nat.testBit_two_pow]

theorem bit64_lt {i : Nat} : bit64 i < wordSize := by
  rw [bit64, shl64]
  exact Nat.mod_lt _ (by decide)

theorem bit64_pos {i : Nat} (h : i < 64) : 0 < bit64 i := by
  rw [bit64_eq h]
  positivity

theorem testBit_setBit (x i j : Nat) (hi : i < 64) :
    (setBit x i).testBit j = (x.testBit j || decide (i = j)) := by
  rw [setBit, Nat.testBit_or, testBit_bit64 hi]

theorem testBit_unsetBit (x i j : Nat) (hi : i < 64) (hj : j < 64) :
    (unsetBit x i).testBit j = (x.testBit j && !decide (i = j)) := by
  rw [unsetBit, Nat.testBit_and, testBit_bnot64_lt _ hj, testBit_bit64 hi]

theorem land_lt_wordSize (x : Nat) {y : Nat} (hy : y < wordSize) :
    x &&& y < wordSize := by
  rw [wordSize_eq] at hy ⊢
  exact Nat.and_lt_two_pow x hy

theorem lor_lt_wordSize {x y : Nat} (hx : x < wordSize) (hy : y < wordSize) :
    x ||| y < wordSize := by
  rw [wordSize_eq] at hx hy ⊢
  exact Nat.or_lt_two_pow hx hy

theorem xor_lt_wordSize {x y : Nat} (hx : x < wordSize) (hy : y < wordSize) :
    x ^^^ y < wordSize := by
  rw [wordSize_eq] at hx hy ⊢
  exact Nat.xor_lt_two_pow hx hy

theorem bnot64_lt {x : Nat} (hx : x < wordSize) : bnot64 x < wordSize :=
  xor_lt_wordSize hx (by decide)

theorem setBit_lt {x i : Nat} (hx : x < wordSize) : setBit x i < wordSize :=
  lor_lt_wordSize hx bit64_lt

theorem unsetBit_lt (x i : Nat) : unsetBit x i < wordSize :=
  land_lt_wordSize _ (bnot64_lt bit64_lt)

theorem testBit_ge_64 {x : Nat} (hx : x < wordSize) {i : Nat} (hi : 64 ≤ i) :
    x.testBit i = false := by
  rw [wordSize_eq] at hx
  exact Nat.testBit_lt_two_pow
    (lt_of_lt_of_le hx (Nat.pow_le_pow_right (by decide) hi))

theorem lt_wordSize_of_testBit {x : Nat}
    (h : ∀ i, 64 ≤ i → x.testBit i = false) : x < wordSize := by
  rw [wordSize_eq]
  exact Nat.lt_pow_two_of_testBit x h

/-! ### ilog2 and scan characterization -/

theorem ilog2Go_spec : ∀ (fuel x : Nat), 0 < x → x < 2 ^ fuel →
    2 ^ ilog2Go fuel x ≤ x ∧ x < 2 ^ (ilog2Go fuel x + 1)
  | 0, x, hx, hlt => by
    exfalso
    rw [pow_zero] at hlt
    omega
  | fuel + 1, x, hx, hlt => by
    rw [ilog2Go]
    by_cases h2 : x < 2
    · simp only [h2, if_true]
      exact ⟨by simpa using hx, by simpa using h2⟩
    · simp only [h2, if_false]
      have hx2 : 0 < x / 2 := Nat.div_pos (by omega) (by omega)
      have hlt2 : x / 2 < 2 ^ fuel := by
        rw [Nat.div_lt_iff_lt_mul (by omega), ← Nat.pow_succ]
        exact hlt
      obtain ⟨ha, hb⟩ := ilog2Go_spec fuel (x / 2) hx2 hlt2
      refine ⟨?_, ?_⟩
      · calc 2 ^ (ilog2Go fuel (x / 2) + 1) = 2 ^ ilog2Go fuel (x / 2) * 2 :=
            Nat.pow_succ ..
          _ ≤ x / 2 * 2 := Nat.mul_le_mul_right 2 ha
          _ ≤ x := Nat.div_mul_le_self x 2
      · calc x < (x / 2 + 1) * 2 := by omega
          _ ≤ 2 ^ (ilog2Go fuel (x / 2) + 1) * 2 :=
            Nat.mul_le_mul_right 2 (by omega)
          _ = 2 ^ (ilog2Go fuel (x / 2) + 1 + 1) := (Nat.pow_succ ..).symm

theorem ilog2_spec {x : Nat} (hx : 0 < x) (hlt : x < wordSize) :
    2 ^ ilog2 x ≤ x ∧ x < 2 ^ (ilog2 x + 1) :=
  ilog2Go_spec 64 x hx (wordSize_eq ▸ hlt)

theorem ilog2_lt_64 {x : Nat} (hx : 0 < x) (hlt : x < wordSize) :
    ilog2 x < 64 := by
  obtain ⟨h1, _⟩ := ilog2_spec hx hlt
  by_contra hge
  rw [wordSize_eq] at hlt
  exact absurd (lt_of_le_of_lt h1 hlt)
    (not_lt.mpr (Nat.pow_le_pow_right (by decide) (le_of_not_lt hge)))

theorem testBit_ilog2 {x : Nat} (hx : 0 < x) (hlt : x < wordSize) :
    x.testBit (ilog2 x) = true := by
  obtain ⟨h1, h2⟩ := ilog2_spec hx hlt
  rw [Nat.testBit_to_div_mod]
  have hpos : (0 : Nat) < 2 ^ ilog2 x := by positivity
  have hge : 1 ≤ x / 2 ^ ilog2 x := (Nat.le_div_iff_mul_le hpos).mpr (by omega)
  have hlt2 : x / 2 ^ ilog2 x < 2 := by
    rw [Nat.div_lt_iff_lt_mul hpos]
    calc x < 2 ^ (ilog2 x + 1) := h2
      _ = 2 * 2 ^ ilog2 x := by ring
  have heq : x / 2 ^ ilog2 x = 1 := by omega
  simp [heq]

theorem testBit_gt_ilog2 {x : Nat} (hx : 0 < x) (hlt : x < wordSize) {j : Nat}
    (hj : ilog2 x < j) : x.testBit j = false := by
  obtain ⟨_, h2⟩ := ilog2_spec hx hlt
  exact Nat.testBit_lt_two_pow
    (lt_of_lt_of_le h2 (Nat.pow_le_pow_right (by decide) hj))

theorem ilog2_eq_of_single {k : Nat} (hk : k < 64) : ilog2 (bit64 k) = k := by
  rw [bit64_eq hk]
  have h1 : (0 : Nat) < 2 ^ k := by positivity
  have h2 : (2 : Nat) ^ k < wordSize := by
    rw [wordSize_eq]
    exact Nat.pow_lt_pow_right one_lt_two hk
  obtain ⟨ha, hb⟩ := ilog2_spec h1 h2
  have hle : ilog2 (2 ^ k) ≤ k :=
    (Nat.pow_le_pow_iff_right (by decide)).mp ha
  have hge : k < ilog2 (2 ^ k) + 1 :=
    (Nat.pow_lt_pow_iff_right (by decide)).mp hb
  omega

theorem testBit_clear_top {x : Nat} (hx : 0 < x) (hlt : x < wordSize)
    (j : Nat) : (x &&& bnot64 (bit64 (ilog2 x))).testBit j =
      (x.testBit j && !decide (ilog2 x = j)) := by
  by_cases hj : j < 64
  · rw [Nat.testBit_and, testBit_bnot64_lt _ hj,
      testBit_bit64 (ilog2_lt_64 hx hlt) j]
  · have h1 : x.testBit j = false := testBit_ge_64 hlt (by omega)
    rw [Nat.testBit_and, h1]
    simp

theorem clear_top_lt {x : Nat} (hx : 0 < x) (hlt : x < wordSize) :
    x &&& bnot64 (bit64 (ilog2 x)) < 2 ^ ilog2 x := by
  apply Nat.lt_pow_two_of_testBit
  intro j hj
  rw [testBit_clear_top hx hlt j]
  rcases Nat.eq_or_lt_of_le hj with heq | hjgt
  · simp [heq]
  · simp [testBit_gt_ilog2 hx hlt hjgt]

/-- Soundness and completeness of Bitboard::scan for 64-bit words: the
produced indices are exactly the set bits. -/
theorem mem_scanGo : ∀ (fuel x : Nat), x < 2 ^ fuel → x < wordSize →
    ∀ i, i ∈ scanGo fuel x ↔ x.testBit i = true
  | 0, x, hfuel, _, i => by
    rw [pow_zero] at hfuel
    have : x = 0 := by omega
    subst this
    simp [scanGo]
  | fuel + 1, x, hfuel, hword, i => by
    rw [scanGo]
    by_cases hz : x = 0
    · simp [hz]
    · simp only [hz, if_false, List.mem_cons]
      have hx : 0 < x := Nat.pos_of_ne_zero hz
      have hlt2 : x &&& bnot64 (bit64 (ilog2 x)) < 2 ^ fuel := by
        have h1 := clear_top_lt hx hword
        have h2 : ilog2 x ≤ fuel := by
          by_contra hgt
          obtain ⟨hging, _⟩ := ilog2_spec hx hword
          exact absurd (lt_of_le_of_lt hging hfuel)
            (not_lt.mpr (Nat.pow_le_pow_right (by decide) (by omega)))
        exact lt_of_lt_of_le h1 (Nat.pow_le_pow_right (by decide) h2)
      have hword2 : x &&& bnot64 (bit64 (ilog2 x)) < wordSize :=
        land_lt_wordSize _ (bnot64_lt bit64_lt)
      rw [mem_scanGo fuel _ hlt2 hword2 i, testBit_clear_top hx hword i]
      constructor
      · rintro (rfl | hmem)
        · exact testBit_ilog2 hx hword
        · exact (Bool.and_eq_true_iff.mp hmem).1
      · intro htb
        by_cases hi : ilog2 x = i
        · exact Or.inl hi.symm
        · exact Or.inr (by simp [htb, hi])

theorem mem_scanBits {x : Nat} (hx : x < wordSize) (i : Nat) :
    i ∈ scanBits x ↔ x.testBit i = true :=
  mem_scanGo 64 x (wordSize_eq ▸ hx) hx i



theorem parseSymbol_symbol (p : CPiece) : parseSymbol p.symbol = some p := by
  obtain ⟨k, c⟩ := p
  cases k <;> cases c <;> rfl

theorem symbol_facts (p : CPiece) :
    isWS p.symbol = false ∧ (p.symbol = '/') = False ∧
      isDigitCh p.symbol = false := by
  obtain ⟨k, c⟩ := p
  cases k <;> cases c <;> exact ⟨rfl, by simp [CPiece.symbol], rfl⟩

theorem digitCh_facts {n : Nat} (h1 : 1 ≤ n) (h8 : n ≤ 8) :
    (digitCh n = '/') = False ∧ isWS (digitCh n) = false ∧
      isDigitCh (digitCh n) = true ∧ (digitCh n).toNat - 48 = n := by
  interval_cases n <;> exact ⟨by decide, rfl, rfl, rfl⟩

theorem fenStep_digit (st : FenState) (hm : st.metaIndex = 0) {c : Char}
    (h1 : (c = '/') = False) (h2 : isWS c = false) (h3 : isDigitCh c = true) :
    fenStep st c = some { st with file := st.file + (c.toNat - 48) } := by
  rw [fenStep, if_neg (by omega), if_neg (by simp [h1]),
    if_neg (by simp [h2]), if_pos h3]

theorem fenStep_piece (st : FenState) (hm : st.metaIndex = 0) (p : CPiece)
    (hf : st.file < 8) (hr0 : 0 ≤ st.rank) (hr8 : st.rank < 8) :
    fenStep st p.symbol =
      some { st with
        squares := st.squares.set (st.rank.toNat * 8 + st.file) (some p)
        file := st.file + 1 } := by
  obtain ⟨h2, h1, h3⟩ := symbol_facts p
  rw [fenStep, if_neg (by omega), if_neg (by simp [h1]),
    if_neg (by simp [h2]), if_neg (by simp [h3]), if_neg (by omega),
    parseSymbol_symbol]
  have hidx : (0 : Int) ≤ st.rank * 8 + st.file ∧
      (st.rank * 8 + st.file : Int) < 64 := by
    constructor <;> omega
  have harith : ((st.rank * 8 + (st.file : Int))).toNat =
      st.rank.toNat * 8 + st.file := by omega
  simp [hidx.1, hidx.2, harith]

theorem fenStep_slash (st : FenState) (hm : st.metaIndex = 0)
    (hf : st.file = 8) :
    fenStep st '/' = some { st with rank := st.rank - 1, file := 0 } := by
  rw [fenStep, if_neg (by omega), if_pos rfl, if_neg (by omega)]

theorem fenStep_ws_meta0 (st : FenState) (hm : st.metaIndex = 0)
    (hf : st.file = 8) (hr : st.rank = 0) :
    fenStep st ' ' = some { st with metaIndex := 1 } := by
  rw [fenStep, if_neg (by omega), if_neg (by decide),
    if_pos (show isWS ' ' = true from rfl), if_neg (by omega)]

/-- Parsing the emission of one rank writes the rank's pieces back and
leaves the parser at file 8 of the same rank. -/
theorem parse_emitRow : ∀ (row : List (Option CPiece)) (c : Nat)
    (st : FenState), st.metaIndex = 0 → 0 ≤ st.rank → st.rank < 8 →
    st.file + c + row.length = 8 →
    List.foldlM fenStep st (emitRow row c) =
      some { st with
        squares := writeRowAux (st.rank.toNat * 8) row (st.file + c) st.squares
        file := 8 }
  | [], c, st, hm, hr0, hr8, hlen => by
    rw [emitRow, writeRowAux]
    by_cases hc : 0 < c
    · obtain ⟨hd1, hd2, hd3, hd4⟩ :=
        digitCh_facts hc (by simp at hlen; omega)
      simp only [hc, if_true, List.foldlM_cons, List.foldlM_nil,
        fenStep_digit st hm hd1 hd2 hd3, Option.pure_def,
        Option.bind_eq_bind, Option.some_bind]
      have hfc : st.file + ((digitCh c).toNat - 48) = 8 := by
        rw [hd4]
        simp at hlen
        omega
      rw [hfc]
    · have hc0 : c = 0 := by omega
      subst hc0
      have hf : st.file = 8 := by simp at hlen; omega
      simp only [if_neg (by omega : ¬ (0:Nat) < 0), List.foldlM_nil]
      rw [← hf]
      rfl
  | none :: rest, c, st, hm, hr0, hr8, hlen => by
    rw [emitRow, writeRowAux]
    exact parse_emitRow rest (c + 1) st hm hr0 hr8 (by simp at hlen ⊢; omega)
  | some p :: rest, c, st, hm, hr0, hr8, hlen => by
    rw [emitRow, writeRowAux]
    have hrest : st.file + c + 1 + rest.length = 8 := by simp at hlen; omega
    by_cases hc : 0 < c
    · obtain ⟨hd1, hd2, hd3, hd4⟩ := digitCh_facts hc (by omega)
      simp only [hc, if_true, List.cons_append, List.nil_append,
        List.foldlM_cons, fenStep_digit st hm hd1 hd2 hd3, hd4,
        Option.pure_def, Option.bind_eq_bind, Option.some_bind]
      rw [fenStep_piece { st with file := st.file + c } hm p
        (by simp; omega) hr0 hr8]
      simp only [Option.some_bind]
      exact parse_emitRow rest 0 _ hm hr0 hr8 (by simp; omega)
    · have hc0 : c = 0 := by omega
      subst hc0
      simp only [if_neg (by omega : ¬ (0:Nat) < 0), List.nil_append,
        List.foldlM_cons, fenStep_piece st hm p (by omega) hr0 hr8,
        Option.pure_def, Option.bind_eq_bind, Option.some_bind]
      exact parse_emitRow rest 0 _ hm hr0 hr8 (by simp; omega)

theorem row_length (s : SquareCentricBoard) (r : Nat) :
    (s.row r).length = 8 := by
  simp [SquareCentricBoard.row]

/-- Parsing the whole placement section writes every rank back and leaves
the parser at rank 0, file 8, still before the metadata section. -/
theorem parse_placeFrom (s : SquareCentricBoard) :
    ∀ (r : Nat) (st : FenState), r < 8 → st.metaIndex = 0 → st.file = 0 →
    st.rank = (r : Int) →
    List.foldlM fenStep st (placeFrom s r) =
      some { st with
        squares := rowsWritten s st.squares r
        file := 8
        rank := 0 }
  | 0, st, hr, hm, hf, hrk => by
    rw [placeFrom, parse_emitRow (s.row 0) 0 st hm (by omega) (by omega)
      (by rw [row_length]; omega), rowsWritten]
    simp [hf, hrk]
  | r + 1, st, hr, hm, hf, hrk => by
    rw [placeFrom, List.foldlM_append,
      parse_emitRow (s.row (r + 1)) 0 st hm (by omega) (by omega)
        (by rw [row_length]; omega), Option.bind_eq_bind, Option.some_bind,
      List.foldlM_cons]
    set st1 : FenState := { st with
      squares := writeRowAux (st.rank.toNat * 8) (s.row (r + 1))
        (st.file + 0) st.squares
      file := 8 } with hst1
    rw [fenStep_slash st1 (by simp [hst1, hm]) (by simp [hst1]),
      Option.bind_eq_bind, Option.some_bind]
    rw [parse_placeFrom s r { st1 with rank := st1.rank - 1, file := 0 }
      (by omega) (by simp [hst1, hm]) rfl (by simp [hst1, hrk])]
    rw [rowsWritten]
    simp only [hst1]
    have h1 : st.rank.toNat * 8 = (r + 1) * 8 := by
      rw [hrk]
      simp
    have h2 : st.file + 0 = 0 := by omega
    rw [h1, h2]

theorem fenStep_ws_meta (st : FenState) (hm : 1 ≤ st.metaIndex) {c : Char}
    (hc : isWS c = true) :
    fenStep st c = some { st with metaIndex := st.metaIndex + 1 } := by
  rw [fenStep, if_pos hm, if_pos hc]

theorem fenStep_meta1_w (st : FenState) (hm : st.metaIndex = 1) :
    fenStep st 'w' = some { st with whiteToMove := true } := by
  rw [fenStep, if_pos (by omega), if_neg (by decide), if_pos hm, if_pos rfl]

theorem fenStep_meta1_b (st : FenState) (hm : st.metaIndex = 1) :
    fenStep st 'b' = some { st with whiteToMove := false } := by
  rw [fenStep, if_pos (by omega), if_neg (by decide), if_pos hm,
    if_neg (by decide), if_pos rfl]

/-- The four castling-rights characters and the dash at metadata index 2. -/
theorem parse_castling (st : FenState) (hm : st.metaIndex = 2)
    (cwk cwq cbk cbq : Bool) :
    List.foldlM fenStep st ((if cwk then ['K'] else []) ++
      (if cwq then ['Q'] else []) ++ (if cbk then ['k'] else []) ++
      (if cbq then ['q'] else []) ++
      (if cwk ∨ cwq ∨ cbk ∨ cbq then [] else ['-'])) =
      some { st with
        wk := st.wk || cwk
        wq := st.wq || cwq
        bk := st.bk || cbk
        bq := st.bq || cbq } := by
  cases cwk <;> cases cwq <;> cases cbk <;> cases cbq <;>
    simp [fenStep, hm, isWS, isDigitCh] <;> rw [← hm]

theorem fenStep_meta3_dash (st : FenState) (hm : st.metaIndex = 3) :
    fenStep st '-' = some { st with ep := 64 } := by
  rw [fenStep, if_pos (by omega), if_neg (by decide), if_neg (by omega),
    if_neg (by omega), if_pos hm, if_pos rfl]

theorem fenStep_meta3_file (st : FenState) (hm : st.metaIndex = 3) {c : Char}
    (hws : isWS c = false) (hc : isLowerAlpha c = true) :
    fenStep st c = some { st with
      ep := (c.toNat - 97) % 8 + if st.whiteToMove then 40 else 16 } := by
  have hdash : (c = '-') = False := by
    simp only [eq_iff_iff, iff_false]
    intro h
    subst h
    simp [isLowerAlpha] at hc
  rw [fenStep, if_pos (by omega), if_neg (by simp [hws]), if_neg (by omega),
    if_neg (by omega), if_pos hm, if_neg (by simp [hdash]), if_pos hc]

theorem fenStep_meta3_digit (st : FenState) (hm : st.metaIndex = 3) {c : Char}
    (hws : isWS c = false) (hdash : (c = '-') = False)
    (halpha : isLowerAlpha c = false) (hdig : isDigitCh c = true) :
    fenStep st c = some st := by
  rw [fenStep, if_pos (by omega), if_neg (by simp [hws]), if_neg (by omega),
    if_neg (by omega), if_pos hm, if_neg (by simp [hdash]),
    if_neg (by simp [halpha]), if_pos hdig]

theorem placement_eq (s : SquareCentricBoard) :
    ([7, 6, 5, 4, 3, 2, 1, 0].flatMap fun r =>
      emitRow (s.row r) 0 ++ if 0 < r then ['/'] else []) = placeFrom s 7 := by
  simp [placeFrom]

/-- Parsing an emitted FEN recovers the board: the squares written back, the
same flags, and the en-passant square (collapsed to the sentinel 64 when it
was any out-of-board value), provided a valid en-passant square sits on the
capture rank of the side to move. -/
theorem parse_fenChars (s : SquareCentricBoard)
    (hep : s.ep < 64 →
      if s.whiteToMove then 40 ≤ s.ep ∧ s.ep < 48
      else 16 ≤ s.ep ∧ s.ep < 24) :
    parseFen s.fenChars =
      some ⟨parsedSquares s, s.whiteToMove, s.wk, s.wq, s.bk, s.bq,
        if s.ep < 64 then s.ep else 64⟩ := by
  rw [parseFen, SquareCentricBoard.fenChars, placement_eq,
    List.foldlM_append, List.foldlM_append, List.foldlM_append,
    parse_placeFrom s 7 fenInit (by decide) rfl rfl rfl,
    Option.bind_eq_bind, Option.some_bind]
  set st1 : FenState := { fenInit with
    squares := rowsWritten s fenInit.squares 7
    file := 8
    rank := 0 } with hst1
  rw [List.foldlM_cons,
    fenStep_ws_meta0 st1 (by simp [hst1, fenInit]) (by simp [hst1, fenInit])
      (by simp [hst1]), Option.bind_eq_bind, Option.some_bind]
  set st2 : FenState := { st1 with metaIndex := 1 } with hst2
  have hact : fenStep st2 (if s.whiteToMove then 'w' else 'b') =
      some { st2 with whiteToMove := s.whiteToMove } := by
    cases hw : s.whiteToMove
    · simpa using fenStep_meta1_b st2 (by simp [hst2])
    · simpa using fenStep_meta1_w st2 (by simp [hst2])
  rw [List.foldlM_cons, hact, Option.bind_eq_bind, Option.some_bind]
  set st3 : FenState := { st2 with whiteToMove := s.whiteToMove } with hst3
  rw [List.foldlM_cons,
    fenStep_ws_meta st3 (by simp [hst3, hst2]) (by decide),
    Option.bind_eq_bind, Option.some_bind, List.foldlM_nil]
  set st4 : FenState := { st3 with metaIndex := st3.metaIndex + 1 } with hst4
  have hm4 : st4.metaIndex = 2 := by simp [hst4, hst3, hst2]
  rw [Option.pure_def, Option.some_bind,
    parse_castling st4 hm4 s.wk s.wq s.bk s.bq, Option.some_bind]
  set st5 : FenState := { st4 with
    wk := st4.wk || s.wk
    wq := st4.wq || s.wq
    bk := st4.bk || s.bk
    bq := st4.bq || s.bq } with hst5
  have hm5 : st5.metaIndex = 2 := by simp [hst5, hm4]
  have hw5 : st5.whiteToMove = s.whiteToMove := by
    simp [hst5, hst4, hst3]
  by_cases heplt : s.ep < 64
  · rw [if_pos heplt, List.foldlM_cons,
      fenStep_ws_meta st5 (by omega) (by decide),
      Option.bind_eq_bind, Option.some_bind]
    set st6 : FenState := { st5 with metaIndex := st5.metaIndex + 1 } with hst6
    have hm6 : st6.metaIndex = 3 := by simp [hst6, hm5]
    have hw6 : st6.whiteToMove = s.whiteToMove := by
      rw [hst6]
    have hfc : isWS (Char.ofNat (97 + s.ep % 8)) = false ∧
        isLowerAlpha (Char.ofNat (97 + s.ep % 8)) = true ∧
        (Char.ofNat (97 + s.ep % 8)).toNat = 97 + s.ep % 8 := by
      have hk8 : s.ep % 8 < 8 := Nat.mod_lt _ (by decide)
      set k := s.ep % 8 with hk
      interval_cases k <;> exact ⟨rfl, rfl, rfl⟩
    rw [algebraicChars, List.foldlM_cons,
      fenStep_meta3_file st6 hm6 hfc.1 hfc.2.1,
      Option.bind_eq_bind, Option.some_bind]
    have hepeq : ((Char.ofNat (97 + s.ep % 8)).toNat - 97) % 8 +
        (if s.whiteToMove then 40 else 16) = s.ep := by
      rw [hfc.2.2]
      have h8 : (97 + s.ep % 8 - 97) % 8 = s.ep % 8 := by
        have h9 : 97 + s.ep % 8 - 97 = s.ep % 8 := by omega
        rw [h9, Nat.mod_mod_of_dvd _ (dvd_refl 8)]
      rw [h8]
      have hrange := hep heplt
      cases hw : s.whiteToMove <;> rw [hw] at hrange <;>
        simp at hrange ⊢ <;> omega
    set st7 : FenState := { st6 with
      ep := ((Char.ofNat (97 + s.ep % 8)).toNat - 97) % 8 +
        if st6.whiteToMove then 40 else 16 } with hst7
    have hm7 : st7.metaIndex = 3 := by simp [hst7, hm6]
    have hdig : isWS (Char.ofNat (49 + s.ep / 8)) = false ∧
        (Char.ofNat (49 + s.ep / 8) = '-') = False ∧
        isLowerAlpha (Char.ofNat (49 + s.ep / 8)) = false ∧
        isDigitCh (Char.ofNat (49 + s.ep / 8)) = true := by
      have hrange := hep heplt
      have hq : s.ep / 8 = 5 ∨ s.ep / 8 = 2 := by
        cases hw : s.whiteToMove <;> rw [hw] at hrange <;>
          simp at hrange <;> omega
      rcases hq with hq | hq <;> rw [hq] <;> exact ⟨rfl, by decide, rfl, rfl⟩
    rw [List.foldlM_cons, fenStep_meta3_digit st7 hm7 hdig.1 hdig.2.1
      hdig.2.2.1 hdig.2.2.2, Option.bind_eq_bind, Option.some_bind,
      List.foldlM_nil]
    rw [if_pos heplt]
    have hsq : st7.squares = parsedSquares s := by
      simp [hst7, hst6, hst5, hst4, hst3, hst2, hst1, parsedSquares, fenInit]
    have hflags : st7.wk = s.wk ∧ st7.wq = s.wq ∧ st7.bk = s.bk ∧
        st7.bq = s.bq := by
      simp [hst7, hst6, hst5, hst4, hst3, hst2, hst1, fenInit]
    have hwtm : st7.whiteToMove = s.whiteToMove := by
      rw [hst7]
    have hep7 : st7.ep = s.ep := by
      rw [hst7]
      show (((Char.ofNat (97 + s.ep % 8)).toNat - 97) % 8 +
        if st6.whiteToMove = true then 40 else 16) = s.ep
      rw [hw6]
      exact hepeq
    simp [hsq, hflags.1, hflags.2.1, hflags.2.2.1, hflags.2.2.2, hwtm, hep7]
    refine ⟨rfl, by simp [fenInit], by simp [fenInit], by simp [fenInit],
      by simp [fenInit], hepeq⟩
  · rw [if_neg heplt, List.foldlM_cons,
      fenStep_ws_meta st5 (by omega) (by decide),
      Option.bind_eq_bind, Option.some_bind]
    set st6 : FenState := { st5 with metaIndex := st5.metaIndex + 1 } with hst6
    have hm6 : st6.metaIndex = 3 := by simp [hst6, hm5]
    rw [List.foldlM_cons, fenStep_meta3_dash st6 hm6,
      Option.bind_eq_bind, Option.some_bind, List.foldlM_nil]
    rw [if_neg heplt]
    have hsq : st6.squares = parsedSquares s := by
      simp [hst6, hst5, hst4, hst3, hst2, hst1, parsedSquares, fenInit]
    have hflags : st6.wk = s.wk ∧ st6.wq = s.wq ∧ st6.bk = s.bk ∧
        st6.bq = s.bq := by
      simp [hst6, hst5, hst4, hst3, hst2, hst1, fenInit]
    have hwtm : st6.whiteToMove = s.whiteToMove := by
      rw [hst6]
    simp [hsq, hflags.1, hflags.2.1, hflags.2.2.1, hflags.2.2.2, hwtm]
    exact ⟨rfl, by simp [fenInit], by simp [fenInit], by simp [fenInit],
      by simp [fenInit]⟩

theorem writeRowAux_length (rank8 : Nat) :
    ∀ (row : List (Option CPiece)) (pos : Nat) (sqs : List (Option CPiece)),
    (writeRowAux rank8 row pos sqs).length = sqs.length
  | [], _, _ => rfl
  | none :: rest, pos, sqs => writeRowAux_length rank8 rest (pos + 1) sqs
  | some p :: rest, pos, sqs => by
    rw [writeRowAux, writeRowAux_length rank8 rest (pos + 1) _,
      List.length_set]

theorem rowsWritten_length (s : SquareCentricBoard) :
    ∀ (r : Nat) (sqs : List (Option CPiece)),
    (rowsWritten s sqs r).length = sqs.length
  | 0, sqs => writeRowAux_length 0 _ 0 sqs
  | r + 1, sqs => by
    rw [rowsWritten, rowsWritten_length s r, writeRowAux_length]

theorem writeRowAux_getD (rank8 : Nat) :
    ∀ (row : List (Option CPiece)) (pos : Nat) (sqs : List (Option CPiece))
      (i : Nat),
    (writeRowAux rank8 row pos sqs).getD i none =
      if rank8 + pos ≤ i ∧ i < rank8 + pos + row.length ∧ i < sqs.length then
        match row.getD (i - (rank8 + pos)) none with
        | some p => some p
        | none => sqs.getD i none
      else sqs.getD i none
  | [], pos, sqs, i => by
    rw [writeRowAux, if_neg (by simp; omega)]
  | none :: rest, pos, sqs, i => by
    rw [writeRowAux, writeRowAux_getD rank8 rest (pos + 1) sqs i]
    by_cases h1 : rank8 + (pos + 1) ≤ i ∧
        i < rank8 + (pos + 1) + rest.length ∧ i < sqs.length
    · rw [if_pos h1, if_pos (by simp only [List.length_cons]; omega)]
      have hidx : i - (rank8 + pos) = (i - (rank8 + (pos + 1))) + 1 := by
        omega
      rw [hidx, List.getD_cons_succ]
    · rw [if_neg h1]
      by_cases h2 : rank8 + pos ≤ i ∧
          i < rank8 + pos + (none :: rest).length ∧ i < sqs.length
      · have hi : i = rank8 + pos := by
          simp only [List.length_cons] at h1 h2
          omega
        rw [if_pos h2, hi]
        simp
      · rw [if_neg h2]
  | some p :: rest, pos, sqs, i => by
    rw [writeRowAux, writeRowAux_getD rank8 rest (pos + 1) _ i,
      List.length_set]
    by_cases h1 : rank8 + (pos + 1) ≤ i ∧
        i < rank8 + (pos + 1) + rest.length ∧ i < sqs.length
    · rw [if_pos h1, if_pos (by simp only [List.length_cons]; omega)]
      have hidx : i - (rank8 + pos) = (i - (rank8 + (pos + 1))) + 1 := by
        omega
      rw [hidx, List.getD_cons_succ]
      cases hr : rest.getD (i - (rank8 + (pos + 1))) none
      · have hne : rank8 + pos ≠ i := by omega
        simp [List.getD_eq_getElem?_getD, List.getElem?_set_ne hne]
      · rfl
    · rw [if_neg h1]
      by_cases h2 : rank8 + pos ≤ i ∧
          i < rank8 + pos + (some p :: rest).length ∧ i < sqs.length
      · have hi : i = rank8 + pos := by
          simp only [List.length_cons] at h1 h2
          omega
        rw [if_pos h2, hi]
        have hlt : rank8 + pos < sqs.length := hi ▸ h2.2.2
        simp [List.getD_eq_getElem?_getD, List.getElem?_set_self hlt]
      · rw [if_neg h2]
        rcases Nat.lt_or_ge i sqs.length with hlen | hlen
        · have hne : rank8 + pos ≠ i := by
            simp only [List.length_cons] at h2
            omega
          simp [List.getD_eq_getElem?_getD, List.getElem?_set_ne hne]
        · rw [List.getD_eq_default _ _ (by rw [List.length_set]; omega),
            List.getD_eq_default _ _ (by omega)]

theorem row_getD (s : SquareCentricBoard) (r f : Nat) (hf : f < 8) :
    (s.row r).getD f none = s.squares.getD (r * 8 + f) none := by
  simp [SquareCentricBoard.row, List.getD_eq_getElem?_getD,
    List.getElem?_range, hf]

theorem rowsWritten_getD (s : SquareCentricBoard) :
    ∀ (r : Nat) (sqs : List (Option CPiece)) (i : Nat),
    (rowsWritten s sqs r).getD i none =
      if i < (r + 1) * 8 ∧ i < sqs.length then
        match s.squares.getD i none with
        | some p => some p
        | none => sqs.getD i none
      else sqs.getD i none
  | 0, sqs, i => by
    rw [rowsWritten, writeRowAux_getD 0 (s.row 0) 0 sqs i, row_length]
    by_cases h : i < 8 ∧ i < sqs.length
    · rw [if_pos (by omega), if_pos (by omega)]
      have h0 : i - (0 + 0) = i := by omega
      rw [h0, row_getD s 0 i (by omega)]
      have h1 : 0 * 8 + i = i := by omega
      rw [h1]
    · rw [if_neg (by omega), if_neg (by omega)]
  | r + 1, sqs, i => by
    rw [rowsWritten, rowsWritten_getD s r _ i, writeRowAux_length,
      writeRowAux_getD ((r + 1) * 8) (s.row (r + 1)) 0 sqs i, row_length]
    by_cases hlen : i < sqs.length
    · by_cases hlo : i < (r + 1) * 8
      · rw [if_pos ⟨hlo, hlen⟩, if_neg (by omega), if_pos (by omega)]
      · rw [if_neg (by omega)]
        by_cases hhi : i < (r + 2) * 8
        · rw [if_pos (by omega)]
          have h0 : i - ((r + 1) * 8 + 0) = i - (r + 1) * 8 := by omega
          rw [h0, row_getD s (r + 1) (i - (r + 1) * 8) (by omega)]
          have h1 : (r + 1) * 8 + (i - (r + 1) * 8) = i := by omega
          rw [h1, if_pos (by omega)]
        · rw [if_neg (by omega), if_neg (by omega)]
    · rw [if_neg (by omega), if_neg (by omega), if_neg (by omega)]

theorem parsedSquares_length (s : SquareCentricBoard) :
    (parsedSquares s).length = 64 := by
  rw [parsedSquares, rowsWritten_length]
  simp

theorem parsedSquares_getD (s : SquareCentricBoard) (i : Nat) (hi : i < 64) :
    (parsedSquares s).getD i none = s.squares.getD i none := by
  rw [parsedSquares, rowsWritten_getD s 7 _ i,
    if_pos ⟨by omega, by simp [hi]⟩]
  cases h : s.squares.getD i none
  · show (List.replicate 64 (none : Option CPiece)).getD i none = none
    rw [List.getD_eq_getElem?_getD, List.getElem?_replicate, if_pos hi]
    rfl
  · rfl

theorem toBoard_eq (s : SquareCentricBoard) :
    s.toBoard = { (List.range 64).foldl (toBoardAux s) Board.empty with
      whiteToMove := s.whiteToMove
      wk := s.wk
      wq := s.wq
      bk := s.bk
      bq := s.bq
      enPassantSquare := s.ep } := rfl

theorem toBoardAux_bb (s : SquareCentricBoard) (b : Board) (n : Nat)
    (hn : n < 64) (k : PieceT) (i : Nat) :
    ((toBoardAux s b n).bb k).testBit i =
      ((b.bb k).testBit i || (decide (n = i) && kindAtIs s n k)) := by
  rw [toBoardAux]
  cases h : s.squares.getD n none with
  | none =>
    have hk : kindAtIs s n k = false := by simp only [kindAtIs, h]
    simp [hk]
  | some p =>
    obtain ⟨pk, pc⟩ := p
    have hk : ∀ k', kindAtIs s n k' = decide (pk = k') := fun k' => by
      simp only [kindAtIs, h]
    cases pk <;> cases pc <;> cases k <;>
      simp [hk, Board.setBB, Board.bb, testBit_setBit _ _ _ hn]

theorem toBoardAux_white (s : SquareCentricBoard) (b : Board) (n : Nat)
    (hn : n < 64) (i : Nat) :
    ((toBoardAux s b n).white).testBit i =
      ((b.white).testBit i ||
        (decide (n = i) && occAtIs s n && whiteAtIs s n)) := by
  rw [toBoardAux]
  cases h : s.squares.getD n none with
  | none =>
    have ho : occAtIs s n = false := by simp only [occAtIs, h, Option.isSome]
    simp [ho]
  | some p =>
    obtain ⟨pk, pc⟩ := p
    have ho : occAtIs s n = true := by simp only [occAtIs, h, Option.isSome]
    have hw : whiteAtIs s n = decide (pc = Color.white) := by
      simp only [whiteAtIs, h]
    cases pk <;> cases pc <;>
      simp [ho, hw, Board.setBB, Board.bb, testBit_setBit _ _ _ hn]

theorem toBoardAux_occupied (s : SquareCentricBoard) (b : Board) (n : Nat)
    (hn : n < 64) (i : Nat) :
    ((toBoardAux s b n).occupied).testBit i =
      ((b.occupied).testBit i || (decide (n = i) && occAtIs s n)) := by
  rw [toBoardAux]
  cases h : s.squares.getD n none with
  | none =>
    have ho : occAtIs s n = false := by simp only [occAtIs, h, Option.isSome]
    simp [ho]
  | some p =>
    obtain ⟨pk, pc⟩ := p
    have ho : occAtIs s n = true := by simp only [occAtIs, h, Option.isSome]
    cases pk <;> cases pc <;>
      simp [ho, Board.setBB, Board.bb, testBit_setBit _ _ _ hn]

theorem toBoard_fold (s : SquareCentricBoard) :
    ∀ n : Nat, n ≤ 64 →
    (∀ k i,
      (((List.range n).foldl (toBoardAux s) Board.empty).bb k).testBit i =
        (decide (i < n) && kindAtIs s i k)) ∧
    (∀ i,
      (((List.range n).foldl (toBoardAux s) Board.empty).white).testBit i =
        (decide (i < n) && occAtIs s i && whiteAtIs s i)) ∧
    (∀ i,
      (((List.range n).foldl (toBoardAux s) Board.empty).occupied).testBit i
        = (decide (i < n) && occAtIs s i))
  | 0, _ => by
    refine ⟨fun k i => ?_, fun i => ?_, fun i => ?_⟩
    · cases k <;> simp [Board.empty, Board.bb]
    · simp [Board.empty]
    · simp [Board.empty]
  | n + 1, hn => by
    have ih := toBoard_fold s n (by omega)
    rw [List.range_succ]
    refine ⟨fun k i => ?_, fun i => ?_, fun i => ?_⟩
    · rw [List.foldl_append, List.foldl_cons, List.foldl_nil,
        toBoardAux_bb s _ n (by omega) k i, ih.1 k i]
      by_cases hi : i = n
      · subst hi
        simp [Nat.lt_irrefl i, Nat.lt_succ_self i]
      · have hni : ¬(n = i) := fun h => hi h.symm
        have h2 : (i < n + 1) = (i < n) := propext (by omega)
        simp [hni, h2]
    · rw [List.foldl_append, List.foldl_cons, List.foldl_nil,
        toBoardAux_white s _ n (by omega) i, ih.2.1 i]
      by_cases hi : i = n
      · subst hi
        simp [Nat.lt_irrefl i, Nat.lt_succ_self i]
      · have hni : ¬(n = i) := fun h => hi h.symm
        have h2 : (i < n + 1) = (i < n) := propext (by omega)
        simp [hni, h2]
    · rw [List.foldl_append, List.foldl_cons, List.foldl_nil,
        toBoardAux_occupied s _ n (by omega) i, ih.2.2 i]
      by_cases hi : i = n
      · subst hi
        simp [Nat.lt_irrefl i, Nat.lt_succ_self i]
      · have hni : ¬(n = i) := fun h => hi h.symm
        have h2 : (i < n + 1) = (i < n) := propext (by omega)
        simp [hni, h2]

theorem toBoard_bb (s : SquareCentricBoard) (k : PieceT) (i : Nat) :
    ((s.toBoard).bb k).testBit i = (decide (i < 64) && kindAtIs s i k) := by
  have h := (toBoard_fold s 64 (by omega)).1 k i
  rw [toBoard_eq]
  cases k <;> exact h

theorem toBoard_white (s : SquareCentricBoard) (i : Nat) :
    ((s.toBoard).white).testBit i =
      (decide (i < 64) && occAtIs s i && whiteAtIs s i) := by
  have h := (toBoard_fold s 64 (by omega)).2.1 i
  rw [toBoard_eq]
  exact h

theorem toBoard_bb_lt (s : SquareCentricBoard) (k : PieceT) :
    (s.toBoard).bb k < wordSize := by
  rw [wordSize_eq]
  apply Nat.lt_pow_two_of_testBit
  intro j hj
  rw [toBoard_bb]
  simp [show ¬(j < 64) by omega]

theorem foldl_set_length (g : Nat → Option CPiece) :
    ∀ (l : List Nat) (sqs : List (Option CPiece)),
    (l.foldl (fun sqs j => sqs.set j (g j)) sqs).length = sqs.length
  | [], _ => rfl
  | x :: xs, sqs => by
    rw [List.foldl_cons, foldl_set_length g xs, List.length_set]

theorem foldl_set_getD (g : Nat → Option CPiece) :
    ∀ (l : List Nat) (sqs : List (Option CPiece)) (i : Nat),
    (l.foldl (fun sqs j => sqs.set j (g j)) sqs).getD i none =
      if i ∈ l ∧ i < sqs.length then g i else sqs.getD i none
  | [], sqs, i => by simp
  | x :: xs, sqs, i => by
    rw [List.foldl_cons, foldl_set_getD g xs _ i, List.length_set]
    by_cases h1 : i ∈ xs ∧ i < sqs.length
    · rw [if_pos h1, if_pos ⟨List.mem_cons_of_mem x h1.1, h1.2⟩]
    · rw [if_neg h1]
      by_cases hx : i = x
      · subst hx
        by_cases hlen : i < sqs.length
        · rw [if_pos ⟨List.mem_cons_self i xs, hlen⟩]
          simp [List.getD_eq_getElem?_getD, List.getElem?_set_self hlen]
        · rw [if_neg (fun hc => hlen hc.2),
            List.getD_eq_default _ _ (by rw [List.length_set]; omega),
            List.getD_eq_default _ _ (by omega)]
      · have hset : (sqs.set x (g x)).getD i none = sqs.getD i none := by
          simp [List.getD_eq_getElem?_getD,
            List.getElem?_set_ne (fun hh => hx hh.symm)]
        rw [hset, if_neg (fun hc => by
          rcases List.mem_cons.mp hc.1 with h | h
          · exact hx h
          · exact h1 ⟨h, hc.2⟩)]

theorem toSCB_squares (b : Board) : (b.toSCB).squares =
    [PieceT.pawn, .knight, .bishop, .rook, .queen, .king].foldl
      (fun sqs k =>
        (scanBits (b.bb k)).foldl
          (fun (sqs : List (Option CPiece)) i =>
            sqs.set i (some ⟨k, if getBit b.white i then .white else .black⟩))
          sqs)
      (List.replicate 64 none) := rfl

theorem toSCB_toBoard_getD (s : SquareCentricBoard) (i : Nat) (hi : i < 64) :
    (((s.toBoard).toSCB).squares).getD i none = s.squares.getD i none := by
  rw [toSCB_squares]
  simp only [List.foldl_cons, List.foldl_nil]
  rw [foldl_set_getD, foldl_set_getD, foldl_set_getD, foldl_set_getD,
    foldl_set_getD, foldl_set_getD]
  simp only [foldl_set_length, List.length_replicate]
  have hmem : ∀ k : PieceT, (i ∈ scanBits ((s.toBoard).bb k)) =
      (kindAtIs s i k = true) := by
    intro k
    rw [mem_scanBits (toBoard_bb_lt s k) i, toBoard_bb]
    simp [hi]
  simp only [hmem, hi, and_true]
  cases hsq : s.squares.getD i none with
  | none =>
    have hk : ∀ k', kindAtIs s i k' = false := fun k' => by
      simp only [kindAtIs, hsq]
    simp only [hk, Bool.false_eq_true, if_false]
    rw [List.getD_eq_getElem?_getD, List.getElem?_replicate, if_pos hi]
    rfl
  | some p =>
    obtain ⟨pk, pc⟩ := p
    have hk : ∀ k', kindAtIs s i k' = decide (pk = k') := fun k' => by
      simp only [kindAtIs, hsq]
    have ho : occAtIs s i = true := by simp only [occAtIs, hsq, Option.isSome]
    have hw : whiteAtIs s i = decide (pc = Color.white) := by
      simp only [whiteAtIs, hsq]
    have hwb : ((s.toBoard).white).testBit i = decide (pc = Color.white) := by
      rw [toBoard_white, ho, hw]
      simp [hi]
    cases pk <;> cases pc <;> simp [hk, getBit, hwb]

theorem row_ext {s1 s2 : SquareCentricBoard}
    (hsq : ∀ i, i < 64 → s1.squares.getD i none = s2.squares.getD i none)
    (r : Nat) (hr : r < 8) : s1.row r = s2.row r := by
  simp only [SquareCentricBoard.row]
  apply List.map_congr_left
  intro f hf
  have hf8 : f < 8 := List.mem_range.mp hf
  exact hsq (r * 8 + f) (by omega)

theorem fenChars_ext (s1 s2 : SquareCentricBoard)
    (hsq : ∀ i, i < 64 → s1.squares.getD i none = s2.squares.getD i none)
    (hw : s1.whiteToMove = s2.whiteToMove) (hwk : s1.wk = s2.wk)
    (hwq : s1.wq = s2.wq) (hbk : s1.bk = s2.bk) (hbq : s1.bq = s2.bq)
    (hep : s1.ep = s2.ep ∨ (64 ≤ s1.ep ∧ 64 ≤ s2.ep)) :
    s1.fenChars = s2.fenChars := by
  rw [SquareCentricBoard.fenChars, SquareCentricBoard.fenChars]
  simp only [List.flatMap_cons, List.flatMap_nil]
  rw [row_ext hsq 7 (by omega), row_ext hsq 6 (by omega),
    row_ext hsq 5 (by omega), row_ext hsq 4 (by omega),
    row_ext hsq 3 (by omega), row_ext hsq 2 (by omega),
    row_ext hsq 1 (by omega), row_ext hsq 0 (by omega),
    hw, hwk, hwq, hbk, hbq]
  rcases hep with hep | hep
  · rw [hep]
  · congr 1
    rw [if_neg (by omega), if_neg (by omega)]


/-! ### C3 support: stage projections of Move::apply -/

theorem land_le_left_lt {x : Nat} (hx : x < wordSize) (y : Nat) :
    x &&& y < wordSize := lt_of_le_of_lt Nat.and_le_left hx

theorem bb_setBB (b : Board) (k k' : PieceT) (v : Nat) :
    (b.setBB k v).bb k' = if k' = k then v else b.bb k' := by
  cases k <;> cases k' <;> simp [Board.setBB, Board.bb]

theorem setBB_white (b : Board) (k : PieceT) (v : Nat) :
    (b.setBB k v).white = b.white := by cases k <;> rfl

theorem setBB_occupied (b : Board) (k : PieceT) (v : Nat) :
    (b.setBB k v).occupied = b.occupied := by cases k <;> rfl

theorem setBB_wtm (b : Board) (k : PieceT) (v : Nat) :
    (b.setBB k v).whiteToMove = b.whiteToMove := by cases k <;> rfl

theorem bb_clearDest (m : Move) (b : Board) (k : PieceT) :
    (applyClearDest m b).bb k = unsetBit (b.bb k) m.toSq := by
  cases k <;> rfl

theorem white_clearDest (m : Move) (b : Board) :
    (applyClearDest m b).white = b.white := rfl

theorem occ_clearDest (m : Move) (b : Board) :
    (applyClearDest m b).occupied = b.occupied := rfl

theorem wtm_clearDest (m : Move) (b : Board) :
    (applyClearDest m b).whiteToMove = b.whiteToMove := rfl

theorem bb_mover_none (m : Move) (b : Board) (hp : m.promotion = none)
    (k : PieceT) :
    (applyMover m b).bb k =
      if k = m.piece then b.bb m.piece ^^^ (bit64 m.fromSq ||| bit64 m.toSq)
      else b.bb k := by
  simp only [applyMover, hp]
  rw [bb_setBB]

theorem bb_mover_some (m : Move) (b : Board) {p : PieceT}
    (hp : m.promotion = some p) (hne : p ≠ m.piece) (k : PieceT) :
    (applyMover m b).bb k =
      if k = p then setBit (b.bb p) m.toSq
      else if k = m.piece then unsetBit (b.bb m.piece) m.fromSq
      else b.bb k := by
  simp only [applyMover, hp]
  rw [bb_setBB]
  by_cases hkp : k = p
  · rw [if_pos hkp, if_pos hkp, bb_setBB, if_neg hne]
  · rw [if_neg hkp, if_neg hkp, bb_setBB]

theorem white_mover (m : Move) (b : Board) :
    (applyMover m b).white = b.white := by
  cases hp : m.promotion
  · simp only [applyMover, hp]
    rw [setBB_white]
  · simp only [applyMover, hp]
    rw [setBB_white, setBB_white]

theorem occ_mover (m : Move) (b : Board) :
    (applyMover m b).occupied = b.occupied := by
  cases hp : m.promotion
  · simp only [applyMover, hp]
    rw [setBB_occupied]
  · simp only [applyMover, hp]
    rw [setBB_occupied, setBB_occupied]

theorem wtm_mover (m : Move) (b : Board) :
    (applyMover m b).whiteToMove = b.whiteToMove := by
  cases hp : m.promotion
  · simp only [applyMover, hp]
    rw [setBB_wtm]
  · simp only [applyMover, hp]
    rw [setBB_wtm, setBB_wtm]

theorem bb_occWhite (m : Move) (b : Board) (k : PieceT) :
    (applyOccWhite m b).bb k = b.bb k := by
  cases hw : b.whiteToMove <;> cases k <;> simp [applyOccWhite, hw, Board.bb]

theorem occ_occWhite (m : Move) (b : Board) :
    (applyOccWhite m b).occupied =
      setBit (unsetBit b.occupied m.fromSq) m.toSq := by
  cases hw : b.whiteToMove <;> simp [applyOccWhite, hw]

theorem white_occWhite (m : Move) (b : Board) :
    (applyOccWhite m b).white =
      if b.whiteToMove then setBit (unsetBit b.white m.fromSq) m.toSq
      else unsetBit (unsetBit b.white m.fromSq) m.toSq := by
  cases hw : b.whiteToMove <;> simp [applyOccWhite, hw]

theorem wtm_occWhite (m : Move) (b : Board) :
    (applyOccWhite m b).whiteToMove = b.whiteToMove := by
  cases hw : b.whiteToMove <;> simp [applyOccWhite, hw]

theorem bb_epEmit (m : Move) (b : Board) (k : PieceT) :
    (applyEpEmit m b).bb k = b.bb k := by
  rw [applyEpEmit]
  split <;> (cases k <;> rfl)

theorem occ_epEmit (m : Move) (b : Board) :
    (applyEpEmit m b).occupied = b.occupied := by
  rw [applyEpEmit]
  split <;> rfl

theorem white_epEmit (m : Move) (b : Board) :
    (applyEpEmit m b).white = b.white := by
  rw [applyEpEmit]
  split <;> rfl

theorem wtm_epEmit (m : Move) (b : Board) :
    (applyEpEmit m b).whiteToMove = b.whiteToMove := by
  rw [applyEpEmit]
  split <;> rfl

theorem epCapture_false (m : Move) (b : Board) (hep : m.ep = false) :
    applyEpCapture m b = b := by
  rw [applyEpCapture, hep]
  rfl

theorem epCapture_true (m : Move) (b : Board) (hep : m.ep = true) :
    applyEpCapture m b = { b with
      pawn := unsetBit b.pawn (epCaptured m b)
      occupied := unsetBit b.occupied (epCaptured m b)
      white := unsetBit b.white (epCaptured m b) } := by
  rw [applyEpCapture, hep]
  rfl

theorem epCaptured_congr (m : Move) (b b2 : Board)
    (h : b.whiteToMove = b2.whiteToMove) : epCaptured m b = epCaptured m b2 := by
  rw [epCaptured, epCaptured, Board.nextToMove, Board.nextToMove, h]

theorem bb_kingRights (m : Move) (b : Board) (k : PieceT) :
    (applyKingRights m b).bb k = b.bb k := by
  rw [applyKingRights]
  split
  · cases hn : b.nextToMove <;> cases k <;> rfl
  · rfl

theorem occ_kingRights (m : Move) (b : Board) :
    (applyKingRights m b).occupied = b.occupied := by
  rw [applyKingRights]
  split
  · cases hn : b.nextToMove <;> rfl
  · rfl

theorem white_kingRights (m : Move) (b : Board) :
    (applyKingRights m b).white = b.white := by
  rw [applyKingRights]
  split
  · cases hn : b.nextToMove <;> rfl
  · rfl

theorem wtm_kingRights (m : Move) (b : Board) :
    (applyKingRights m b).whiteToMove = b.whiteToMove := by
  rw [applyKingRights]
  split
  · cases hn : b.nextToMove <;> rfl
  · rfl

theorem bb_destRights (m : Move) (b : Board) (k : PieceT) :
    (applyDestRights m b).bb k = b.bb k := by
  rw [applyDestRights]
  repeat' split
  all_goals cases k <;> rfl

theorem occ_destRights (m : Move) (b : Board) :
    (applyDestRights m b).occupied = b.occupied := by
  rw [applyDestRights]
  repeat' split
  all_goals rfl

theorem white_destRights (m : Move) (b : Board) :
    (applyDestRights m b).white = b.white := by
  rw [applyDestRights]
  repeat' split
  all_goals rfl

theorem wtm_destRights (m : Move) (b : Board) :
    (applyDestRights m b).whiteToMove = b.whiteToMove := by
  rw [applyDestRights]
  repeat' split
  all_goals rfl

theorem bb_originRights (m : Move) (b : Board) (k : PieceT) :
    (applyOriginRights m b).bb k = b.bb k := by
  rw [applyOriginRights]
  cases hn : b.nextToMove
  all_goals repeat' split
  all_goals cases k <;> rfl

theorem occ_originRights (m : Move) (b : Board) :
    (applyOriginRights m b).occupied = b.occupied := by
  rw [applyOriginRights]
  cases hn : b.nextToMove
  all_goals repeat' split
  all_goals rfl

theorem white_originRights (m : Move) (b : Board) :
    (applyOriginRights m b).white = b.white := by
  rw [applyOriginRights]
  cases hn : b.nextToMove
  all_goals repeat' split
  all_goals rfl

theorem wtm_originRights (m : Move) (b : Board) :
    (applyOriginRights m b).whiteToMove = b.whiteToMove := by
  rw [applyOriginRights]
  cases hn : b.nextToMove
  all_goals repeat' split
  all_goals rfl

theorem castleRook_none (m : Move) (b : Board)
    (h : ¬(m.piece = PieceT.king ∧ m.castle = true)) :
    applyCastleRook m b = b := by
  rw [applyCastleRook, if_neg h]

theorem castleRook_6 (m : Move) (b : Board) (hp : m.piece = PieceT.king)
    (hc : m.castle = true) (ht : m.toSq = 6) :
    applyCastleRook m b = { b with
      rook := setBit (unsetBit b.rook 7) 5
      occupied := setBit (unsetBit b.occupied 7) 5
      white := setBit (unsetBit b.white 7) 5
      wk := false
      wq := false } := by
  rw [applyCastleRook, if_pos ⟨hp, hc⟩, if_pos ht]

theorem castleRook_2 (m : Move) (b : Board) (hp : m.piece = PieceT.king)
    (hc : m.castle = true) (ht : m.toSq = 2) :
    applyCastleRook m b = { b with
      rook := setBit (unsetBit b.rook 0) 3
      occupied := setBit (unsetBit b.occupied 0) 3
      white := setBit (unsetBit b.white 0) 3
      wk := false
      wq := false } := by
  rw [applyCastleRook, if_pos ⟨hp, hc⟩, if_neg (by omega), if_pos ht]

theorem castleRook_62 (m : Move) (b : Board) (hp : m.piece = PieceT.king)
    (hc : m.castle = true) (ht : m.toSq = 62) :
    applyCastleRook m b = { b with
      rook := setBit (unsetBit b.rook 63) 61
      occupied := setBit (unsetBit b.occupied 63) 61
      bk := false
      bq := false } := by
  rw [applyCastleRook, if_pos ⟨hp, hc⟩, if_neg (by omega), if_neg (by omega),
    if_pos ht]

theorem castleRook_58 (m : Move) (b : Board) (hp : m.piece = PieceT.king)
    (hc : m.castle = true) (ht : m.toSq = 58) :
    applyCastleRook m b = { b with
      rook := setBit (unsetBit b.rook 56) 59
      occupied := setBit (unsetBit b.occupied 56) 59
      bk := false
      bq := false } := by
  rw [applyCastleRook, if_pos ⟨hp, hc⟩, if_neg (by omega), if_neg (by omega),
    if_neg (by omega), if_pos ht]

theorem apply_bb (m : Move) (b : Board) (k : PieceT) :
    (m.apply b).bb k =
      (applyCastleRook m (applyOriginRights m (applyDestRights m
        (applyKingRights m (applyEpCapture m (applyEpEmit m (applyOccWhite m
          (applyMover m (applyClearDest m b))))))))).bb k := by
  cases k <;> rfl

theorem apply_occupied (m : Move) (b : Board) :
    (m.apply b).occupied =
      (applyCastleRook m (applyOriginRights m (applyDestRights m
        (applyKingRights m (applyEpCapture m (applyEpEmit m (applyOccWhite m
          (applyMover m (applyClearDest m b))))))))).occupied := rfl

theorem apply_white (m : Move) (b : Board) :
    (m.apply b).white =
      (applyCastleRook m (applyOriginRights m (applyDestRights m
        (applyKingRights m (applyEpCapture m (applyEpEmit m (applyOccWhite m
          (applyMover m (applyClearDest m b))))))))).white := rfl

/-! ### C3 support: closed forms of Move::apply per move shape -/

theorem caseN_bb (m : Move) (b : Board) (hp : m.promotion = none)
    (hep : m.ep = false) (hnc : ¬(m.piece = PieceT.king ∧ m.castle = true))
    (k : PieceT) :
    (m.apply b).bb k =
      if k = m.piece then
        unsetBit (b.bb m.piece) m.toSq ^^^ (bit64 m.fromSq ||| bit64 m.toSq)
      else unsetBit (b.bb k) m.toSq := by
  rw [apply_bb, castleRook_none _ _ hnc, bb_originRights, bb_destRights,
    bb_kingRights, epCapture_false _ _ hep, bb_epEmit, bb_occWhite,
    bb_mover_none _ _ hp, bb_clearDest, bb_clearDest]

theorem caseN_occ (m : Move) (b : Board) (hep : m.ep = false)
    (hnc : ¬(m.piece = PieceT.king ∧ m.castle = true)) :
    (m.apply b).occupied = setBit (unsetBit b.occupied m.fromSq) m.toSq := by
  rw [apply_occupied, castleRook_none _ _ hnc, occ_originRights,
    occ_destRights, occ_kingRights, epCapture_false _ _ hep, occ_epEmit,
    occ_occWhite, occ_mover, occ_clearDest]

theorem caseN_white (m : Move) (b : Board) (hep : m.ep = false)
    (hnc : ¬(m.piece = PieceT.king ∧ m.castle = true)) :
    (m.apply b).white =
      if b.whiteToMove then setBit (unsetBit b.white m.fromSq) m.toSq
      else unsetBit (unsetBit b.white m.fromSq) m.toSq := by
  rw [apply_white, castleRook_none _ _ hnc, white_originRights,
    white_destRights, white_kingRights, epCapture_false _ _ hep, white_epEmit,
    white_occWhite, wtm_mover, wtm_clearDest, white_mover, white_clearDest]

theorem caseP_bb (m : Move) (b : Board) {p : PieceT}
    (hp : m.promotion = some p) (hne : p ≠ m.piece) (hep : m.ep = false)
    (hnc : ¬(m.piece = PieceT.king ∧ m.castle = true)) (k : PieceT) :
    (m.apply b).bb k =
      if k = p then setBit (unsetBit (b.bb p) m.toSq) m.toSq
      else if k = m.piece then
        unsetBit (unsetBit (b.bb m.piece) m.toSq) m.fromSq
      else unsetBit (b.bb k) m.toSq := by
  rw [apply_bb, castleRook_none _ _ hnc, bb_originRights, bb_destRights,
    bb_kingRights, epCapture_false _ _ hep, bb_epEmit, bb_occWhite,
    bb_mover_some _ _ hp hne, bb_clearDest, bb_clearDest, bb_clearDest]

theorem bb_epCapture_true (m : Move) (b : Board) (hep : m.ep = true)
    (k : PieceT) :
    (applyEpCapture m b).bb k =
      if k = PieceT.pawn then unsetBit (b.bb PieceT.pawn) (epCaptured m b)
      else b.bb k := by
  rw [epCapture_true _ _ hep]
  cases k <;> simp [Board.bb]

theorem occ_epCapture_true (m : Move) (b : Board) (hep : m.ep = true) :
    (applyEpCapture m b).occupied = unsetBit b.occupied (epCaptured m b) := by
  rw [epCapture_true _ _ hep]

theorem white_epCapture_true (m : Move) (b : Board) (hep : m.ep = true) :
    (applyEpCapture m b).white = unsetBit b.white (epCaptured m b) := by
  rw [epCapture_true _ _ hep]

theorem caseE_bb (m : Move) (b : Board) (hp : m.promotion = none)
    (hep : m.ep = true) (hnc : ¬(m.piece = PieceT.king ∧ m.castle = true))
    (k : PieceT) :
    (m.apply b).bb k =
      if k = PieceT.pawn then
        unsetBit
          (if PieceT.pawn = m.piece then
            unsetBit (b.bb m.piece) m.toSq ^^^
              (bit64 m.fromSq ||| bit64 m.toSq)
          else unsetBit (b.bb PieceT.pawn) m.toSq) (epCaptured m b)
      else if k = m.piece then
        unsetBit (b.bb m.piece) m.toSq ^^^ (bit64 m.fromSq ||| bit64 m.toSq)
      else unsetBit (b.bb k) m.toSq := by
  have hcap : epCaptured m (applyEpEmit m (applyOccWhite m (applyMover m
      (applyClearDest m b)))) = epCaptured m b := by
    apply epCaptured_congr
    rw [wtm_epEmit, wtm_occWhite, wtm_mover, wtm_clearDest]
  rw [apply_bb, castleRook_none _ _ hnc, bb_originRights, bb_destRights,
    bb_kingRights, bb_epCapture_true _ _ hep, hcap]
  simp only [bb_epEmit, bb_occWhite, bb_mover_none _ _ hp, bb_clearDest]

theorem caseE_occ (m : Move) (b : Board) (hep : m.ep = true)
    (hnc : ¬(m.piece = PieceT.king ∧ m.castle = true)) :
    (m.apply b).occupied =
      unsetBit (setBit (unsetBit b.occupied m.fromSq) m.toSq)
        (epCaptured m b) := by
  have hcap : epCaptured m (applyEpEmit m (applyOccWhite m (applyMover m
      (applyClearDest m b)))) = epCaptured m b := by
    apply epCaptured_congr
    rw [wtm_epEmit, wtm_occWhite, wtm_mover, wtm_clearDest]
  rw [apply_occupied, castleRook_none _ _ hnc, occ_originRights,
    occ_destRights, occ_kingRights, occ_epCapture_true _ _ hep, hcap,
    occ_epEmit, occ_occWhite, occ_mover, occ_clearDest]

theorem caseE_white (m : Move) (b : Board) (hep : m.ep = true)
    (hnc : ¬(m.piece = PieceT.king ∧ m.castle = true)) :
    (m.apply b).white =
      unsetBit
        (if b.whiteToMove then setBit (unsetBit b.white m.fromSq) m.toSq
         else unsetBit (unsetBit b.white m.fromSq) m.toSq)
        (epCaptured m b) := by
  have hcap : epCaptured m (applyEpEmit m (applyOccWhite m (applyMover m
      (applyClearDest m b)))) = epCaptured m b := by
    apply epCaptured_congr
    rw [wtm_epEmit, wtm_occWhite, wtm_mover, wtm_clearDest]
  rw [apply_white, castleRook_none _ _ hnc, white_originRights,
    white_destRights, white_kingRights, white_epCapture_true _ _ hep, hcap,
    white_epEmit, white_occWhite, wtm_mover, wtm_clearDest, white_mover,
    white_clearDest]

theorem preCastle_bb (m : Move) (b : Board) (hpromo : m.promotion = none)
    (hep : m.ep = false) (k : PieceT) :
    (applyOriginRights m (applyDestRights m (applyKingRights m
      (applyEpCapture m (applyEpEmit m (applyOccWhite m (applyMover m
      (applyClearDest m b)))))))).bb k =
      if k = m.piece then
        unsetBit (b.bb m.piece) m.toSq ^^^ (bit64 m.fromSq ||| bit64 m.toSq)
      else unsetBit (b.bb k) m.toSq := by
  rw [bb_originRights, bb_destRights, bb_kingRights, epCapture_false _ _ hep,
    bb_epEmit, bb_occWhite, bb_mover_none _ _ hpromo, bb_clearDest,
    bb_clearDest]

theorem preCastle_occ (m : Move) (b : Board) (hep : m.ep = false) :
    (applyOriginRights m (applyDestRights m (applyKingRights m
      (applyEpCapture m (applyEpEmit m (applyOccWhite m (applyMover m
      (applyClearDest m b)))))))).occupied =
      setBit (unsetBit b.occupied m.fromSq) m.toSq := by
  rw [occ_originRights, occ_destRights, occ_kingRights,
    epCapture_false _ _ hep, occ_epEmit, occ_occWhite, occ_mover,
    occ_clearDest]

theorem preCastle_white (m : Move) (b : Board) (hep : m.ep = false) :
    (applyOriginRights m (applyDestRights m (applyKingRights m
      (applyEpCapture m (applyEpEmit m (applyOccWhite m (applyMover m
      (applyClearDest m b)))))))).white =
      if b.whiteToMove then setBit (unsetBit b.white m.fromSq) m.toSq
      else unsetBit (unsetBit b.white m.fromSq) m.toSq := by
  rw [white_originRights, white_destRights, white_kingRights,
    epCapture_false _ _ hep, white_epEmit, white_occWhite, wtm_mover,
    wtm_clearDest, white_mover, white_clearDest]

theorem caseC6_bb (m : Move) (b : Board) (hpromo : m.promotion = none)
    (hep : m.ep = false) (hp : m.piece = PieceT.king) (hc : m.castle = true)
    (ht : m.toSq = 6) (k : PieceT) :
    (m.apply b).bb k =
      if k = PieceT.rook then
        setBit (unsetBit (unsetBit (b.bb PieceT.rook) m.toSq) 7) 5
      else if k = PieceT.king then
        unsetBit (b.bb PieceT.king) m.toSq ^^^
          (bit64 m.fromSq ||| bit64 m.toSq)
      else unsetBit (b.bb k) m.toSq := by
  have hX := preCastle_bb m b hpromo hep
  rw [apply_bb, castleRook_6 _ _ hp hc ht]
  have hrk : ∀ k', (if (k' : PieceT) = m.piece then
      unsetBit (b.bb m.piece) m.toSq ^^^ (bit64 m.fromSq ||| bit64 m.toSq)
      else unsetBit (b.bb k') m.toSq) =
      (if k' = PieceT.king then
        unsetBit (b.bb PieceT.king) m.toSq ^^^
          (bit64 m.fromSq ||| bit64 m.toSq)
      else unsetBit (b.bb k') m.toSq) := by
    intro k'
    rw [hp]
  cases k <;> simp only [Board.bb]
  case pawn =>
    rw [show ∀ x : Board, x.pawn = x.bb PieceT.pawn from fun x => rfl,
      hX PieceT.pawn, hrk PieceT.pawn, if_neg (by decide),
      if_neg (by decide), if_neg (by decide)]
    rfl
  case knight =>
    rw [show ∀ x : Board, x.knight = x.bb PieceT.knight from fun x => rfl,
      hX PieceT.knight, hrk PieceT.knight, if_neg (by decide),
      if_neg (by decide), if_neg (by decide)]
    rfl
  case bishop =>
    rw [show ∀ x : Board, x.bishop = x.bb PieceT.bishop from fun x => rfl,
      hX PieceT.bishop, hrk PieceT.bishop, if_neg (by decide),
      if_neg (by decide), if_neg (by decide)]
    rfl
  case rook =>
    rw [show ∀ x : Board, x.rook = x.bb PieceT.rook from fun x => rfl,
      hX PieceT.rook, hrk PieceT.rook, if_neg (by decide)]
    simp [Board.bb]
  case queen =>
    rw [show ∀ x : Board, x.queen = x.bb PieceT.queen from fun x => rfl,
      hX PieceT.queen, hrk PieceT.queen, if_neg (by decide),
      if_neg (by decide), if_neg (by decide)]
    rfl
  case king =>
    rw [show ∀ x : Board, x.king = x.bb PieceT.king from fun x => rfl,
      hX PieceT.king, hrk PieceT.king]
    simp [Board.bb]

theorem caseC2_bb (m : Move) (b : Board) (hpromo : m.promotion = none)
    (hep : m.ep = false) (hp : m.piece = PieceT.king) (hc : m.castle = true)
    (ht : m.toSq = 2) (k : PieceT) :
    (m.apply b).bb k =
      if k = PieceT.rook then
        setBit (unsetBit (unsetBit (b.bb PieceT.rook) m.toSq) 0) 3
      else if k = PieceT.king then
        unsetBit (b.bb PieceT.king) m.toSq ^^^
          (bit64 m.fromSq ||| bit64 m.toSq)
      else unsetBit (b.bb k) m.toSq := by
  have hX := preCastle_bb m b hpromo hep
  rw [apply_bb, castleRook_2 _ _ hp hc ht]
  have hrk : ∀ k', (if (k' : PieceT) = m.piece then
      unsetBit (b.bb m.piece) m.toSq ^^^ (bit64 m.fromSq ||| bit64 m.toSq)
      else unsetBit (b.bb k') m.toSq) =
      (if k' = PieceT.king then
        unsetBit (b.bb PieceT.king) m.toSq ^^^
          (bit64 m.fromSq ||| bit64 m.toSq)
      else unsetBit (b.bb k') m.toSq) := by
    intro k'
    rw [hp]
  cases k <;> simp only [Board.bb]
  case pawn =>
    rw [show ∀ x : Board, x.pawn = x.bb PieceT.pawn from fun x => rfl,
      hX PieceT.pawn, hrk PieceT.pawn, if_neg (by decide),
      if_neg (by decide), if_neg (by decide)]
    rfl
  case knight =>
    rw [show ∀ x : Board, x.knight = x.bb PieceT.knight from fun x => rfl,
      hX PieceT.knight, hrk PieceT.knight, if_neg (by decide),
      if_neg (by decide), if_neg (by decide)]
    rfl
  case bishop =>
    rw [show ∀ x : Board, x.bishop = x.bb PieceT.bishop from fun x => rfl,
      hX PieceT.bishop, hrk PieceT.bishop, if_neg (by decide),
      if_neg (by decide), if_neg (by decide)]
    rfl
  case rook =>
    rw [show ∀ x : Board, x.rook = x.bb PieceT.rook from fun x => rfl,
      hX PieceT.rook, hrk PieceT.rook, if_neg (by decide)]
    simp [Board.bb]
  case queen =>
    rw [show ∀ x : Board, x.queen = x.bb PieceT.queen from fun x => rfl,
      hX PieceT.queen, hrk PieceT.queen, if_neg (by decide),
      if_neg (by decide), if_neg (by decide)]
    rfl
  case king =>
    rw [show ∀ x : Board, x.king = x.bb PieceT.king from fun x => rfl,
      hX PieceT.king, hrk PieceT.king]
    simp [Board.bb]

theorem caseC62_bb (m : Move) (b : Board) (hpromo : m.promotion = none)
    (hep : m.ep = false) (hp : m.piece = PieceT.king) (hc : m.castle = true)
    (ht : m.toSq = 62) (k : PieceT) :
    (m.apply b).bb k =
      if k = PieceT.rook then
        setBit (unsetBit (unsetBit (b.bb PieceT.rook) m.toSq) 63) 61
      else if k = PieceT.king then
        unsetBit (b.bb PieceT.king) m.toSq ^^^
          (bit64 m.fromSq ||| bit64 m.toSq)
      else unsetBit (b.bb k) m.toSq := by
  have hX := preCastle_bb m b hpromo hep
  rw [apply_bb, castleRook_62 _ _ hp hc ht]
  have hrk : ∀ k', (if (k' : PieceT) = m.piece then
      unsetBit (b.bb m.piece) m.toSq ^^^ (bit64 m.fromSq ||| bit64 m.toSq)
      else unsetBit (b.bb k') m.toSq) =
      (if k' = PieceT.king then
        unsetBit (b.bb PieceT.king) m.toSq ^^^
          (bit64 m.fromSq ||| bit64 m.toSq)
      else unsetBit (b.bb k') m.toSq) := by
    intro k'
    rw [hp]
  cases k <;> simp only [Board.bb]
  case pawn =>
    rw [show ∀ x : Board, x.pawn = x.bb PieceT.pawn from fun x => rfl,
      hX PieceT.pawn, hrk PieceT.pawn, if_neg (by decide),
      if_neg (by decide), if_neg (by decide)]
    rfl
  case knight =>
    rw [show ∀ x : Board, x.knight = x.bb PieceT.knight from fun x => rfl,
      hX PieceT.knight, hrk PieceT.knight, if_neg (by decide),
      if_neg (by decide), if_neg (by decide)]
    rfl
  case bishop =>
    rw [show ∀ x : Board, x.bishop = x.bb PieceT.bishop from fun x => rfl,
      hX PieceT.bishop, hrk PieceT.bishop, if_neg (by decide),
      if_neg (by decide), if_neg (by decide)]
    rfl
  case rook =>
    rw [show ∀ x : Board, x.rook = x.bb PieceT.rook from fun x => rfl,
      hX PieceT.rook, hrk PieceT.rook, if_neg (by decide)]
    simp [Board.bb]
  case queen =>
    rw [show ∀ x : Board, x.queen = x.bb PieceT.queen from fun x => rfl,
      hX PieceT.queen, hrk PieceT.queen, if_neg (by decide),
      if_neg (by decide), if_neg (by decide)]
    rfl
  case king =>
    rw [show ∀ x : Board, x.king = x.bb PieceT.king from fun x => rfl,
      hX PieceT.king, hrk PieceT.king]
    simp [Board.bb]

theorem caseC58_bb (m : Move) (b : Board) (hpromo : m.promotion = none)
    (hep : m.ep = false) (hp : m.piece = PieceT.king) (hc : m.castle = true)
    (ht : m.toSq = 58) (k : PieceT) :
    (m.apply b).bb k =
      if k = PieceT.rook then
        setBit (unsetBit (unsetBit (b.bb PieceT.rook) m.toSq) 56) 59
      else if k = PieceT.king then
        unsetBit (b.bb PieceT.king) m.toSq ^^^
          (bit64 m.fromSq ||| bit64 m.toSq)
      else unsetBit (b.bb k) m.toSq := by
  have hX := preCastle_bb m b hpromo hep
  rw [apply_bb, castleRook_58 _ _ hp hc ht]
  have hrk : ∀ k', (if (k' : PieceT) = m.piece then
      unsetBit (b.bb m.piece) m.toSq ^^^ (bit64 m.fromSq ||| bit64 m.toSq)
      else unsetBit (b.bb k') m.toSq) =
      (if k' = PieceT.king then
        unsetBit (b.bb PieceT.king) m.toSq ^^^
          (bit64 m.fromSq ||| bit64 m.toSq)
      else unsetBit (b.bb k') m.toSq) := by
    intro k'
    rw [hp]
  cases k <;> simp only [Board.bb]
  case pawn =>
    rw [show ∀ x : Board, x.pawn = x.bb PieceT.pawn from fun x => rfl,
      hX PieceT.pawn, hrk PieceT.pawn, if_neg (by decide),
      if_neg (by decide), if_neg (by decide)]
    rfl
  case knight =>
    rw [show ∀ x : Board, x.knight = x.bb PieceT.knight from fun x => rfl,
      hX PieceT.knight, hrk PieceT.knight, if_neg (by decide),
      if_neg (by decide), if_neg (by decide)]
    rfl
  case bishop =>
    rw [show ∀ x : Board, x.bishop = x.bb PieceT.bishop from fun x => rfl,
      hX PieceT.bishop, hrk PieceT.bishop, if_neg (by decide),
      if_neg (by decide), if_neg (by decide)]
    rfl
  case rook =>
    rw [show ∀ x : Board, x.rook = x.bb PieceT.rook from fun x => rfl,
      hX PieceT.rook, hrk PieceT.rook, if_neg (by decide)]
    simp [Board.bb]
  case queen =>
    rw [show ∀ x : Board, x.queen = x.bb PieceT.queen from fun x => rfl,
      hX PieceT.queen, hrk PieceT.queen, if_neg (by decide),
      if_neg (by decide), if_neg (by decide)]
    rfl
  case king =>
    rw [show ∀ x : Board, x.king = x.bb PieceT.king from fun x => rfl,
      hX PieceT.king, hrk PieceT.king]
    simp [Board.bb]

theorem caseC6_occ (m : Move) (b : Board) (hep : m.ep = false)
    (hp : m.piece = PieceT.king) (hc : m.castle = true)
    (ht : m.toSq = 6) :
    (m.apply b).occupied =
      setBit (unsetBit (setBit (unsetBit b.occupied m.fromSq) m.toSq)
        7) 5 := by
  rw [apply_occupied, castleRook_6 _ _ hp hc ht]
  simp only [preCastle_occ m b hep]

theorem caseC6_white (m : Move) (b : Board) (hep : m.ep = false)
    (hp : m.piece = PieceT.king) (hc : m.castle = true)
    (ht : m.toSq = 6) :
    (m.apply b).white =
      setBit (unsetBit
        (if b.whiteToMove then setBit (unsetBit b.white m.fromSq) m.toSq
         else unsetBit (unsetBit b.white m.fromSq) m.toSq) 7) 5 := by
  rw [apply_white, castleRook_6 _ _ hp hc ht]
  simp only [preCastle_white m b hep]

theorem caseC2_occ (m : Move) (b : Board) (hep : m.ep = false)
    (hp : m.piece = PieceT.king) (hc : m.castle = true)
    (ht : m.toSq = 2) :
    (m.apply b).occupied =
      setBit (unsetBit (setBit (unsetBit b.occupied m.fromSq) m.toSq)
        0) 3 := by
  rw [apply_occupied, castleRook_2 _ _ hp hc ht]
  simp only [preCastle_occ m b hep]

theorem caseC2_white (m : Move) (b : Board) (hep : m.ep = false)
    (hp : m.piece = PieceT.king) (hc : m.castle = true)
    (ht : m.toSq = 2) :
    (m.apply b).white =
      setBit (unsetBit
        (if b.whiteToMove then setBit (unsetBit b.white m.fromSq) m.toSq
         else unsetBit (unsetBit b.white m.fromSq) m.toSq) 0) 3 := by
  rw [apply_white, castleRook_2 _ _ hp hc ht]
  simp only [preCastle_white m b hep]

theorem caseC62_occ (m : Move) (b : Board) (hep : m.ep = false)
    (hp : m.piece = PieceT.king) (hc : m.castle = true)
    (ht : m.toSq = 62) :
    (m.apply b).occupied =
      setBit (unsetBit (setBit (unsetBit b.occupied m.fromSq) m.toSq)
        63) 61 := by
  rw [apply_occupied, castleRook_62 _ _ hp hc ht]
  simp only [preCastle_occ m b hep]

theorem caseC62_white (m : Move) (b : Board) (hep : m.ep = false)
    (hp : m.piece = PieceT.king) (hc : m.castle = true)
    (ht : m.toSq = 62) :
    (m.apply b).white =
      (if b.whiteToMove then setBit (unsetBit b.white m.fromSq) m.toSq
       else unsetBit (unsetBit b.white m.fromSq) m.toSq) := by
  rw [apply_white, castleRook_62 _ _ hp hc ht]
  simp only [preCastle_white m b hep]

theorem caseC58_occ (m : Move) (b : Board) (hep : m.ep = false)
    (hp : m.piece = PieceT.king) (hc : m.castle = true)
    (ht : m.toSq = 58) :
    (m.apply b).occupied =
      setBit (unsetBit (setBit (unsetBit b.occupied m.fromSq) m.toSq)
        56) 59 := by
  rw [apply_occupied, castleRook_58 _ _ hp hc ht]
  simp only [preCastle_occ m b hep]

theorem caseC58_white (m : Move) (b : Board) (hep : m.ep = false)
    (hp : m.piece = PieceT.king) (hc : m.castle = true)
    (ht : m.toSq = 58) :
    (m.apply b).white =
      (if b.whiteToMove then setBit (unsetBit b.white m.fromSq) m.toSq
       else unsetBit (unsetBit b.white m.fromSq) m.toSq) := by
  rw [apply_white, castleRook_58 _ _ hp hc ht]
  simp only [preCastle_white m b hep]

/-! ### C3 support: pointwise forms of the Board invariants -/

theorem verify_pointwise {b : Board} (hb : b.verify = true) (j : Nat) :
    ((b.pawn.testBit j && b.knight.testBit j) = false) ∧
    (((b.pawn.testBit j || b.knight.testBit j) && b.bishop.testBit j)
      = false) ∧
    (((b.pawn.testBit j || b.knight.testBit j || b.bishop.testBit j) &&
      b.rook.testBit j) = false) ∧
    (((b.pawn.testBit j || b.knight.testBit j || b.bishop.testBit j ||
      b.rook.testBit j) && b.queen.testBit j) = false) ∧
    (((b.pawn.testBit j || b.knight.testBit j || b.bishop.testBit j ||
      b.rook.testBit j || b.queen.testBit j) && b.king.testBit j) = false) ∧
    (b.occupied.testBit j =
      (b.pawn.testBit j || b.knight.testBit j || b.bishop.testBit j ||
        b.rook.testBit j || b.queen.testBit j || b.king.testBit j)) ∧
    ((b.white.testBit j && b.occupied.testBit j) = b.white.testBit j) := by
  rw [Board.verify] at hb
  simp only [Bool.and_eq_true, decide_eq_true_eq] at hb
  obtain ⟨⟨⟨⟨⟨⟨h1, h2⟩, h3⟩, h4⟩, h5⟩, h6⟩, h7⟩ := hb
  refine ⟨?_, ?_, ?_, ?_, ?_, ?_, ?_⟩
  · have := congrArg (fun x => x.testBit j) h1
    simpa [Nat.testBit_and] using this
  · have := congrArg (fun x => x.testBit j) h2
    simpa [Nat.testBit_and, Nat.testBit_or] using this
  · have := congrArg (fun x => x.testBit j) h3
    simpa [Nat.testBit_and, Nat.testBit_or] using this
  · have := congrArg (fun x => x.testBit j) h4
    simpa [Nat.testBit_and, Nat.testBit_or] using this
  · have := congrArg (fun x => x.testBit j) h5
    simpa [Nat.testBit_and, Nat.testBit_or] using this
  · have := congrArg (fun x => x.testBit j) h6
    simp only [Nat.testBit_or] at this
    exact this.symm
  · have := congrArg (fun x => x.testBit j) h7
    simpa [Nat.testBit_and] using this

theorem verify_of_pointwise {b : Board} (hws : b.wordsOk)
    (h : ∀ j, j < 64 →
      ((b.pawn.testBit j && b.knight.testBit j) = false) ∧
      (((b.pawn.testBit j || b.knight.testBit j) && b.bishop.testBit j)
        = false) ∧
      (((b.pawn.testBit j || b.knight.testBit j || b.bishop.testBit j) &&
        b.rook.testBit j) = false) ∧
      (((b.pawn.testBit j || b.knight.testBit j || b.bishop.testBit j ||
        b.rook.testBit j) && b.queen.testBit j) = false) ∧
      (((b.pawn.testBit j || b.knight.testBit j || b.bishop.testBit j ||
        b.rook.testBit j || b.queen.testBit j) && b.king.testBit j)
        = false) ∧
      (b.occupied.testBit j =
        (b.pawn.testBit j || b.knight.testBit j || b.bishop.testBit j ||
          b.rook.testBit j || b.queen.testBit j || b.king.testBit j)) ∧
      ((b.white.testBit j && b.occupied.testBit j) = b.white.testBit j)) :
    b.verify = true := by
  obtain ⟨hp, hn, hbs, hr, hq, hk, hw, ho⟩ := hws
  have hbit : ∀ x, x < wordSize → ∀ j, ¬(j < 64) → x.testBit j = false :=
    fun x hx j hj => testBit_ge_64 hx (by omega)
  rw [Board.verify]
  simp only [Bool.and_eq_true, decide_eq_true_eq]
  refine ⟨⟨⟨⟨⟨⟨?_, ?_⟩, ?_⟩, ?_⟩, ?_⟩, ?_⟩, ?_⟩
  · apply Nat.eq_of_testBit_eq
    intro j
    by_cases hj : j < 64
    · simp [Nat.testBit_and, (h j hj).1]
    · simp [Nat.testBit_and, hbit _ hp j hj]
  · apply Nat.eq_of_testBit_eq
    intro j
    by_cases hj : j < 64
    · simp only [Nat.testBit_and, Nat.testBit_or, Nat.zero_testBit]
      exact (h j hj).2.1
    · simp [Nat.testBit_and, Nat.testBit_or, hbit _ hp j hj,
        hbit _ hn j hj]
  · apply Nat.eq_of_testBit_eq
    intro j
    by_cases hj : j < 64
    · simp only [Nat.testBit_and, Nat.testBit_or, Nat.zero_testBit]
      exact (h j hj).2.2.1
    · simp [Nat.testBit_and, Nat.testBit_or, hbit _ hp j hj,
        hbit _ hn j hj, hbit _ hbs j hj]
  · apply Nat.eq_of_testBit_eq
    intro j
    by_cases hj : j < 64
    · simp only [Nat.testBit_and, Nat.testBit_or, Nat.zero_testBit]
      exact (h j hj).2.2.2.1
    · simp [Nat.testBit_and, Nat.testBit_or, hbit _ hp j hj,
        hbit _ hn j hj, hbit _ hbs j hj, hbit _ hr j hj]
  · apply Nat.eq_of_testBit_eq
    intro j
    by_cases hj : j < 64
    · simp only [Nat.testBit_and, Nat.testBit_or, Nat.zero_testBit]
      exact (h j hj).2.2.2.2.1
    · simp [Nat.testBit_and, Nat.testBit_or, hbit _ hp j hj,
        hbit _ hn j hj, hbit _ hbs j hj, hbit _ hr j hj, hbit _ hq j hj]
  · apply Nat.eq_of_testBit_eq
    intro j
    by_cases hj : j < 64
    · simp only [Nat.testBit_or]
      exact ((h j hj).2.2.2.2.2.1).symm
    · simp [Nat.testBit_or, hbit _ hp j hj, hbit _ hn j hj,
        hbit _ hbs j hj, hbit _ hr j hj, hbit _ hq j hj, hbit _ hk j hj,
        hbit _ ho j hj]
  · apply Nat.eq_of_testBit_eq
    intro j
    by_cases hj : j < 64
    · simp only [Nat.testBit_and]
      exact (h j hj).2.2.2.2.2.2
    · simp [Nat.testBit_and, hbit _ hw j hj]

theorem kingsOk_pointwise {b : Board} (hws : b.wordsOk) (hk : b.kingsOk) :
    ∃ kw kb : Nat, kw < 64 ∧ kb < 64 ∧
      (∀ j, (b.king.testBit j && b.white.testBit j) = decide (kw = j)) ∧
      (∀ j, j < 64 →
        (b.king.testBit j && !(b.white.testBit j)) = decide (kb = j)) := by
  obtain ⟨⟨kw, hkw⟩, ⟨kb, hkb⟩⟩ := hk
  refine ⟨kw.val, kb.val, kw.isLt, kb.isLt, fun j => ?_, fun j hj => ?_⟩
  · have := congrArg (fun x => x.testBit j) hkw
    simpa [Nat.testBit_and, testBit_bit64 kw.isLt] using this
  · have := congrArg (fun x => x.testBit j) hkb
    simp only [Nat.testBit_and] at this
    rw [testBit_bnot64_lt _ hj, testBit_bit64 kb.isLt] at this
    exact this

theorem kingsOk_of_pointwise {b : Board} (kw kb : Nat) (hkw : kw < 64)
    (hkb : kb < 64)
    (hw : ∀ j, (b.king.testBit j && b.white.testBit j) = decide (kw = j))
    (hb : ∀ j, j < 64 →
      (b.king.testBit j && !(b.white.testBit j)) = decide (kb = j))
    (hkinglt : b.king < wordSize) : b.kingsOk := by
  refine ⟨⟨⟨kw, hkw⟩, ?_⟩, ⟨⟨kb, hkb⟩, ?_⟩⟩
  · apply Nat.eq_of_testBit_eq
    intro j
    rw [Nat.testBit_and, hw j]
    by_cases hj : j < 64
    · rw [testBit_bit64 hkw]
    · rw [testBit_bit64 hkw]
  · apply Nat.eq_of_testBit_eq
    intro j
    rw [Nat.testBit_and]
    by_cases hj : j < 64
    · rw [testBit_bnot64_lt _ hj, hb j hj, testBit_bit64 hkb]
    · rw [testBit_ge_64 hkinglt (by omega), testBit_bit64 hkb]
      simp
      omega

theorem mask_rank18 : ∀ j : Fin 64,
    (0xFF000000000000FF : Nat).testBit j.val =
      decide (j.val < 8 ∨ 56 ≤ j.val) := by decide

theorem pawnsOk_pointwise {b : Board} (hws : b.wordsOk) (h : b.pawnsOk) :
    ∀ j, b.pawn.testBit j = true → 8 ≤ j ∧ j < 56 := by
  intro j hj
  have hlt : j < 64 := by
    by_contra hge
    rw [testBit_ge_64 hws.1 (by omega)] at hj
    exact Bool.false_ne_true hj
  have := congrArg (fun x => x.testBit j) h
  simp only [Nat.testBit_and, Nat.zero_testBit] at this
  rw [hj, Bool.true_and] at this
  have hm := mask_rank18 ⟨j, hlt⟩
  simp only [this] at hm
  rcases Nat.lt_or_ge j 8 with hc | hc
  · simp [hc] at hm
  rcases Nat.lt_or_ge j 56 with hc2 | hc2
  · exact ⟨hc, hc2⟩
  · simp [hc2] at hm

theorem pawnsOk_of_pointwise {b : Board} (hplt : b.pawn < wordSize)
    (h : ∀ j, b.pawn.testBit j = true → 8 ≤ j ∧ j < 56) : b.pawnsOk := by
  apply Nat.eq_of_testBit_eq
  intro j
  rw [Nat.testBit_and, Nat.zero_testBit]
  cases hj : b.pawn.testBit j
  · rw [Bool.false_and]
  · have hr := h j hj
    have hlt : j < 64 := by omega
    rw [Bool.true_and, mask_rank18 ⟨j, hlt⟩]
    simp
    omega

theorem white_sub_occ {b : Board} (hb : b.verify = true) :
    ∀ j, b.white.testBit j = true → b.occupied.testBit j = true := by
  intro j hw
  have h := (verify_pointwise hb j).2.2.2.2.2.2
  rw [hw, Bool.true_and] at h
  exact h

theorem friendly_testBit {b : Board} (hb : b.verify = true) (j : Nat) :
    b.friendly.testBit j =
      if b.whiteToMove then b.white.testBit j
      else (b.occupied.testBit j && !(b.white.testBit j)) := by
  cases hw : b.whiteToMove
  · simp only [Board.friendly, hw, if_false, Bool.false_eq_true]
    rw [Nat.testBit_xor]
    cases hwj : b.white.testBit j
    · simp
    · simp [white_sub_occ hb j hwj]
  · simp only [Board.friendly, hw, if_true]

theorem enemy_testBit {b : Board} (hb : b.verify = true) (j : Nat) :
    b.enemy.testBit j =
      if b.whiteToMove then (b.occupied.testBit j && !(b.white.testBit j))
      else b.white.testBit j := by
  cases hw : b.whiteToMove
  · simp only [Board.enemy, hw, if_false, Bool.false_eq_true]
  · simp only [Board.enemy, hw, if_true]
    rw [Nat.testBit_xor]
    cases hwj : b.white.testBit j
    · simp
    · simp [white_sub_occ hb j hwj]

theorem kind_at_unique {b : Board} (hb : b.verify = true) {k k' : PieceT}
    (hne : k ≠ k') (j : Nat) :
    ¬((b.bb k).testBit j = true ∧ (b.bb k').testBit j = true) := by
  rintro ⟨h1, h2⟩
  obtain ⟨c1, c2, c3, c4, c5, _, _⟩ := verify_pointwise hb j
  cases k <;> cases k' <;> simp_all [Board.bb]

theorem occ_iff_kind {b : Board} (hb : b.verify = true) (j : Nat) :
    b.occupied.testBit j =
      ((b.bb PieceT.pawn).testBit j || (b.bb PieceT.knight).testBit j ||
        (b.bb PieceT.bishop).testBit j || (b.bb PieceT.rook).testBit j ||
        (b.bb PieceT.queen).testBit j || (b.bb PieceT.king).testBit j) :=
  (verify_pointwise hb j).2.2.2.2.2.1

theorem king_bits {b : Board} {kw kb : Nat}
    (hw : ∀ j, (b.king.testBit j && b.white.testBit j) = decide (kw = j))
    (hbp : ∀ j, j < 64 →
      (b.king.testBit j && !(b.white.testBit j)) = decide (kb = j))
    (j : Nat) (hj : j < 64) :
    b.king.testBit j = (decide (kw = j) || decide (kb = j)) := by
  have h1 := hw j
  have h2 := hbp j hj
  cases hwj : b.white.testBit j
  · rw [hwj] at h1 h2
    simp at h1 h2
    rw [h2]
    simp [h1]
  · rw [hwj] at h1 h2
    simp at h1 h2
    rw [h1]
    simp [h2]

theorem testBit_true_lt {x j : Nat} (hx : x < wordSize)
    (h : x.testBit j = true) : j < 64 := by
  by_contra hh
  rw [testBit_ge_64 hx (by omega)] at h
  exact Bool.false_ne_true h

theorem from_ne_to {b : Board} {m : Move} (F : MoveFacts b m) :
    m.fromSq ≠ m.toSq := by
  intro h
  have h1 := F.friendly_from
  rw [h, F.friendly_to] at h1
  exact Bool.false_ne_true h1

theorem kind_only_at_from {b : Board} {m : Move} (hvf : b.verify = true)
    (F : MoveFacts b m) :
    ∀ k, k ≠ m.piece → (b.bb k).testBit m.fromSq = false := by
  intro k hne
  cases h : (b.bb k).testBit m.fromSq
  · rfl
  · exact absurd ⟨h, F.piece_at⟩ (kind_at_unique hvf hne _)

theorem king_not_at_to {b : Board} {m : Move} (hvf : b.verify = true)
    (F : MoveFacts b m)
    (hkto : (b.king &&& b.enemy).testBit m.toSq = false) :
    b.king.testBit m.toSq = false := by
  cases hK : b.king.testBit m.toSq
  · rfl
  have hocc : b.occupied.testBit m.toSq = true := by
    rw [occ_iff_kind hvf]
    simp [Board.bb, hK]
  have hf := F.friendly_to
  rw [friendly_testBit hvf] at hf
  rw [Nat.testBit_and] at hkto
  rw [enemy_testBit hvf] at hkto
  rw [hK, Bool.true_and] at hkto
  cases hw : b.whiteToMove <;> rw [hw] at hf hkto <;>
    simp [hocc] at hf hkto <;> simp [hf] at hkto

theorem preserved_caseN (m : Move) (b : Board) (hv : b.valid)
    (F : MoveFacts b m) (hpromo : m.promotion = none) (hep : m.ep = false)
    (hnc : ¬(m.piece = PieceT.king ∧ m.castle = true))
    (hkto : (b.king &&& b.enemy).testBit m.toSq = false) :
    (m.apply b).verify = true ∧ (m.apply b).kingsOk ∧ (m.apply b).pawnsOk ∧
      (m.apply b).occupied.testBit m.fromSq = false ∧
      ((m.apply b).bb m.piece).testBit m.toSq = true := by
  obtain ⟨hws, hvf, hkg, hpw, _, _⟩ := hv
  have hf64 := F.from_lt
  have ht64 := F.to_lt
  have hfne := from_ne_to F
  have hbbj : ∀ (k : PieceT) (j : Nat), j < 64 →
      ((m.apply b).bb k).testBit j =
      (if k = m.piece then
        ((b.bb m.piece).testBit j && !(decide (m.toSq = j))) ^^
          (decide (m.fromSq = j) || decide (m.toSq = j))
      else ((b.bb k).testBit j && !(decide (m.toSq = j)))) := by
    intro k j hj
    rw [caseN_bb m b hpromo hep hnc k]
    by_cases hk : k = m.piece
    · rw [if_pos hk, if_pos hk, Nat.testBit_xor,
        testBit_unsetBit _ _ _ ht64 hj, Nat.testBit_or,
        testBit_bit64 hf64, testBit_bit64 ht64]
    · rw [if_neg hk, if_neg hk, testBit_unsetBit _ _ _ ht64 hj]
  have hoccj : ∀ j, j < 64 → (m.apply b).occupied.testBit j =
      ((b.occupied.testBit j && !(decide (m.fromSq = j))) ||
        decide (m.toSq = j)) := by
    intro j hj
    rw [caseN_occ m b hep hnc, testBit_setBit _ _ _ ht64,
      testBit_unsetBit _ _ _ hf64 hj]
  have hwhj : ∀ j, j < 64 → (m.apply b).white.testBit j =
      (if b.whiteToMove then
        ((b.white.testBit j && !(decide (m.fromSq = j))) ||
          decide (m.toSq = j))
      else (b.white.testBit j && !(decide (m.fromSq = j)) &&
        !(decide (m.toSq = j)))) := by
    intro j hj
    rw [caseN_white m b hep hnc]
    cases hw : b.whiteToMove
    · rw [if_neg (by simp), if_neg (by simp),
        testBit_unsetBit _ _ _ ht64 hj, testBit_unsetBit _ _ _ hf64 hj]
    · rw [if_pos rfl, if_pos rfl, testBit_setBit _ _ _ ht64,
        testBit_unsetBit _ _ _ hf64 hj]
  have hbnd : ∀ k, (m.apply b).bb k < wordSize := by
    intro k
    rw [caseN_bb m b hpromo hep hnc k]
    by_cases hk : k = m.piece
    · rw [if_pos hk]
      exact xor_lt_wordSize (unsetBit_lt _ _)
        (lor_lt_wordSize bit64_lt bit64_lt)
    · rw [if_neg hk]
      exact unsetBit_lt _ _
  have hoccbnd : (m.apply b).occupied < wordSize := by
    rw [caseN_occ m b hep hnc]
    exact setBit_lt (unsetBit_lt _ _)
  have hwbnd : (m.apply b).white < wordSize := by
    rw [caseN_white m b hep hnc]
    cases hw : b.whiteToMove
    · rw [if_neg (by simp)]
      exact unsetBit_lt _ _
    · rw [if_pos rfl]
      exact setBit_lt (unsetBit_lt _ _)
  have hws' : (m.apply b).wordsOk :=
    ⟨hbnd PieceT.pawn, hbnd PieceT.knight, hbnd PieceT.bishop,
      hbnd PieceT.rook, hbnd PieceT.queen, hbnd PieceT.king, hwbnd, hoccbnd⟩
  have hOnly := kind_only_at_from hvf F
  have hKto := king_not_at_to hvf F hkto
  have hatfrom : ∀ k, (b.bb k).testBit m.fromSq = decide (k = m.piece) := by
    intro k
    by_cases hk : k = m.piece
    · simp [hk, F.piece_at]
    · rw [hOnly k hk]
      simp [hk]
  refine ⟨?_, ?_, ?_, ?_, ?_⟩
  · apply verify_of_pointwise hws'
    intro j hj
    obtain ⟨c1, c2, c3, c4, c5, c6, c7⟩ := verify_pointwise hvf j
    rw [show (m.apply b).pawn = (m.apply b).bb PieceT.pawn from rfl,
      show (m.apply b).knight = (m.apply b).bb PieceT.knight from rfl,
      show (m.apply b).bishop = (m.apply b).bb PieceT.bishop from rfl,
      show (m.apply b).rook = (m.apply b).bb PieceT.rook from rfl,
      show (m.apply b).queen = (m.apply b).bb PieceT.queen from rfl,
      show (m.apply b).king = (m.apply b).bb PieceT.king from rfl,
      hbbj PieceT.pawn j hj, hbbj PieceT.knight j hj,
      hbbj PieceT.bishop j hj, hbbj PieceT.rook j hj,
      hbbj PieceT.queen j hj, hbbj PieceT.king j hj, hoccj j hj, hwhj j hj]
    by_cases hjt : m.toSq = j
    · subst hjt
      have hdf : decide (m.fromSq = m.toSq) = false := by simp [hfne]
      cases hpc : m.piece <;> cases hw : b.whiteToMove <;>
        simp [hdf, Board.bb]
    · by_cases hjf : m.fromSq = j
      · subst hjf
        cases hpc : m.piece <;> cases hw : b.whiteToMove <;>
          simp [hatfrom, hpc, hjt]
      · have e1 : decide (m.toSq = j) = false := by simp [hjt]
        have e2 : decide (m.fromSq = j) = false := by simp [hjf]
        rw [e1, e2]
        have hcol : ∀ k : PieceT,
            (if k = m.piece then
              ((b.bb m.piece).testBit j && !false) ^^ (false || false)
            else ((b.bb k).testBit j && !false)) = (b.bb k).testBit j := by
          intro k
          by_cases h : k = m.piece
          · rw [if_pos h, h]
            simp
          · rw [if_neg h]
            simp
        rw [hcol PieceT.pawn, hcol PieceT.knight, hcol PieceT.bishop,
          hcol PieceT.rook, hcol PieceT.queen, hcol PieceT.king]
        simp only [Bool.not_false, Bool.and_true, Bool.or_false]
        cases hw : b.whiteToMove
        · rw [if_neg (Bool.false_ne_true)]
          exact ⟨c1, c2, c3, c4, c5, c6, c7⟩
        · rw [if_pos rfl]
          exact ⟨c1, c2, c3, c4, c5, c6, c7⟩
  · obtain ⟨kw, kb, hkw64, hkb64, hKW, hKB⟩ := kingsOk_pointwise hws hkg
    have h1 := hKW kw
    have h2 := hKB kb hkb64
    simp at h1 h2
    have hKkw : b.king.testBit kw = true := h1.1
    have hWkw : b.white.testBit kw = true := h1.2
    have hKkb : b.king.testBit kb = true := h2.1
    have hWkb : b.white.testBit kb = false := h2.2
    have htkw : kw ≠ m.toSq := fun h => by
      rw [h, hKto] at hKkw
      exact Bool.false_ne_true hKkw
    have htkb : kb ≠ m.toSq := fun h => by
      rw [h, hKto] at hKkb
      exact Bool.false_ne_true hKkb
    have hkbnd : (m.apply b).king < wordSize := hbnd PieceT.king
    by_cases hpk : m.piece = PieceT.king
    · -- the king itself moves: it originates from its own square
      have hKfrom : b.king.testBit m.fromSq = true := by
        have h := F.piece_at
        rw [hpk] at h
        exact h
      have hffr := F.friendly_from
      rw [friendly_testBit hvf] at hffr
      cases hw : b.whiteToMove
      · -- black king moves: from = kb, the white king keeps its square
        rw [hw] at hffr
        simp at hffr
        have hWfrom : b.white.testBit m.fromSq = false := hffr.2
        have hkbfrom : kb = m.fromSq := by
          have h := hKB m.fromSq hf64
          rw [hKfrom, hWfrom] at h
          simpa using h.symm
        have hkwfrom : kw ≠ m.fromSq := fun h => by
          rw [h, hWfrom] at hWkw
          exact Bool.false_ne_true hWkw
        apply kingsOk_of_pointwise kw m.toSq hkw64 ht64 _ _ hkbnd
        · intro j
          by_cases hj : j < 64
          · rw [show (m.apply b).king = (m.apply b).bb PieceT.king from rfl,
              hbbj PieceT.king j hj, if_pos hpk.symm, hpk, hwhj j hj, hw,
              if_neg (Bool.false_ne_true)]
            simp only [Board.bb]
            by_cases hjt : m.toSq = j
            · subst hjt
              simp [htkw]
            · by_cases hjf : m.fromSq = j
              · subst hjf
                simp [hjt, hKfrom, hkwfrom]
              · have h := hKW j
                have e1 : decide (m.toSq = j) = false := by simp [hjt]
                have e2 : decide (m.fromSq = j) = false := by simp [hjf]
                rw [e1, e2]
                simp only [Bool.not_false, Bool.and_true, Bool.or_false,
                  Bool.xor_false]
                exact h
          · rw [testBit_ge_64 hkbnd (by omega),
              testBit_ge_64 hwbnd (by omega)]
            simp [show kw ≠ j from by omega]
        · intro j hj
          rw [show (m.apply b).king = (m.apply b).bb PieceT.king from rfl,
            hbbj PieceT.king j hj, if_pos hpk.symm, hpk, hwhj j hj, hw,
            if_neg (Bool.false_ne_true)]
          simp only [Board.bb]
          by_cases hjt : m.toSq = j
          · subst hjt
            simp [hKto]
          · by_cases hjf : m.fromSq = j
            · subst hjf
              simp [hjt, hKfrom, Ne.symm hfne]
            · have h := hKB j hj
              have hkbj : decide (kb = j) = false := by
                rw [hkbfrom]
                simp [hjf]
              rw [hkbj] at h
              have e1 : decide (m.toSq = j) = false := by simp [hjt]
              have e2 : decide (m.fromSq = j) = false := by simp [hjf]
              rw [e1, e2]
              simp only [Bool.not_false, Bool.and_true, Bool.or_false,
                Bool.xor_false]
              rw [h]
      · -- white king moves: from = kw, the black king keeps its square
        rw [hw] at hffr
        simp at hffr
        have hWfrom : b.white.testBit m.fromSq = true := hffr
        have hkwfrom : kw = m.fromSq := by
          have h := hKW m.fromSq
          rw [hKfrom, hWfrom] at h
          simpa using h.symm
        have hkbfrom : kb ≠ m.fromSq := fun h => by
          rw [h, hWfrom] at hWkb
          exact absurd hWkb (by simp)
        apply kingsOk_of_pointwise m.toSq kb ht64 hkb64 _ _ hkbnd
        · intro j
          by_cases hj : j < 64
          · rw [show (m.apply b).king = (m.apply b).bb PieceT.king from rfl,
              hbbj PieceT.king j hj, if_pos hpk.symm, hpk, hwhj j hj, hw,
              if_pos rfl]
            simp only [Board.bb]
            by_cases hjt : m.toSq = j
            · subst hjt
              simp
            · by_cases hjf : m.fromSq = j
              · subst hjf
                simp [hjt, hKfrom, Ne.symm hfne]
              · have h := hKW j
                have hkwj : decide (kw = j) = false := by
                  rw [hkwfrom]
                  simp [hjf]
                rw [hkwj] at h
                have e1 : decide (m.toSq = j) = false := by simp [hjt]
                have e2 : decide (m.fromSq = j) = false := by simp [hjf]
                rw [e1, e2]
                simp only [Bool.not_false, Bool.and_true, Bool.or_false,
                  Bool.xor_false]
                rw [h]
          · rw [testBit_ge_64 hkbnd (by omega),
              testBit_ge_64 hwbnd (by omega)]
            simp [show m.toSq ≠ j from by omega]
        · intro j hj
          rw [show (m.apply b).king = (m.apply b).bb PieceT.king from rfl,
            hbbj PieceT.king j hj, if_pos hpk.symm, hpk, hwhj j hj, hw,
            if_pos rfl]
          simp only [Board.bb]
          by_cases hjt : m.toSq = j
          · subst hjt
            simp [htkb]
          · by_cases hjf : m.fromSq = j
            · subst hjf
              simp [hjt, hKfrom, hkbfrom]
            · have h := hKB j hj
              have e1 : decide (m.toSq = j) = false := by simp [hjt]
              have e2 : decide (m.fromSq = j) = false := by simp [hjf]
              rw [e1, e2]
              simp only [Bool.not_false, Bool.and_true, Bool.or_false,
                Bool.xor_false]
              exact h
    · -- another piece moves: both kings keep their squares
      have hKfrom : b.king.testBit m.fromSq = false :=
        hOnly PieceT.king (fun h => hpk h.symm)
      have hkwfrom : kw ≠ m.fromSq := fun h => by
        rw [h, hKfrom] at hKkw
        exact Bool.false_ne_true hKkw
      have hkbfrom : kb ≠ m.fromSq := fun h => by
        rw [h, hKfrom] at hKkb
        exact Bool.false_ne_true hKkb
      apply kingsOk_of_pointwise kw kb hkw64 hkb64 _ _ hkbnd
      · intro j
        by_cases hj : j < 64
        · rw [show (m.apply b).king = (m.apply b).bb PieceT.king from rfl,
            hbbj PieceT.king j hj, if_neg (fun h => hpk h.symm),
            hwhj j hj]
          simp only [Board.bb]
          by_cases hjt : m.toSq = j
          · subst hjt
            simp [htkw, hKto]
          · by_cases hjf : m.fromSq = j
            · subst hjf
              cases hw : b.whiteToMove <;>
                simp [hjt, hKfrom, hkwfrom]
            · have h := hKW j
              have e1 : decide (m.toSq = j) = false := by simp [hjt]
              have e2 : decide (m.fromSq = j) = false := by simp [hjf]
              rw [e1, e2]
              cases hw : b.whiteToMove
              · rw [if_neg (Bool.false_ne_true)]
                simp only [Bool.not_false, Bool.and_true, Bool.or_false]
                exact h
              · rw [if_pos rfl]
                simp only [Bool.not_false, Bool.and_true, Bool.or_false]
                exact h
        · rw [testBit_ge_64 hkbnd (by omega),
            testBit_ge_64 hwbnd (by omega)]
          simp [show kw ≠ j from by omega]
      · intro j hj
        rw [show (m.apply b).king = (m.apply b).bb PieceT.king from rfl,
          hbbj PieceT.king j hj, if_neg (fun h => hpk h.symm), hwhj j hj]
        simp only [Board.bb]
        by_cases hjt : m.toSq = j
        · subst hjt
          simp [htkb]
        · by_cases hjf : m.fromSq = j
          · subst hjf
            cases hw : b.whiteToMove <;>
              simp [hjt, hKfrom, hkbfrom]
          · have h := hKB j hj
            have e1 : decide (m.toSq = j) = false := by simp [hjt]
            have e2 : decide (m.fromSq = j) = false := by simp [hjf]
            rw [e1, e2]
            cases hw : b.whiteToMove
            · rw [if_neg (Bool.false_ne_true)]
              simp only [Bool.not_false, Bool.and_true, Bool.or_false]
              exact h
            · rw [if_pos rfl]
              simp only [Bool.not_false, Bool.and_true, Bool.or_false]
              exact h
  · apply pawnsOk_of_pointwise (hbnd PieceT.pawn)
    intro j hjp
    have hj64 : j < 64 := testBit_true_lt (hbnd PieceT.pawn) hjp
    rw [show (m.apply b).pawn = (m.apply b).bb PieceT.pawn from rfl,
      hbbj PieceT.pawn j hj64] at hjp
    by_cases hpp : PieceT.pawn = m.piece
    · rw [if_pos hpp] at hjp
      by_cases hjt : m.toSq = j
      · subst hjt
        exact F.pawn_to hpp.symm hpromo
      · by_cases hjf : m.fromSq = j
        · subst hjf
          have hpa := F.piece_at
          simp [hjt, hpa] at hjp
        · simp [hjt, hjf] at hjp
          rw [← hpp] at hjp
          exact pawnsOk_pointwise hws hpw j hjp
    · rw [if_neg hpp] at hjp
      simp at hjp
      exact pawnsOk_pointwise hws hpw j hjp.1
  · rw [hoccj m.fromSq hf64]
    simp [Ne.symm hfne]
  · rw [hbbj m.piece m.toSq ht64, if_pos rfl]
    simp

theorem preserved_caseP (m : Move) (b : Board) (hv : b.valid)
    (F : MoveFacts b m) {p : PieceT} (hpromo : m.promotion = some p)
    (hkto : (b.king &&& b.enemy).testBit m.toSq = false) :
    (m.apply b).verify = true ∧ (m.apply b).kingsOk ∧ (m.apply b).pawnsOk ∧
      (m.apply b).occupied.testBit m.fromSq = false ∧
      ((m.apply b).bb p).testBit m.toSq = true := by
  obtain ⟨hws, hvf, hkg, hpw, _, _⟩ := hv
  obtain ⟨hpp, hp4⟩ := F.promo_shape p hpromo
  have hep : m.ep = false := by
    cases he : m.ep
    · rfl
    · have := (F.ep_shape he).2.1
      rw [hpromo] at this
      exact absurd this (by simp)
  have hnc : ¬(m.piece = PieceT.king ∧ m.castle = true) := fun h =>
    by rw [hpp] at h; exact absurd h.1 (by decide)
  have hpne : p ≠ m.piece := by
    rw [hpp]
    rcases hp4 with h | h | h | h <;> rw [h] <;> decide
  have hpnk : p ≠ PieceT.king := by
    rcases hp4 with h | h | h | h <;> rw [h] <;> decide
  have hpnp : p ≠ PieceT.pawn := by
    rcases hp4 with h | h | h | h <;> rw [h] <;> decide
  have hf64 := F.from_lt
  have ht64 := F.to_lt
  have hfne := from_ne_to F
  have hbbj : ∀ (k : PieceT) (j : Nat), j < 64 →
      ((m.apply b).bb k).testBit j =
      (if k = p then
        (((b.bb p).testBit j && !(decide (m.toSq = j))) ||
          decide (m.toSq = j))
      else if k = m.piece then
        (((b.bb m.piece).testBit j && !(decide (m.toSq = j))) &&
          !(decide (m.fromSq = j)))
      else ((b.bb k).testBit j && !(decide (m.toSq = j)))) := by
    intro k j hj
    rw [caseP_bb m b hpromo hpne hep hnc k]
    by_cases hk : k = p
    · rw [if_pos hk, if_pos hk, testBit_setBit _ _ _ ht64,
        testBit_unsetBit _ _ _ ht64 hj]
    · rw [if_neg hk, if_neg hk]
      by_cases hk2 : k = m.piece
      · rw [if_pos hk2, if_pos hk2, testBit_unsetBit _ _ _ hf64 hj,
          testBit_unsetBit _ _ _ ht64 hj]
      · rw [if_neg hk2, if_neg hk2, testBit_unsetBit _ _ _ ht64 hj]
  have hoccj : ∀ j, j < 64 → (m.apply b).occupied.testBit j =
      ((b.occupied.testBit j && !(decide (m.fromSq = j))) ||
        decide (m.toSq = j)) := by
    intro j hj
    rw [caseN_occ m b hep hnc, testBit_setBit _ _ _ ht64,
      testBit_unsetBit _ _ _ hf64 hj]
  have hwhj : ∀ j, j < 64 → (m.apply b).white.testBit j =
      (if b.whiteToMove then
        ((b.white.testBit j && !(decide (m.fromSq = j))) ||
          decide (m.toSq = j))
      else (b.white.testBit j && !(decide (m.fromSq = j)) &&
        !(decide (m.toSq = j)))) := by
    intro j hj
    rw [caseN_white m b hep hnc]
    cases hw : b.whiteToMove
    · rw [if_neg (by simp), if_neg (by simp),
        testBit_unsetBit _ _ _ ht64 hj, testBit_unsetBit _ _ _ hf64 hj]
    · rw [if_pos rfl, if_pos rfl, testBit_setBit _ _ _ ht64,
        testBit_unsetBit _ _ _ hf64 hj]
  have hbnd : ∀ k, (m.apply b).bb k < wordSize := by
    intro k
    rw [caseP_bb m b hpromo hpne hep hnc k]
    by_cases hk : k = p
    · rw [if_pos hk]
      exact setBit_lt (unsetBit_lt _ _)
    · rw [if_neg hk]
      by_cases hk2 : k = m.piece
      · rw [if_pos hk2]
        exact unsetBit_lt _ _
      · rw [if_neg hk2]
        exact unsetBit_lt _ _
  have hoccbnd : (m.apply b).occupied < wordSize := by
    rw [caseN_occ m b hep hnc]
    exact setBit_lt (unsetBit_lt _ _)
  have hwbnd : (m.apply b).white < wordSize := by
    rw [caseN_white m b hep hnc]
    cases hw : b.whiteToMove
    · rw [if_neg (by simp)]
      exact unsetBit_lt _ _
    · rw [if_pos rfl]
      exact setBit_lt (unsetBit_lt _ _)
  have hws' : (m.apply b).wordsOk :=
    ⟨hbnd PieceT.pawn, hbnd PieceT.knight, hbnd PieceT.bishop,
      hbnd PieceT.rook, hbnd PieceT.queen, hbnd PieceT.king, hwbnd, hoccbnd⟩
  have hOnly := kind_only_at_from hvf F
  have hKto := king_not_at_to hvf F hkto
  have hatfrom : ∀ k, (b.bb k).testBit m.fromSq = decide (k = m.piece) := by
    intro k
    by_cases hk : k = m.piece
    · simp [hk, F.piece_at]
    · rw [hOnly k hk]
      simp [hk]
  refine ⟨?_, ?_, ?_, ?_, ?_⟩
  · apply verify_of_pointwise hws'
    intro j hj
    obtain ⟨c1, c2, c3, c4, c5, c6, c7⟩ := verify_pointwise hvf j
    rw [show (m.apply b).pawn = (m.apply b).bb PieceT.pawn from rfl,
      show (m.apply b).knight = (m.apply b).bb PieceT.knight from rfl,
      show (m.apply b).bishop = (m.apply b).bb PieceT.bishop from rfl,
      show (m.apply b).rook = (m.apply b).bb PieceT.rook from rfl,
      show (m.apply b).queen = (m.apply b).bb PieceT.queen from rfl,
      show (m.apply b).king = (m.apply b).bb PieceT.king from rfl,
      hbbj PieceT.pawn j hj, hbbj PieceT.knight j hj,
      hbbj PieceT.bishop j hj, hbbj PieceT.rook j hj,
      hbbj PieceT.queen j hj, hbbj PieceT.king j hj, hoccj j hj, hwhj j hj]
    by_cases hjt : m.toSq = j
    · subst hjt
      have hdf : decide (m.fromSq = m.toSq) = false := by simp [hfne]
      rcases hp4 with hpq | hpq | hpq | hpq <;> rw [hpq, hpp] <;>
        cases hw : b.whiteToMove <;> simp [hdf, Board.bb]
    · by_cases hjf : m.fromSq = j
      · subst hjf
        rcases hp4 with hpq | hpq | hpq | hpq <;> rw [hpq, hpp] <;>
          cases hw : b.whiteToMove <;>
          simp [hatfrom, hpp, hjt]
      · have e1 : decide (m.toSq = j) = false := by simp [hjt]
        have e2 : decide (m.fromSq = j) = false := by simp [hjf]
        rw [e1, e2]
        have hcol : ∀ k : PieceT,
            (if k = p then
              (((b.bb p).testBit j && !false) || false)
            else if k = m.piece then
              (((b.bb m.piece).testBit j && !false) && !false)
            else ((b.bb k).testBit j && !false)) = (b.bb k).testBit j := by
          intro k
          by_cases h : k = p
          · rw [if_pos h, h]
            simp
          · rw [if_neg h]
            by_cases h2 : k = m.piece
            · rw [if_pos h2, h2]
              simp
            · rw [if_neg h2]
              simp
        rw [hcol PieceT.pawn, hcol PieceT.knight, hcol PieceT.bishop,
          hcol PieceT.rook, hcol PieceT.queen, hcol PieceT.king]
        simp only [Bool.not_false, Bool.and_true, Bool.or_false]
        cases hw : b.whiteToMove
        · rw [if_neg (Bool.false_ne_true)]
          exact ⟨c1, c2, c3, c4, c5, c6, c7⟩
        · rw [if_pos rfl]
          exact ⟨c1, c2, c3, c4, c5, c6, c7⟩
  · obtain ⟨kw, kb, hkw64, hkb64, hKW, hKB⟩ := kingsOk_pointwise hws hkg
    have h1 := hKW kw
    have h2 := hKB kb hkb64
    simp at h1 h2
    have hKkw : b.king.testBit kw = true := h1.1
    have hKkb : b.king.testBit kb = true := h2.1
    have htkw : kw ≠ m.toSq := fun h => by
      rw [h, hKto] at hKkw
      exact Bool.false_ne_true hKkw
    have htkb : kb ≠ m.toSq := fun h => by
      rw [h, hKto] at hKkb
      exact Bool.false_ne_true hKkb
    have hkbnd : (m.apply b).king < wordSize := hbnd PieceT.king
    have hpknk : m.piece ≠ PieceT.king := by
      rw [hpp]
      decide
    have hKfrom : b.king.testBit m.fromSq = false :=
      hOnly PieceT.king (fun h => hpknk h.symm)
    have hkwfrom : kw ≠ m.fromSq := fun h => by
      rw [h, hKfrom] at hKkw
      exact Bool.false_ne_true hKkw
    have hkbfrom : kb ≠ m.fromSq := fun h => by
      rw [h, hKfrom] at hKkb
      exact Bool.false_ne_true hKkb
    have hKj : ∀ j, j < 64 → ((m.apply b).bb PieceT.king).testBit j =
        ((b.bb PieceT.king).testBit j && !(decide (m.toSq = j))) := by
      intro j hj
      rw [hbbj PieceT.king j hj, if_neg (fun h => hpnk h.symm),
        if_neg (fun h => hpknk h.symm)]
    apply kingsOk_of_pointwise kw kb hkw64 hkb64 _ _ hkbnd
    · intro j
      by_cases hj : j < 64
      · rw [show (m.apply b).king = (m.apply b).bb PieceT.king from rfl,
          hKj j hj, hwhj j hj]
        simp only [Board.bb]
        by_cases hjt : m.toSq = j
        · subst hjt
          simp [htkw]
        · by_cases hjf : m.fromSq = j
          · subst hjf
            cases hw : b.whiteToMove <;>
              simp [hjt, hKfrom, hkwfrom]
          · have h := hKW j
            have e1 : decide (m.toSq = j) = false := by simp [hjt]
            have e2 : decide (m.fromSq = j) = false := by simp [hjf]
            rw [e1, e2]
            cases hw : b.whiteToMove
            · rw [if_neg (Bool.false_ne_true)]
              simp only [Bool.not_false, Bool.and_true, Bool.or_false]
              exact h
            · rw [if_pos rfl]
              simp only [Bool.not_false, Bool.and_true, Bool.or_false]
              exact h
      · rw [testBit_ge_64 hkbnd (by omega),
          testBit_ge_64 hwbnd (by omega)]
        simp [show kw ≠ j from by omega]
    · intro j hj
      rw [show (m.apply b).king = (m.apply b).bb PieceT.king from rfl,
        hKj j hj, hwhj j hj]
      simp only [Board.bb]
      by_cases hjt : m.toSq = j
      · subst hjt
        simp [htkb]
      · by_cases hjf : m.fromSq = j
        · subst hjf
          cases hw : b.whiteToMove <;>
            simp [hjt, hKfrom, hkbfrom]
        · have h := hKB j hj
          have e1 : decide (m.toSq = j) = false := by simp [hjt]
          have e2 : decide (m.fromSq = j) = false := by simp [hjf]
          rw [e1, e2]
          cases hw : b.whiteToMove
          · rw [if_neg (Bool.false_ne_true)]
            simp only [Bool.not_false, Bool.and_true, Bool.or_false]
            exact h
          · rw [if_pos rfl]
            simp only [Bool.not_false, Bool.and_true, Bool.or_false]
            exact h
  · apply pawnsOk_of_pointwise (hbnd PieceT.pawn)
    intro j hjp
    have hj64 : j < 64 := testBit_true_lt (hbnd PieceT.pawn) hjp
    rw [show (m.apply b).pawn = (m.apply b).bb PieceT.pawn from rfl,
      hbbj PieceT.pawn j hj64, if_neg (fun h => hpnp h.symm),
      if_pos hpp.symm] at hjp
    simp at hjp
    have hpj : (b.bb m.piece).testBit j = true := hjp.1.1
    rw [hpp] at hpj
    exact pawnsOk_pointwise hws hpw j hpj
  · rw [hoccj m.fromSq hf64]
    simp [Ne.symm hfne]
  · rw [hbbj p m.toSq ht64, if_pos rfl]
    simp

theorem preserved_caseE (m : Move) (b : Board) (hv : b.valid)
    (F : MoveFacts b m) (he : m.ep = true)
    (hkto : (b.king &&& b.enemy).testBit m.toSq = false) :
    (m.apply b).verify = true ∧ (m.apply b).kingsOk ∧ (m.apply b).pawnsOk ∧
      (m.apply b).occupied.testBit m.fromSq = false ∧
      ((m.apply b).bb m.piece).testBit m.toSq = true := by
  obtain ⟨hws, hvf, hkg, hpw, hepok, _⟩ := hv
  obtain ⟨hpp, hpromo, hcf, hteq⟩ := F.ep_shape he
  have hnc : ¬(m.piece = PieceT.king ∧ m.castle = true) := fun h =>
    by rw [hpp] at h; exact absurd h.1 (by decide)
  have hf64 := F.from_lt
  have ht64 := F.to_lt
  have hfne := from_ne_to F
  have heplt : b.enPassantSquare < 64 := hteq ▸ ht64
  have hepr := hepok heplt
  have hcap64 : epCaptured m b < 64 := by
    rw [epCaptured, Board.nextToMove]
    cases hw : b.whiteToMove
    · rw [hw] at hepr
      simp only [Bool.false_eq_true, if_false] at hepr ⊢
      rw [hteq]
      omega
    · rw [hw] at hepr
      simp only [if_true] at hepr ⊢
      rw [hteq]
      omega
  have hcapto : epCaptured m b ≠ m.toSq := by
    rw [epCaptured, Board.nextToMove, hteq]
    cases hw : b.whiteToMove
    · rw [hw] at hepr
      simp only [Bool.false_eq_true, if_false] at hepr ⊢
      omega
    · rw [hw] at hepr
      simp only [if_true] at hepr ⊢
      omega
  have hPcap : b.pawn.testBit (epCaptured m b) = true := by
    rw [epCaptured, Board.nextToMove, hteq]
    cases hw : b.whiteToMove
    · rw [hw] at hepr
      simp only [Bool.false_eq_true, if_false] at hepr ⊢
      exact hepr.2.2.1
    · rw [hw] at hepr
      simp only [if_true] at hepr ⊢
      exact hepr.2.2.1
  have hfcap : b.friendly.testBit (epCaptured m b) = false := by
    rw [friendly_testBit hvf, epCaptured, Board.nextToMove, hteq]
    cases hw : b.whiteToMove
    · rw [hw] at hepr
      simp only [Bool.false_eq_true, if_false] at hepr ⊢
      have hW : b.white.testBit (b.enPassantSquare + 8) = true :=
        hepr.2.2.2
      rw [hW]
      simp
    · rw [hw] at hepr
      simp only [if_true] at hepr ⊢
      have hW : b.white.testBit (b.enPassantSquare - 8) = false :=
        hepr.2.2.2
      rw [hW]
  have hcapfrom : epCaptured m b ≠ m.fromSq := fun h => by
    rw [h, F.friendly_from] at hfcap
    simp at hfcap
  have hatcap : ∀ k, k ≠ PieceT.pawn →
      (b.bb k).testBit (epCaptured m b) = false := by
    intro k hk
    cases h : (b.bb k).testBit (epCaptured m b)
    · rfl
    · exact absurd ⟨h, hPcap⟩ (kind_at_unique hvf hk _)
  have hbbj : ∀ (k : PieceT) (j : Nat), j < 64 →
      ((m.apply b).bb k).testBit j =
      (if k = PieceT.pawn then
        (((b.bb m.piece).testBit j && !(decide (m.toSq = j))) ^^
          (decide (m.fromSq = j) || decide (m.toSq = j))) &&
          !(decide (epCaptured m b = j))
      else ((b.bb k).testBit j && !(decide (m.toSq = j)))) := by
    intro k j hj
    rw [caseE_bb m b hpromo he hnc k]
    by_cases hk : k = PieceT.pawn
    · rw [if_pos hk, if_pos hk, if_pos hpp.symm,
        testBit_unsetBit _ _ _ hcap64 hj, Nat.testBit_xor,
        testBit_unsetBit _ _ _ ht64 hj, Nat.testBit_or,
        testBit_bit64 hf64, testBit_bit64 ht64]
    · rw [if_neg hk, if_neg hk,
        if_neg (fun h : k = m.piece => hk (h.trans hpp)),
        testBit_unsetBit _ _ _ ht64 hj]
  have hoccj : ∀ j, j < 64 → (m.apply b).occupied.testBit j =
      (((b.occupied.testBit j && !(decide (m.fromSq = j))) ||
        decide (m.toSq = j)) && !(decide (epCaptured m b = j))) := by
    intro j hj
    rw [caseE_occ m b he hnc, testBit_unsetBit _ _ _ hcap64 hj,
      testBit_setBit _ _ _ ht64, testBit_unsetBit _ _ _ hf64 hj]
  have hwhj : ∀ j, j < 64 → (m.apply b).white.testBit j =
      ((if b.whiteToMove then
        ((b.white.testBit j && !(decide (m.fromSq = j))) ||
          decide (m.toSq = j))
      else (b.white.testBit j && !(decide (m.fromSq = j)) &&
        !(decide (m.toSq = j)))) && !(decide (epCaptured m b = j))) := by
    intro j hj
    rw [caseE_white m b he hnc]
    cases hw : b.whiteToMove
    · rw [if_neg (Bool.false_ne_true), if_neg (Bool.false_ne_true),
        testBit_unsetBit _ _ _ hcap64 hj, testBit_unsetBit _ _ _ ht64 hj,
        testBit_unsetBit _ _ _ hf64 hj]
    · rw [if_pos rfl, if_pos rfl, testBit_unsetBit _ _ _ hcap64 hj,
        testBit_setBit _ _ _ ht64, testBit_unsetBit _ _ _ hf64 hj]
  have hbnd : ∀ k, (m.apply b).bb k < wordSize := by
    intro k
    rw [caseE_bb m b hpromo he hnc k]
    by_cases hk : k = PieceT.pawn
    · rw [if_pos hk]
      exact unsetBit_lt _ _
    · rw [if_neg hk]
      by_cases hk2 : k = m.piece
      · rw [if_pos hk2]
        exact xor_lt_wordSize (unsetBit_lt _ _)
          (lor_lt_wordSize bit64_lt bit64_lt)
      · rw [if_neg hk2]
        exact unsetBit_lt _ _
  have hoccbnd : (m.apply b).occupied < wordSize := by
    rw [caseE_occ m b he hnc]
    exact unsetBit_lt _ _
  have hwbnd : (m.apply b).white < wordSize := by
    rw [caseE_white m b he hnc]
    exact unsetBit_lt _ _
  have hws' : (m.apply b).wordsOk :=
    ⟨hbnd PieceT.pawn, hbnd PieceT.knight, hbnd PieceT.bishop,
      hbnd PieceT.rook, hbnd PieceT.queen, hbnd PieceT.king, hwbnd, hoccbnd⟩
  have hOnly := kind_only_at_from hvf F
  have hKto := king_not_at_to hvf F hkto
  have hatfrom : ∀ k, (b.bb k).testBit m.fromSq = decide (k = m.piece) := by
    intro k
    by_cases hk : k = m.piece
    · simp [hk, F.piece_at]
    · rw [hOnly k hk]
      simp [hk]
  refine ⟨?_, ?_, ?_, ?_, ?_⟩
  · apply verify_of_pointwise hws'
    intro j hj
    obtain ⟨c1, c2, c3, c4, c5, c6, c7⟩ := verify_pointwise hvf j
    rw [show (m.apply b).pawn = (m.apply b).bb PieceT.pawn from rfl,
      show (m.apply b).knight = (m.apply b).bb PieceT.knight from rfl,
      show (m.apply b).bishop = (m.apply b).bb PieceT.bishop from rfl,
      show (m.apply b).rook = (m.apply b).bb PieceT.rook from rfl,
      show (m.apply b).queen = (m.apply b).bb PieceT.queen from rfl,
      show (m.apply b).king = (m.apply b).bb PieceT.king from rfl,
      hbbj PieceT.pawn j hj, hbbj PieceT.knight j hj,
      hbbj PieceT.bishop j hj, hbbj PieceT.rook j hj,
      hbbj PieceT.queen j hj, hbbj PieceT.king j hj, hoccj j hj, hwhj j hj]
    by_cases hjt : m.toSq = j
    · subst hjt
      have hdf : decide (m.fromSq = m.toSq) = false := by simp [hfne]
      have hdc : decide (epCaptured m b = m.toSq) = false := by
        simp [hcapto]
      rw [hpp]
      cases hw : b.whiteToMove <;> simp [hdf, hdc, Board.bb]
    · by_cases hjf : m.fromSq = j
      · subst hjf
        have hdc : decide (epCaptured m b = m.fromSq) = false := by
          simp [hcapfrom]
        rw [hpp]
        cases hw : b.whiteToMove <;>
          simp [hatfrom, hpp, hjt, hdc]
      · by_cases hjc : epCaptured m b = j
        · subst hjc
          have e1 : decide (m.toSq = epCaptured m b) = false := by
            simp [Ne.symm hcapto]
          have e2 : decide (m.fromSq = epCaptured m b) = false := by
            simp [Ne.symm hcapfrom]
          rw [e1, e2, hpp]
          have hk2 := hatcap PieceT.knight (by decide)
          have hk3 := hatcap PieceT.bishop (by decide)
          have hk4 := hatcap PieceT.rook (by decide)
          have hk5 := hatcap PieceT.queen (by decide)
          have hk6 := hatcap PieceT.king (by decide)
          simp only [Board.bb] at hk2 hk3 hk4 hk5 hk6
          cases hw : b.whiteToMove <;>
            simp [hk2, hk3, hk4, hk5, hk6, Board.bb]
        · have e1 : decide (m.toSq = j) = false := by simp [hjt]
          have e2 : decide (m.fromSq = j) = false := by simp [hjf]
          have e3 : decide (epCaptured m b = j) = false := by simp [hjc]
          rw [e1, e2, e3, hpp]
          have hcol : ∀ k : PieceT,
              (if k = PieceT.pawn then
                (((b.bb PieceT.pawn).testBit j && !false) ^^
                  (false || false)) && !false
              else ((b.bb k).testBit j && !false)) = (b.bb k).testBit j := by
            intro k
            by_cases h : k = PieceT.pawn
            · rw [if_pos h, h]
              simp
            · rw [if_neg h]
              simp
          rw [hcol PieceT.pawn, hcol PieceT.knight, hcol PieceT.bishop,
            hcol PieceT.rook, hcol PieceT.queen, hcol PieceT.king]
          simp only [Bool.not_false, Bool.and_true, Bool.or_false]
          cases hw : b.whiteToMove
          · rw [if_neg (Bool.false_ne_true)]
            exact ⟨c1, c2, c3, c4, c5, c6, c7⟩
          · rw [if_pos rfl]
            exact ⟨c1, c2, c3, c4, c5, c6, c7⟩
  · obtain ⟨kw, kb, hkw64, hkb64, hKW, hKB⟩ := kingsOk_pointwise hws hkg
    have h1 := hKW kw
    have h2 := hKB kb hkb64
    simp at h1 h2
    have hKkw : b.king.testBit kw = true := h1.1
    have hKkb : b.king.testBit kb = true := h2.1
    have htkw : kw ≠ m.toSq := fun h => by
      rw [h, hKto] at hKkw
      exact Bool.false_ne_true hKkw
    have htkb : kb ≠ m.toSq := fun h => by
      rw [h, hKto] at hKkb
      exact Bool.false_ne_true hKkb
    have hkbnd : (m.apply b).king < wordSize := hbnd PieceT.king
    have hpknk : m.piece ≠ PieceT.king := by
      rw [hpp]
      decide
    have hKfrom : b.king.testBit m.fromSq = false :=
      hOnly PieceT.king (fun h => hpknk h.symm)
    have hkwfrom : kw ≠ m.fromSq := fun h => by
      rw [h, hKfrom] at hKkw
      exact Bool.false_ne_true hKkw
    have hkbfrom : kb ≠ m.fromSq := fun h => by
      rw [h, hKfrom] at hKkb
      exact Bool.false_ne_true hKkb
    have hKcap : b.king.testBit (epCaptured m b) = false := by
      have h := hatcap PieceT.king (by decide)
      exact h
    have hkwcap : kw ≠ epCaptured m b := fun h => by
      rw [h, hKcap] at hKkw
      exact Bool.false_ne_true hKkw
    have hkbcap : kb ≠ epCaptured m b := fun h => by
      rw [h, hKcap] at hKkb
      exact Bool.false_ne_true hKkb
    have hKj : ∀ j, j < 64 → ((m.apply b).bb PieceT.king).testBit j =
        ((b.bb PieceT.king).testBit j && !(decide (m.toSq = j))) := by
      intro j hj
      rw [hbbj PieceT.king j hj, if_neg (by decide)]
    apply kingsOk_of_pointwise kw kb hkw64 hkb64 _ _ hkbnd
    · intro j
      by_cases hj : j < 64
      · rw [show (m.apply b).king = (m.apply b).bb PieceT.king from rfl,
          hKj j hj, hwhj j hj]
        simp only [Board.bb]
        by_cases hjt : m.toSq = j
        · subst hjt
          simp [htkw]
        · by_cases hjf : m.fromSq = j
          · subst hjf
            cases hw : b.whiteToMove <;>
              simp [hjt, hKfrom, hkwfrom]
          · by_cases hjc : epCaptured m b = j
            · subst hjc
              cases hw : b.whiteToMove <;>
                simp [hjt, hjf, hKcap, hkwcap]
            · have h := hKW j
              have e1 : decide (m.toSq = j) = false := by simp [hjt]
              have e2 : decide (m.fromSq = j) = false := by simp [hjf]
              have e3 : decide (epCaptured m b = j) = false := by
                simp [hjc]
              rw [e1, e2, e3]
              cases hw : b.whiteToMove
              · rw [if_neg (Bool.false_ne_true)]
                simp only [Bool.not_false, Bool.and_true, Bool.or_false]
                exact h
              · rw [if_pos rfl]
                simp only [Bool.not_false, Bool.and_true, Bool.or_false]
                exact h
      · rw [testBit_ge_64 hkbnd (by omega),
          testBit_ge_64 hwbnd (by omega)]
        simp [show kw ≠ j from by omega]
    · intro j hj
      rw [show (m.apply b).king = (m.apply b).bb PieceT.king from rfl,
        hKj j hj, hwhj j hj]
      simp only [Board.bb]
      by_cases hjt : m.toSq = j
      · subst hjt
        simp [htkb]
      · by_cases hjf : m.fromSq = j
        · subst hjf
          cases hw : b.whiteToMove <;>
            simp [hjt, hKfrom, hkbfrom]
        · by_cases hjc : epCaptured m b = j
          · subst hjc
            cases hw : b.whiteToMove <;>
              simp [hjt, hjf, hKcap, hkbcap]
          · have h := hKB j hj
            have e1 : decide (m.toSq = j) = false := by simp [hjt]
            have e2 : decide (m.fromSq = j) = false := by simp [hjf]
            have e3 : decide (epCaptured m b = j) = false := by simp [hjc]
            rw [e1, e2, e3]
            cases hw : b.whiteToMove
            · rw [if_neg (Bool.false_ne_true)]
              simp only [Bool.not_false, Bool.and_true, Bool.or_false]
              exact h
            · rw [if_pos rfl]
              simp only [Bool.not_false, Bool.and_true, Bool.or_false]
              exact h
  · apply pawnsOk_of_pointwise (hbnd PieceT.pawn)
    intro j hjp
    have hj64 : j < 64 := testBit_true_lt (hbnd PieceT.pawn) hjp
    rw [show (m.apply b).pawn = (m.apply b).bb PieceT.pawn from rfl,
      hbbj PieceT.pawn j hj64, if_pos rfl] at hjp
    by_cases hjt : m.toSq = j
    · subst hjt
      exact F.pawn_to hpp hpromo
    · by_cases hjf : m.fromSq = j
      · subst hjf
        have hpa := F.piece_at
        simp [hjt, hpa] at hjp
      · simp [hjt, hjf] at hjp
        have hpj := hjp.1
        rw [hpp] at hpj
        exact pawnsOk_pointwise hws hpw j hpj
  · rw [hoccj m.fromSq hf64]
    simp [Ne.symm hfne, hcapfrom]
  · rw [hbbj m.piece m.toSq ht64, if_pos hpp]
    simp [hcapto]

theorem preserved_castle_white (m : Move) (b : Board) (hv : b.valid)
    (F : MoveFacts b m) (hpk : m.piece = PieceT.king)
    (rf rt : Nat) (hrf64 : rf < 64) (hrt64 : rt < 64)
    (hC : ∀ k, (m.apply b).bb k =
      if k = PieceT.rook then
        setBit (unsetBit (unsetBit (b.bb PieceT.rook) m.toSq) rf) rt
      else if k = PieceT.king then
        unsetBit (b.bb PieceT.king) m.toSq ^^^
          (bit64 m.fromSq ||| bit64 m.toSq)
      else unsetBit (b.bb k) m.toSq)
    (hCocc : (m.apply b).occupied =
      setBit (unsetBit (setBit (unsetBit b.occupied m.fromSq) m.toSq)
        rf) rt)
    (hCwh : (m.apply b).white =
      setBit (unsetBit
        (if b.whiteToMove then setBit (unsetBit b.white m.fromSq) m.toSq
         else unsetBit (unsetBit b.white m.fromSq) m.toSq) rf) rt)
    (hw : b.whiteToMove = true)
    (hrook_rf : b.rook.testBit rf = true)
    (hwhite_rf : b.white.testBit rf = true)
    (hking4 : b.king.testBit 4 = true)
    (hwhite4 : b.white.testBit 4 = true)
    (hocc_t : b.occupied.testBit m.toSq = false)
    (hocc_rt : b.occupied.testBit rt = false)
    (htrt : m.toSq ≠ rt) (hrf4 : rf ≠ 4) (hrt4 : rt ≠ 4)
    (hrfrt : rf ≠ rt) :
    (m.apply b).verify = true ∧ (m.apply b).kingsOk ∧ (m.apply b).pawnsOk ∧
      (m.apply b).occupied.testBit m.fromSq = false ∧
      ((m.apply b).bb m.piece).testBit m.toSq = true := by
  obtain ⟨hws, hvf, hkg, hpw, _, _⟩ := hv
  have hf64 := F.from_lt
  have ht64 := F.to_lt
  have hfne := from_ne_to F
  have hOnly := kind_only_at_from hvf F
  have hatfrom : ∀ k, (b.bb k).testBit m.fromSq = decide (k = m.piece) := by
    intro k
    by_cases hk : k = m.piece
    · simp [hk, F.piece_at]
    · rw [hOnly k hk]
      simp [hk]
  -- the white king starts on e1
  obtain ⟨kw, kb, hkw64, hkb64, hKW, hKB⟩ := kingsOk_pointwise hws hkg
  have h1 := hKW kw
  have h2 := hKB kb hkb64
  simp at h1 h2
  have hKkw : b.king.testBit kw = true := h1.1
  have hWkkw : b.white.testBit kw = true := h1.2
  have hKkb : b.king.testBit kb = true := h2.1
  have hWkkb : b.white.testBit kb = false := h2.2
  have hkw4 : kw = 4 := by
    have h := hKW 4
    rw [hking4, hwhite4] at h
    simpa using h.symm
  have hKfrom : b.king.testBit m.fromSq = true := by
    have h := F.piece_at
    rw [hpk] at h
    exact h
  have hWfrom : b.white.testBit m.fromSq = true := by
    have h := F.friendly_from
    rw [friendly_testBit hvf, hw, if_pos rfl] at h
    exact h
  have hkwfrom : kw = m.fromSq := by
    have h := hKW m.fromSq
    rw [hKfrom, hWfrom] at h
    simpa using h.symm
  have hfrom4 : m.fromSq = 4 := by omega
  -- the destination and rook-destination squares are empty
  have hkind_t : ∀ k, (b.bb k).testBit m.toSq = false := by
    intro k
    have h := occ_iff_kind hvf m.toSq
    rw [hocc_t] at h
    have h2 := h.symm
    simp only [Bool.or_eq_false_iff] at h2
    cases k
    · exact h2.1.1.1.1.1
    · exact h2.1.1.1.1.2
    · exact h2.1.1.1.2
    · exact h2.1.1.2
    · exact h2.1.2
    · exact h2.2
  have hkind_rt : ∀ k, (b.bb k).testBit rt = false := by
    intro k
    have h := occ_iff_kind hvf rt
    rw [hocc_rt] at h
    have h2 := h.symm
    simp only [Bool.or_eq_false_iff] at h2
    cases k
    · exact h2.1.1.1.1.1
    · exact h2.1.1.1.1.2
    · exact h2.1.1.1.2
    · exact h2.1.1.2
    · exact h2.1.2
    · exact h2.2
  have hw_t : b.white.testBit m.toSq = false := by
    cases h : b.white.testBit m.toSq
    · rfl
    · rw [white_sub_occ hvf _ h] at hocc_t
      exact absurd hocc_t (by simp)
  have hw_rt : b.white.testBit rt = false := by
    cases h : b.white.testBit rt
    · rfl
    · rw [white_sub_occ hvf _ h] at hocc_rt
      exact absurd hocc_rt (by simp)
  -- only the rook sits on the rook origin square
  have hkind_rf : ∀ k, k ≠ PieceT.rook → (b.bb k).testBit rf = false := by
    intro k hk
    cases h : (b.bb k).testBit rf
    · rfl
    · exact absurd ⟨h, hrook_rf⟩ (kind_at_unique hvf hk _)
  have hocc_rf : b.occupied.testBit rf = true := by
    rw [occ_iff_kind hvf]
    have h : (b.bb PieceT.rook).testBit rf = true := hrook_rf
    simp [h]
  have hKt : b.king.testBit m.toSq = false := hkind_t PieceT.king
  have hKrt : b.king.testBit rt = false := hkind_rt PieceT.king
  have hKrf : b.king.testBit rf = false := hkind_rf PieceT.king (by decide)
  -- distinctness facts
  have ht4 : m.toSq ≠ 4 := fun h => by
    have hx := hking4
    rw [← h, hKt] at hx
    exact Bool.false_ne_true hx
  have htrf : m.toSq ≠ rf := fun h => by
    have := hocc_rf
    rw [← h, hocc_t] at this
    exact Bool.false_ne_true this
  have hkbne : kb ≠ 4 := fun h => by
    rw [h, hwhite4] at hWkkb
    exact absurd hWkkb (by simp)
  have hkb_t : kb ≠ m.toSq := fun h => by
    rw [h, hKt] at hKkb
    exact Bool.false_ne_true hKkb
  have hkb_rt : kb ≠ rt := fun h => by
    rw [h, hKrt] at hKkb
    exact Bool.false_ne_true hKkb
  have hkb_rf : kb ≠ rf := fun h => by
    rw [h, hKrf] at hKkb
    exact Bool.false_ne_true hKkb
  -- pointwise bit forms
  have hbbj : ∀ (k : PieceT) (j : Nat), j < 64 →
      ((m.apply b).bb k).testBit j =
      (if k = PieceT.rook then
        ((((b.bb PieceT.rook).testBit j && !(decide (m.toSq = j))) &&
          !(decide (rf = j))) || decide (rt = j))
      else if k = PieceT.king then
        (((b.bb PieceT.king).testBit j && !(decide (m.toSq = j))) ^^
          (decide (m.fromSq = j) || decide (m.toSq = j)))
      else ((b.bb k).testBit j && !(decide (m.toSq = j)))) := by
    intro k j hj
    rw [hC k]
    by_cases hk : k = PieceT.rook
    · rw [if_pos hk, if_pos hk, testBit_setBit _ _ _ hrt64,
        testBit_unsetBit _ _ _ hrf64 hj, testBit_unsetBit _ _ _ ht64 hj]
    · rw [if_neg hk, if_neg hk]
      by_cases hk2 : k = PieceT.king
      · rw [if_pos hk2, if_pos hk2, Nat.testBit_xor,
          testBit_unsetBit _ _ _ ht64 hj, Nat.testBit_or,
          testBit_bit64 hf64, testBit_bit64 ht64]
      · rw [if_neg hk2, if_neg hk2, testBit_unsetBit _ _ _ ht64 hj]
  have hoccj : ∀ j, j < 64 → (m.apply b).occupied.testBit j =
      ((((b.occupied.testBit j && !(decide (m.fromSq = j))) ||
        decide (m.toSq = j)) && !(decide (rf = j))) || decide (rt = j)) := by
    intro j hj
    rw [hCocc, testBit_setBit _ _ _ hrt64, testBit_unsetBit _ _ _ hrf64 hj,
      testBit_setBit _ _ _ ht64, testBit_unsetBit _ _ _ hf64 hj]
  have hwhj : ∀ j, j < 64 → (m.apply b).white.testBit j =
      ((((b.white.testBit j && !(decide (m.fromSq = j))) ||
        decide (m.toSq = j)) && !(decide (rf = j))) || decide (rt = j)) := by
    intro j hj
    rw [hCwh, hw, if_pos rfl, testBit_setBit _ _ _ hrt64,
      testBit_unsetBit _ _ _ hrf64 hj, testBit_setBit _ _ _ ht64,
      testBit_unsetBit _ _ _ hf64 hj]
  have hbnd : ∀ k, (m.apply b).bb k < wordSize := by
    intro k
    rw [hC k]
    by_cases hk : k = PieceT.rook
    · rw [if_pos hk]
      exact setBit_lt (unsetBit_lt _ _)
    · rw [if_neg hk]
      by_cases hk2 : k = PieceT.king
      · rw [if_pos hk2]
        exact xor_lt_wordSize (unsetBit_lt _ _)
          (lor_lt_wordSize bit64_lt bit64_lt)
      · rw [if_neg hk2]
        exact unsetBit_lt _ _
  have hoccbnd : (m.apply b).occupied < wordSize := by
    rw [hCocc]
    exact setBit_lt (unsetBit_lt _ _)
  have hwbnd : (m.apply b).white < wordSize := by
    rw [hCwh]
    exact setBit_lt (unsetBit_lt _ _)
  have hws' : (m.apply b).wordsOk :=
    ⟨hbnd PieceT.pawn, hbnd PieceT.knight, hbnd PieceT.bishop,
      hbnd PieceT.rook, hbnd PieceT.queen, hbnd PieceT.king, hwbnd, hoccbnd⟩
  refine ⟨?_, ?_, ?_, ?_, ?_⟩
  · apply verify_of_pointwise hws'
    intro j hj
    obtain ⟨c1, c2, c3, c4, c5, c6, c7⟩ := verify_pointwise hvf j
    rw [show (m.apply b).pawn = (m.apply b).bb PieceT.pawn from rfl,
      show (m.apply b).knight = (m.apply b).bb PieceT.knight from rfl,
      show (m.apply b).bishop = (m.apply b).bb PieceT.bishop from rfl,
      show (m.apply b).rook = (m.apply b).bb PieceT.rook from rfl,
      show (m.apply b).queen = (m.apply b).bb PieceT.queen from rfl,
      show (m.apply b).king = (m.apply b).bb PieceT.king from rfl,
      hbbj PieceT.pawn j hj, hbbj PieceT.knight j hj,
      hbbj PieceT.bishop j hj, hbbj PieceT.rook j hj,
      hbbj PieceT.queen j hj, hbbj PieceT.king j hj, hoccj j hj, hwhj j hj]
    by_cases hjt : m.toSq = j
    · subst hjt
      simp [hfne, Ne.symm htrf, Ne.symm htrt, hkind_t, Board.bb, hw_t]
    · by_cases hjf : m.fromSq = j
      · subst hjf
        have hdrf : decide (rf = m.fromSq) = false := by
          simp [show rf ≠ m.fromSq from fun h => hrf4 (h.trans hfrom4)]
        have hdrt : decide (rt = m.fromSq) = false := by
          simp [show rt ≠ m.fromSq from fun h => hrt4 (h.trans hfrom4)]
        simp [hatfrom, hpk, hjt, hdrf, hdrt]
      · by_cases hjrf : rf = j
        · subst hjrf
          have hp1 : b.pawn.testBit rf = false :=
            hkind_rf PieceT.pawn (by decide)
          have hp2 : b.knight.testBit rf = false :=
            hkind_rf PieceT.knight (by decide)
          have hp3 : b.bishop.testBit rf = false :=
            hkind_rf PieceT.bishop (by decide)
          have hp5 : b.queen.testBit rf = false :=
            hkind_rf PieceT.queen (by decide)
          have hp4 : b.rook.testBit rf = true := hrook_rf
          simp [hjt, hjf, hp1, hp2, hp3, hp4, hp5, hKrf, Board.bb,
            Ne.symm hrfrt, hocc_rf, hwhite_rf]
        · by_cases hjrt : rt = j
          · subst hjrt
            have hq1 : b.pawn.testBit rt = false := hkind_rt PieceT.pawn
            have hq2 : b.knight.testBit rt = false :=
              hkind_rt PieceT.knight
            have hq3 : b.bishop.testBit rt = false :=
              hkind_rt PieceT.bishop
            have hq4 : b.rook.testBit rt = false := hkind_rt PieceT.rook
            have hq5 : b.queen.testBit rt = false := hkind_rt PieceT.queen
            simp [hjt, hjf, hjrf, hq1, hq2, hq3, hq4, hq5, hKrt,
              Board.bb, hw_rt, hocc_rt, Ne.symm hrfrt]
          · have e1 : decide (m.toSq = j) = false := by simp [hjt]
            have e2 : decide (m.fromSq = j) = false := by simp [hjf]
            have e3 : decide (rf = j) = false := by simp [hjrf]
            have e4 : decide (rt = j) = false := by simp [hjrt]
            rw [e1, e2, e3, e4]
            simp only [Bool.not_false, Bool.and_true, Bool.or_false,
              Bool.xor_false]
            have hcol : ∀ k : PieceT,
                (if k = PieceT.rook then (b.bb PieceT.rook).testBit j
                else if k = PieceT.king then (b.bb PieceT.king).testBit j
                else (b.bb k).testBit j) = (b.bb k).testBit j := by
              intro k
              by_cases h : k = PieceT.rook
              · rw [if_pos h, h]
              · rw [if_neg h]
                by_cases h2 : k = PieceT.king
                · rw [if_pos h2, h2]
                · rw [if_neg h2]
            simp only [hcol]
            exact ⟨c1, c2, c3, c4, c5, c6, c7⟩
  · have hkbnd : (m.apply b).king < wordSize := hbnd PieceT.king
    apply kingsOk_of_pointwise m.toSq kb ht64 hkb64 _ _ hkbnd
    · intro j
      by_cases hj : j < 64
      · rw [show (m.apply b).king = (m.apply b).bb PieceT.king from rfl,
          hbbj PieceT.king j hj, if_neg (by decide), if_pos rfl,
          hwhj j hj]
        simp only [Board.bb]
        by_cases hjt : m.toSq = j
        · subst hjt
          simp [hfne, hKt, Ne.symm htrf]
        · by_cases hjf : m.fromSq = j
          · subst hjf
            simp [hjt, hKfrom, hjt, Ne.symm hfne,
              show rf ≠ m.fromSq from hfrom4 ▸ hrf4,
              show rt ≠ m.fromSq from hfrom4 ▸ hrt4]
          · by_cases hjrf : rf = j
            · subst hjrf
              simp [hjt, hjf, hKrf, Ne.symm hrfrt]
            · by_cases hjrt : rt = j
              · subst hjrt
                simp [hjt, hjf, hjrf, hKrt]
              · have h := hKW j
                have e1 : decide (m.toSq = j) = false := by simp [hjt]
                have e2 : decide (m.fromSq = j) = false := by simp [hjf]
                have e3 : decide (rf = j) = false := by simp [hjrf]
                have e4 : decide (rt = j) = false := by simp [hjrt]
                rw [e1, e2, e3, e4]
                simp only [Bool.not_false, Bool.and_true, Bool.or_false,
                  Bool.xor_false]
                rw [h]
                simp [hjt, show kw ≠ j from by
                  rw [hkw4]
                  exact fun hh => hjf (hfrom4.trans hh)]
      · rw [testBit_ge_64 hkbnd (by omega),
          testBit_ge_64 hwbnd (by omega)]
        simp [show m.toSq ≠ j from by omega]
    · intro j hj
      rw [show (m.apply b).king = (m.apply b).bb PieceT.king from rfl,
        hbbj PieceT.king j hj, if_neg (by decide), if_pos rfl, hwhj j hj]
      simp only [Board.bb]
      by_cases hjt : m.toSq = j
      · subst hjt
        simp [hfne, Ne.symm htrf, Ne.symm htrt, hkb_t]
      · by_cases hjf : m.fromSq = j
        · subst hjf
          simp [hjt, hKfrom, Ne.symm hfne,
            show kb ≠ m.fromSq from by
              rw [hfrom4]
              exact hkbne]
        · by_cases hjrf : rf = j
          · subst hjrf
            simp [hjt, hjf, hKrf, hkb_rf]
          · by_cases hjrt : rt = j
            · subst hjrt
              simp [hjt, hjf, hjrf, hKrt, hkb_rt]
            · have h := hKB j hj
              have e1 : decide (m.toSq = j) = false := by simp [hjt]
              have e2 : decide (m.fromSq = j) = false := by simp [hjf]
              have e3 : decide (rf = j) = false := by simp [hjrf]
              have e4 : decide (rt = j) = false := by simp [hjrt]
              rw [e1, e2, e3, e4]
              simp only [Bool.not_false, Bool.and_true, Bool.or_false,
                Bool.xor_false]
              exact h
  · apply pawnsOk_of_pointwise (hbnd PieceT.pawn)
    intro j hjp
    have hj64 : j < 64 := testBit_true_lt (hbnd PieceT.pawn) hjp
    rw [show (m.apply b).pawn = (m.apply b).bb PieceT.pawn from rfl,
      hbbj PieceT.pawn j hj64, if_neg (by decide),
      if_neg (by decide)] at hjp
    simp at hjp
    exact pawnsOk_pointwise hws hpw j hjp.1
  · rw [hoccj m.fromSq hf64]
    simp [Ne.symm hfne, show rf ≠ m.fromSq from hfrom4 ▸ hrf4,
      show rt ≠ m.fromSq from hfrom4 ▸ hrt4]
  · rw [hpk, hbbj PieceT.king m.toSq ht64, if_neg (by decide), if_pos rfl]
    simp

theorem preserved_castle_black (m : Move) (b : Board) (hv : b.valid)
    (F : MoveFacts b m) (hpk : m.piece = PieceT.king)
    (rf rt : Nat) (hrf64 : rf < 64) (hrt64 : rt < 64)
    (hC : ∀ k, (m.apply b).bb k =
      if k = PieceT.rook then
        setBit (unsetBit (unsetBit (b.bb PieceT.rook) m.toSq) rf) rt
      else if k = PieceT.king then
        unsetBit (b.bb PieceT.king) m.toSq ^^^
          (bit64 m.fromSq ||| bit64 m.toSq)
      else unsetBit (b.bb k) m.toSq)
    (hCocc : (m.apply b).occupied =
      setBit (unsetBit (setBit (unsetBit b.occupied m.fromSq) m.toSq)
        rf) rt)
    (hCwh : (m.apply b).white =
      (if b.whiteToMove then setBit (unsetBit b.white m.fromSq) m.toSq
       else unsetBit (unsetBit b.white m.fromSq) m.toSq))
    (hw : b.whiteToMove = false)
    (hrook_rf : b.rook.testBit rf = true)
    (hwhite_rf : b.white.testBit rf = false)
    (hking60 : b.king.testBit 60 = true)
    (hwhite60 : b.white.testBit 60 = false)
    (hocc_t : b.occupied.testBit m.toSq = false)
    (hocc_rt : b.occupied.testBit rt = false)
    (htrt : m.toSq ≠ rt) (hrf60 : rf ≠ 60) (hrt60 : rt ≠ 60)
    (hrfrt : rf ≠ rt) :
    (m.apply b).verify = true ∧ (m.apply b).kingsOk ∧ (m.apply b).pawnsOk ∧
      (m.apply b).occupied.testBit m.fromSq = false ∧
      ((m.apply b).bb m.piece).testBit m.toSq = true := by
  obtain ⟨hws, hvf, hkg, hpw, _, _⟩ := hv
  have hf64 := F.from_lt
  have ht64 := F.to_lt
  have hfne := from_ne_to F
  have hOnly := kind_only_at_from hvf F
  have hatfrom : ∀ k, (b.bb k).testBit m.fromSq = decide (k = m.piece) := by
    intro k
    by_cases hk : k = m.piece
    · simp [hk, F.piece_at]
    · rw [hOnly k hk]
      simp [hk]
  obtain ⟨kw, kb, hkw64, hkb64, hKW, hKB⟩ := kingsOk_pointwise hws hkg
  have h1 := hKW kw
  have h2 := hKB kb hkb64
  simp at h1 h2
  have hKkw : b.king.testBit kw = true := h1.1
  have hWkkw : b.white.testBit kw = true := h1.2
  have hKkb : b.king.testBit kb = true := h2.1
  have hWkkb : b.white.testBit kb = false := h2.2
  have hkb60 : kb = 60 := by
    have h := hKB 60 (by omega)
    rw [hking60, hwhite60] at h
    simpa using h.symm
  have hKfrom : b.king.testBit m.fromSq = true := by
    have h := F.piece_at
    rw [hpk] at h
    exact h
  have hWfrom : b.white.testBit m.fromSq = false := by
    have h := F.friendly_from
    rw [friendly_testBit hvf, hw, if_neg (Bool.false_ne_true)] at h
    simp at h
    exact h.2
  have hkbfrom : kb = m.fromSq := by
    have h := hKB m.fromSq hf64
    rw [hKfrom, hWfrom] at h
    simpa using h.symm
  have hfrom60 : m.fromSq = 60 := by omega
  have hkind_t : ∀ k, (b.bb k).testBit m.toSq = false := by
    intro k
    have h := occ_iff_kind hvf m.toSq
    rw [hocc_t] at h
    have h2 := h.symm
    simp only [Bool.or_eq_false_iff] at h2
    cases k
    · exact h2.1.1.1.1.1
    · exact h2.1.1.1.1.2
    · exact h2.1.1.1.2
    · exact h2.1.1.2
    · exact h2.1.2
    · exact h2.2
  have hkind_rt : ∀ k, (b.bb k).testBit rt = false := by
    intro k
    have h := occ_iff_kind hvf rt
    rw [hocc_rt] at h
    have h2 := h.symm
    simp only [Bool.or_eq_false_iff] at h2
    cases k
    · exact h2.1.1.1.1.1
    · exact h2.1.1.1.1.2
    · exact h2.1.1.1.2
    · exact h2.1.1.2
    · exact h2.1.2
    · exact h2.2
  have hw_t : b.white.testBit m.toSq = false := by
    cases h : b.white.testBit m.toSq
    · rfl
    · rw [white_sub_occ hvf _ h] at hocc_t
      exact absurd hocc_t (by simp)
  have hw_rt : b.white.testBit rt = false := by
    cases h : b.white.testBit rt
    · rfl
    · rw [white_sub_occ hvf _ h] at hocc_rt
      exact absurd hocc_rt (by simp)
  have hkind_rf : ∀ k, k ≠ PieceT.rook → (b.bb k).testBit rf = false := by
    intro k hk
    cases h : (b.bb k).testBit rf
    · rfl
    · exact absurd ⟨h, hrook_rf⟩ (kind_at_unique hvf hk _)
  have hocc_rf : b.occupied.testBit rf = true := by
    rw [occ_iff_kind hvf]
    have h : (b.bb PieceT.rook).testBit rf = true := hrook_rf
    simp [h]
  have hKt : b.king.testBit m.toSq = false := hkind_t PieceT.king
  have hKrt : b.king.testBit rt = false := hkind_rt PieceT.king
  have hKrf : b.king.testBit rf = false := hkind_rf PieceT.king (by decide)
  have ht60 : m.toSq ≠ 60 := fun h => by
    have hx := hking60
    rw [← h, hKt] at hx
    exact Bool.false_ne_true hx
  have htrf : m.toSq ≠ rf := fun h => by
    have hx := hocc_rf
    rw [← h, hocc_t] at hx
    exact Bool.false_ne_true hx
  have hkwne : kw ≠ 60 := fun h => by
    rw [h, hwhite60] at hWkkw
    exact Bool.false_ne_true hWkkw
  have hkw_t : kw ≠ m.toSq := fun h => by
    rw [h, hKt] at hKkw
    exact Bool.false_ne_true hKkw
  have hkw_rt : kw ≠ rt := fun h => by
    rw [h, hKrt] at hKkw
    exact Bool.false_ne_true hKkw
  have hkw_rf : kw ≠ rf := fun h => by
    rw [h, hKrf] at hKkw
    exact Bool.false_ne_true hKkw
  have hbbj : ∀ (k : PieceT) (j : Nat), j < 64 →
      ((m.apply b).bb k).testBit j =
      (if k = PieceT.rook then
        ((((b.bb PieceT.rook).testBit j && !(decide (m.toSq = j))) &&
          !(decide (rf = j))) || decide (rt = j))
      else if k = PieceT.king then
        (((b.bb PieceT.king).testBit j && !(decide (m.toSq = j))) ^^
          (decide (m.fromSq = j) || decide (m.toSq = j)))
      else ((b.bb k).testBit j && !(decide (m.toSq = j)))) := by
    intro k j hj
    rw [hC k]
    by_cases hk : k = PieceT.rook
    · rw [if_pos hk, if_pos hk, testBit_setBit _ _ _ hrt64,
        testBit_unsetBit _ _ _ hrf64 hj, testBit_unsetBit _ _ _ ht64 hj]
    · rw [if_neg hk, if_neg hk]
      by_cases hk2 : k = PieceT.king
      · rw [if_pos hk2, if_pos hk2, Nat.testBit_xor,
          testBit_unsetBit _ _ _ ht64 hj, Nat.testBit_or,
          testBit_bit64 hf64, testBit_bit64 ht64]
      · rw [if_neg hk2, if_neg hk2, testBit_unsetBit _ _ _ ht64 hj]
  have hoccj : ∀ j, j < 64 → (m.apply b).occupied.testBit j =
      ((((b.occupied.testBit j && !(decide (m.fromSq = j))) ||
        decide (m.toSq = j)) && !(decide (rf = j))) || decide (rt = j)) := by
    intro j hj
    rw [hCocc, testBit_setBit _ _ _ hrt64, testBit_unsetBit _ _ _ hrf64 hj,
      testBit_setBit _ _ _ ht64, testBit_unsetBit _ _ _ hf64 hj]
  have hwhj : ∀ j, j < 64 → (m.apply b).white.testBit j =
      (b.white.testBit j && !(decide (m.fromSq = j)) &&
        !(decide (m.toSq = j))) := by
    intro j hj
    rw [hCwh, hw, if_neg (Bool.false_ne_true),
      testBit_unsetBit _ _ _ ht64 hj, testBit_unsetBit _ _ _ hf64 hj]
  have hbnd : ∀ k, (m.apply b).bb k < wordSize := by
    intro k
    rw [hC k]
    by_cases hk : k = PieceT.rook
    · rw [if_pos hk]
      exact setBit_lt (unsetBit_lt _ _)
    · rw [if_neg hk]
      by_cases hk2 : k = PieceT.king
      · rw [if_pos hk2]
        exact xor_lt_wordSize (unsetBit_lt _ _)
          (lor_lt_wordSize bit64_lt bit64_lt)
      · rw [if_neg hk2]
        exact unsetBit_lt _ _
  have hoccbnd : (m.apply b).occupied < wordSize := by
    rw [hCocc]
    exact setBit_lt (unsetBit_lt _ _)
  have hwbnd : (m.apply b).white < wordSize := by
    rw [hCwh, hw, if_neg (Bool.false_ne_true)]
    exact unsetBit_lt _ _
  have hws' : (m.apply b).wordsOk :=
    ⟨hbnd PieceT.pawn, hbnd PieceT.knight, hbnd PieceT.bishop,
      hbnd PieceT.rook, hbnd PieceT.queen, hbnd PieceT.king, hwbnd, hoccbnd⟩
  refine ⟨?_, ?_, ?_, ?_, ?_⟩
  · apply verify_of_pointwise hws'
    intro j hj
    obtain ⟨c1, c2, c3, c4, c5, c6, c7⟩ := verify_pointwise hvf j
    rw [show (m.apply b).pawn = (m.apply b).bb PieceT.pawn from rfl,
      show (m.apply b).knight = (m.apply b).bb PieceT.knight from rfl,
      show (m.apply b).bishop = (m.apply b).bb PieceT.bishop from rfl,
      show (m.apply b).rook = (m.apply b).bb PieceT.rook from rfl,
      show (m.apply b).queen = (m.apply b).bb PieceT.queen from rfl,
      show (m.apply b).king = (m.apply b).bb PieceT.king from rfl,
      hbbj PieceT.pawn j hj, hbbj PieceT.knight j hj,
      hbbj PieceT.bishop j hj, hbbj PieceT.rook j hj,
      hbbj PieceT.queen j hj, hbbj PieceT.king j hj, hoccj j hj, hwhj j hj]
    by_cases hjt : m.toSq = j
    · subst hjt
      simp [hfne, Ne.symm htrf, Ne.symm htrt, hkind_t, Board.bb, hw_t]
    · by_cases hjf : m.fromSq = j
      · subst hjf
        have hdrf : decide (rf = m.fromSq) = false := by
          simp [show rf ≠ m.fromSq from fun h => hrf60 (h.trans hfrom60)]
        have hdrt : decide (rt = m.fromSq) = false := by
          simp [show rt ≠ m.fromSq from fun h => hrt60 (h.trans hfrom60)]
        simp [hatfrom, hpk, hjt, hdrf, hdrt]
      · by_cases hjrf : rf = j
        · subst hjrf
          have hp1 : b.pawn.testBit rf = false :=
            hkind_rf PieceT.pawn (by decide)
          have hp2 : b.knight.testBit rf = false :=
            hkind_rf PieceT.knight (by decide)
          have hp3 : b.bishop.testBit rf = false :=
            hkind_rf PieceT.bishop (by decide)
          have hp5 : b.queen.testBit rf = false :=
            hkind_rf PieceT.queen (by decide)
          have hp4 : b.rook.testBit rf = true := hrook_rf
          simp [hjt, hjf, hp1, hp2, hp3, hp4, hp5, hKrf, Board.bb,
            Ne.symm hrfrt, hocc_rf, hwhite_rf]
        · by_cases hjrt : rt = j
          · subst hjrt
            have hq1 : b.pawn.testBit rt = false := hkind_rt PieceT.pawn
            have hq2 : b.knight.testBit rt = false :=
              hkind_rt PieceT.knight
            have hq3 : b.bishop.testBit rt = false :=
              hkind_rt PieceT.bishop
            have hq4 : b.rook.testBit rt = false := hkind_rt PieceT.rook
            have hq5 : b.queen.testBit rt = false := hkind_rt PieceT.queen
            simp [hjt, hjf, hjrf, hq1, hq2, hq3, hq4, hq5, hKrt,
              Board.bb, hw_rt, hocc_rt, Ne.symm hrfrt]
          · have e1 : decide (m.toSq = j) = false := by simp [hjt]
            have e2 : decide (m.fromSq = j) = false := by simp [hjf]
            have e3 : decide (rf = j) = false := by simp [hjrf]
            have e4 : decide (rt = j) = false := by simp [hjrt]
            rw [e1, e2, e3, e4]
            simp only [Bool.not_false, Bool.and_true, Bool.or_false,
              Bool.xor_false]
            have hcol : ∀ k : PieceT,
                (if k = PieceT.rook then (b.bb PieceT.rook).testBit j
                else if k = PieceT.king then (b.bb PieceT.king).testBit j
                else (b.bb k).testBit j) = (b.bb k).testBit j := by
              intro k
              by_cases h : k = PieceT.rook
              · rw [if_pos h, h]
              · rw [if_neg h]
                by_cases h2 : k = PieceT.king
                · rw [if_pos h2, h2]
                · rw [if_neg h2]
            simp only [hcol]
            exact ⟨c1, c2, c3, c4, c5, c6, c7⟩
  · have hkbnd : (m.apply b).king < wordSize := hbnd PieceT.king
    apply kingsOk_of_pointwise kw m.toSq hkw64 ht64 _ _ hkbnd
    · intro j
      by_cases hj : j < 64
      · rw [show (m.apply b).king = (m.apply b).bb PieceT.king from rfl,
          hbbj PieceT.king j hj, if_neg (by decide), if_pos rfl,
          hwhj j hj]
        simp only [Board.bb]
        by_cases hjt : m.toSq = j
        · subst hjt
          simp [hkw_t]
        · by_cases hjf : m.fromSq = j
          · subst hjf
            simp [hjt, hKfrom, Ne.symm hfne,
              show kw ≠ m.fromSq from by
                rw [hfrom60]
                exact hkwne]
          · by_cases hjrf : rf = j
            · subst hjrf
              simp [hjt, hjf, hKrf, hkw_rf]
            · by_cases hjrt : rt = j
              · subst hjrt
                simp [hjt, hjf, hjrf, hKrt, hkw_rt]
              · have h := hKW j
                have e1 : decide (m.toSq = j) = false := by simp [hjt]
                have e2 : decide (m.fromSq = j) = false := by simp [hjf]
                rw [e1, e2]
                simp only [Bool.not_false, Bool.and_true, Bool.or_false,
                  Bool.xor_false]
                exact h
      · rw [testBit_ge_64 hkbnd (by omega),
          testBit_ge_64 hwbnd (by omega)]
        simp [show kw ≠ j from by omega]
    · intro j hj
      rw [show (m.apply b).king = (m.apply b).bb PieceT.king from rfl,
        hbbj PieceT.king j hj, if_neg (by decide), if_pos rfl, hwhj j hj]
      simp only [Board.bb]
      by_cases hjt : m.toSq = j
      · subst hjt
        simp [hfne, hw_t]
      · by_cases hjf : m.fromSq = j
        · subst hjf
          simp [hjt, hKfrom, Ne.symm hfne]
        · by_cases hjrf : rf = j
          · subst hjrf
            simp [hjt, hjf, hKrf, htrf]
          · by_cases hjrt : rt = j
            · subst hjrt
              simp [hjt, hjf, hjrf, hKrt, htrt]
            · have h := hKB j hj
              have e1 : decide (m.toSq = j) = false := by simp [hjt]
              have e2 : decide (m.fromSq = j) = false := by simp [hjf]
              rw [e1, e2]
              simp only [Bool.not_false, Bool.and_true, Bool.or_false,
                Bool.xor_false]
              rw [h]
              simp [hjt, show kb ≠ j from by
                rw [hkb60]
                exact fun hh => hjf (hfrom60.trans hh)]
  · apply pawnsOk_of_pointwise (hbnd PieceT.pawn)
    intro j hjp
    have hj64 : j < 64 := testBit_true_lt (hbnd PieceT.pawn) hjp
    rw [show (m.apply b).pawn = (m.apply b).bb PieceT.pawn from rfl,
      hbbj PieceT.pawn j hj64, if_neg (by decide),
      if_neg (by decide)] at hjp
    simp at hjp
    exact pawnsOk_pointwise hws hpw j hjp.1
  · rw [hoccj m.fromSq hf64]
    simp [Ne.symm hfne, show rf ≠ m.fromSq from fun h => hrf60
      (h.trans hfrom60), show rt ≠ m.fromSq from fun h => hrt60
      (h.trans hfrom60)]
  · rw [hpk, hbbj PieceT.king m.toSq ht64, if_neg (by decide), if_pos rfl]
    simp

theorem occ_bit_from_mask {x mask : Nat} (h : x &&& mask = 0) {j : Nat}
    (hm : mask.testBit j = true) : x.testBit j = false := by
  have hh := congrArg (fun y => y.testBit j) h
  simp only [Nat.testBit_and, Nat.zero_testBit] at hh
  rw [hm, Bool.and_true] at hh
  exact hh

theorem apply_preserves_of_facts (m : Move) (b : Board) (hv : b.valid)
    (F : MoveFacts b m)
    (hkto : (b.king &&& b.enemy).testBit m.toSq = false) :
    (m.apply b).verify = true ∧ (m.apply b).kingsOk ∧ (m.apply b).pawnsOk ∧
      (m.apply b).occupied.testBit m.fromSq = false ∧
      ((m.apply b).bb (m.promotion.getD m.piece)).testBit m.toSq = true := by
  cases hprom : m.promotion with
  | some p =>
    have h := preserved_caseP m b hv F hprom hkto
    exact ⟨h.1, h.2.1, h.2.2.1, h.2.2.2.1, h.2.2.2.2⟩
  | none =>
    cases hepc : m.ep with
    | true =>
      have h := preserved_caseE m b hv F hepc hkto
      exact ⟨h.1, h.2.1, h.2.2.1, h.2.2.2.1, h.2.2.2.2⟩
    | false =>
      by_cases hc : m.castle = true
      · obtain ⟨hpk, hpromo2, hep2, hshape⟩ := F.castle_shape hc
        have hcok := hv.2.2.2.2.2
        rcases hshape with ⟨hw, hsh⟩ | ⟨hw, hsh⟩
        · rcases hsh with ⟨ht, hwk, hmask⟩ | ⟨ht, hwq, hmask⟩
          · obtain ⟨hr7, hw7, hk4, hw4⟩ := hcok.1 hwk
            have h := preserved_castle_white m b hv F hpk 7 5 (by omega)
              (by omega) (caseC6_bb m b hprom hepc hpk hc ht)
              (caseC6_occ m b hepc hpk hc ht)
              (caseC6_white m b hepc hpk hc ht) hw hr7 hw7 hk4 hw4
              (occ_bit_from_mask hmask (by rw [ht]; decide))
              (occ_bit_from_mask hmask (by decide))
              (by omega) (by omega) (by omega) (by omega)
            exact ⟨h.1, h.2.1, h.2.2.1, h.2.2.2.1, h.2.2.2.2⟩
          · obtain ⟨hr0, hw0, hk4, hw4⟩ := hcok.2.1 hwq
            have h := preserved_castle_white m b hv F hpk 0 3 (by omega)
              (by omega) (caseC2_bb m b hprom hepc hpk hc ht)
              (caseC2_occ m b hepc hpk hc ht)
              (caseC2_white m b hepc hpk hc ht) hw hr0 hw0 hk4 hw4
              (occ_bit_from_mask hmask (by rw [ht]; decide))
              (occ_bit_from_mask hmask (by decide))
              (by omega) (by omega) (by omega) (by omega)
            exact ⟨h.1, h.2.1, h.2.2.1, h.2.2.2.1, h.2.2.2.2⟩
        · rcases hsh with ⟨ht, hbk, hmask⟩ | ⟨ht, hbq, hmask⟩
          · obtain ⟨hr63, hw63, hk60, hw60⟩ := hcok.2.2.1 hbk
            have h := preserved_castle_black m b hv F hpk 63 61 (by omega)
              (by omega) (caseC62_bb m b hprom hepc hpk hc ht)
              (caseC62_occ m b hepc hpk hc ht)
              (caseC62_white m b hepc hpk hc ht) hw hr63 hw63 hk60 hw60
              (occ_bit_from_mask hmask (by rw [ht]; decide))
              (occ_bit_from_mask hmask (by decide))
              (by omega) (by omega) (by omega) (by omega)
            exact ⟨h.1, h.2.1, h.2.2.1, h.2.2.2.1, h.2.2.2.2⟩
          · obtain ⟨hr56, hw56, hk60, hw60⟩ := hcok.2.2.2 hbq
            have h := preserved_castle_black m b hv F hpk 56 59 (by omega)
              (by omega) (caseC58_bb m b hprom hepc hpk hc ht)
              (caseC58_occ m b hepc hpk hc ht)
              (caseC58_white m b hepc hpk hc ht) hw hr56 hw56 hk60 hw60
              (occ_bit_from_mask hmask (by rw [ht]; decide))
              (occ_bit_from_mask hmask (by decide))
              (by omega) (by omega) (by omega) (by omega)
            exact ⟨h.1, h.2.1, h.2.2.1, h.2.2.2.1, h.2.2.2.2⟩
      · have hnc : ¬(m.piece = PieceT.king ∧ m.castle = true) := fun h =>
          hc h.2
        have h := preserved_caseN m b hv F hprom hepc hnc hkto
        exact ⟨h.1, h.2.1, h.2.2.1, h.2.2.2.1, h.2.2.2.2⟩

/-! ### C3 support: extracting move facts from generate_moves membership -/

theorem friendly_lt {b : Board} (hws : b.wordsOk) : b.friendly < wordSize := by
  rw [Board.friendly]
  cases hw : b.whiteToMove
  · rw [if_neg (Bool.false_ne_true)]
    exact xor_lt_wordSize hws.2.2.2.2.2.2.2 hws.2.2.2.2.2.2.1
  · rw [if_pos rfl]
    exact hws.2.2.2.2.2.2.1

theorem enemy_lt {b : Board} (hws : b.wordsOk) : b.enemy < wordSize := by
  rw [Board.enemy]
  cases hw : b.whiteToMove
  · rw [if_neg (Bool.false_ne_true)]
    exact hws.2.2.2.2.2.2.1
  · rw [if_pos rfl]
    exact xor_lt_wordSize hws.2.2.2.2.2.2.2 hws.2.2.2.2.2.2.1

theorem foldl_and_pair_subset (g : Nat → Nat) :
    ∀ (l : List Nat) (st : Nat × Bool) (j : Nat),
    ((l.foldl (fun st cs => (st.1 &&& g cs, true)) st).1).testBit j = true →
    (st.1).testBit j = true
  | [], _, _, h => h
  | x :: xs, st, j, h => by
    rw [List.foldl_cons] at h
    have h2 := foldl_and_pair_subset g xs _ j h
    rw [Nat.testBit_and, Bool.and_eq_true] at h2
    exact h2.1

theorem foldl_and_pair_lt (g : Nat → Nat) :
    ∀ (l : List Nat) (st : Nat × Bool), st.1 < wordSize →
    ((l.foldl (fun st cs => (st.1 &&& g cs, true)) st).1) < wordSize
  | [], _, h => h
  | x :: xs, st, h => by
    rw [List.foldl_cons]
    exact foldl_and_pair_lt g xs _ (land_le_left_lt h _)

theorem exists_testBit_of_ne_zero {x : Nat} (h : x ≠ 0) :
    ∃ j, x.testBit j = true := by
  by_contra hh
  push_neg at hh
  refine h (Nat.eq_of_testBit_eq fun j => ?_)
  rw [Nat.zero_testBit]
  have := hh j
  simpa using this

theorem bit64_and_ne_zero {f y : Nat} (h : bit64 f &&& y ≠ 0) :
    f < 64 ∧ y.testBit f = true := by
  have hf : f < 64 := by
    by_contra hge
    rw [bit64_eq_zero (by omega)] at h
    simp at h
  obtain ⟨j, hj⟩ := exists_testBit_of_ne_zero h
  rw [Nat.testBit_and, Bool.and_eq_true, testBit_bit64 hf] at hj
  have hfj : f = j := by
    have := hj.1
    simpa using this
  exact ⟨hf, hfj ▸ hj.2⟩

theorem bit64_and_and_ne_zero {f m1 y : Nat}
    (h : (bit64 f &&& m1) &&& y ≠ 0) : f < 64 ∧ y.testBit f = true := by
  have hf : f < 64 := by
    by_contra hge
    rw [bit64_eq_zero (by omega)] at h
    simp at h
  obtain ⟨j, hj⟩ := exists_testBit_of_ne_zero h
  rw [Nat.testBit_and, Bool.and_eq_true, Nat.testBit_and,
    Bool.and_eq_true, testBit_bit64 hf] at hj
  have hfj : f = j := by
    have := hj.1.1
    simpa using this
  exact ⟨hf, hfj ▸ hj.2⟩

theorem and_bit64_ne_zero {x e : Nat} (h : x &&& bit64 e ≠ 0) :
    e < 64 ∧ x.testBit e = true := by
  have he : e < 64 := by
    by_contra hge
    rw [bit64_eq_zero (by omega)] at h
    simp at h
  obtain ⟨j, hj⟩ := exists_testBit_of_ne_zero h
  rw [Nat.testBit_and, Bool.and_eq_true, testBit_bit64 he] at hj
  have hej : e = j := by
    have := hj.2
    simpa using this
  exact ⟨he, hej ▸ hj.1⟩

theorem or_and_eq_zero_left {x y mask : Nat} (h : (x ||| y) &&& mask = 0) :
    x &&& mask = 0 := by
  apply Nat.eq_of_testBit_eq
  intro j
  have hh := congrArg (fun z => z.testBit j) h
  simp only [Nat.testBit_and, Nat.testBit_or, Nat.zero_testBit] at hh ⊢
  cases hx : x.testBit j
  · simp
  · rw [hx] at hh
    simp at hh
    simp [hh]

theorem mask_rank3_bits : ∀ j : Fin 64,
    (RANK_3).testBit j.val = decide (16 ≤ j.val ∧ j.val < 24) := by decide

theorem mask_rank6_bits : ∀ j : Fin 64,
    (RANK_6).testBit j.val = decide (40 ≤ j.val ∧ j.val < 48) := by decide

theorem testBit_shl64 (x n j : Nat) (hj : j < 64) :
    (shl64 x n).testBit j = (decide (n ≤ j) && x.testBit (j - n)) := by
  rw [shl64, wordSize_eq, Nat.testBit_mod_two_pow, Nat.testBit_shiftLeft]
  simp [hj]

theorem testBit_shr (x n j : Nat) :
    (x >>> n).testBit j = x.testBit (n + j) := Nat.testBit_shiftRight x

theorem destFilter_facts (b : Board) (hfl : b.friendly < wordSize)
    (g1 g2 : Nat → Nat) (l1 l2 l3 : List Nat) (j : Nat)
    (h : ((l3.foldl (fun (st : Nat × Bool) cs => (st.1 &&& cs, true))
      (l2.foldl (fun (st : Nat × Bool) cs => (st.1 &&& g2 cs, true))
        (l1.foldl (fun (st : Nat × Bool) cs => (st.1 &&& g1 cs, true))
          (bnot64 b.friendly, false)))).1).testBit j = true) :
    b.friendly.testBit j = false := by
  have h1 := foldl_and_pair_subset (fun cs => cs) l3 _ j h
  have h2 := foldl_and_pair_subset g2 l2 _ j h1
  have h3 := foldl_and_pair_subset g1 l1 _ j h2
  by_cases hj : j < 64
  · rw [testBit_bnot64_lt _ hj] at h3
    cases hf : b.friendly.testBit j
    · rfl
    · rw [hf] at h3
      simp at h3
  · exact testBit_ge_64 hfl (by omega)

theorem destFilter_bound (b : Board) (hfl : b.friendly < wordSize)
    (g1 g2 : Nat → Nat) (l1 l2 l3 : List Nat) :
    ((l3.foldl (fun (st : Nat × Bool) cs => (st.1 &&& cs, true))
      (l2.foldl (fun (st : Nat × Bool) cs => (st.1 &&& g2 cs, true))
        (l1.foldl (fun (st : Nat × Bool) cs => (st.1 &&& g1 cs, true))
          (bnot64 b.friendly, false)))).1) < wordSize :=
  foldl_and_pair_lt _ l3 _ (foldl_and_pair_lt _ l2 _
    (foldl_and_pair_lt _ l1 _ (bnot64_lt hfl)))

theorem friendly_sub_occ {b : Board} (hvf : b.verify = true) :
    ∀ j, b.friendly.testBit j = true → b.occupied.testBit j = true := by
  intro j hf
  rw [friendly_testBit hvf] at hf
  cases hw : b.whiteToMove
  · rw [hw] at hf
    simp at hf
    exact hf.1
  · rw [hw] at hf
    simp at hf
    exact white_sub_occ hvf j hf

theorem and_eq_zero_bit {x mask : Nat} (h : x &&& mask = 0) {t : Nat}
    (hm : mask.testBit t = true) : x.testBit t = false := by
  have hh := congrArg (fun z => z.testBit t) h
  simp only [Nat.testBit_and, Nat.zero_testBit] at hh
  cases hx : x.testBit t
  · rfl
  · rw [hx, hm] at hh
    simp at hh

theorem pawn_rank_free {b : Board} (hpw : b.pawnsOk) :
    ∀ j, j < 64 → (j < 8 ∨ 56 ≤ j) → b.pawn.testBit j = false := by
  intro j hj hr
  refine and_eq_zero_bit hpw ?_
  rw [mask_rank18 ⟨j, hj⟩]
  simp
  omega

theorem allyKing_square {b : Board} (hvf : b.verify = true)
    (hws : b.wordsOk) (hk : b.kingsOk) :
    ∃ k0 : Nat, k0 < 64 ∧ squareOf (b.king &&& b.friendly) = k0 ∧
      b.king.testBit k0 = true ∧ b.friendly.testBit k0 = true := by
  obtain ⟨⟨kw, hkw⟩, ⟨kb, hkb⟩⟩ := hk
  cases hw : b.whiteToMove
  · -- black to move: king &&& friendly = king &&& bnot64 white
    have heq : b.king &&& b.friendly = bit64 kb.val := by
      rw [← hkb]
      apply Nat.eq_of_testBit_eq
      intro j
      rw [Nat.testBit_and, Nat.testBit_and, friendly_testBit hvf, hw]
      simp only [Bool.false_eq_true, if_false]
      cases hkj : b.king.testBit j
      · simp
      · have hocc : b.occupied.testBit j = true := by
          rw [(verify_pointwise hvf j).2.2.2.2.2.1]
          simp [hkj]
        by_cases hj : j < 64
        · rw [testBit_bnot64_lt _ hj, hocc]
          simp
        · rw [testBit_ge_64 hws.2.2.2.2.2.1 (by omega)] at hkj
          exact absurd hkj (by simp)
    refine ⟨kb.val, kb.isLt, ?_, ?_, ?_⟩
    · rw [squareOf, heq, ilog2_eq_of_single kb.isLt]
    · have := congrArg (fun z => z.testBit kb.val) heq
      simp only [Nat.testBit_and, testBit_bit64 kb.isLt] at this
      simp at this
      exact this.1
    · have := congrArg (fun z => z.testBit kb.val) heq
      simp only [Nat.testBit_and, testBit_bit64 kb.isLt] at this
      simp at this
      exact this.2
  · -- white to move: friendly = white
    have hfw : b.friendly = b.white := by
      rw [Board.friendly, hw]
      rfl
    have heq : b.king &&& b.friendly = bit64 kw.val := by rw [hfw, hkw]
    refine ⟨kw.val, kw.isLt, ?_, ?_, ?_⟩
    · rw [squareOf, heq, ilog2_eq_of_single kw.isLt]
    · have := congrArg (fun z => z.testBit kw.val) heq
      simp only [Nat.testBit_and, testBit_bit64 kw.isLt] at this
      simp at this
      exact this.1
    · have := congrArg (fun z => z.testBit kw.val) heq
      simp only [Nat.testBit_and, testBit_bit64 kw.isLt] at this
      simp at this
      exact this.2

theorem facts_pawn_promo (b : Board) (m : Move) (src DF : Nat)
    (hlt : src &&& DF < wordSize)
    (hsub : ∀ j, DF.testBit j = true → b.friendly.testBit j = false)
    (fOf : Nat → Nat) (canP : Nat → Bool)
    (hgeo : ∀ t, t < 64 → src.testBit t = true →
      fOf t < 64 ∧ (b.pawn &&& b.friendly).testBit (fOf t) = true ∧
        (canP t = false → 8 ≤ t ∧ t < 56))
    (hmem : m ∈ (scanBits (src &&& DF)).flatMap fun t =>
      if canP t = true then
        promotionPieces.map fun promo =>
          Move.mk (fOf t) t PieceT.pawn (some promo) false false
      else [Move.mk (fOf t) t PieceT.pawn none false false]) :
    MoveFacts b m := by
  rw [List.mem_flatMap] at hmem
  obtain ⟨t, ht, hmm⟩ := hmem
  rw [mem_scanBits hlt] at ht
  have ht64 : t < 64 := testBit_true_lt hlt ht
  rw [Nat.testBit_and, Bool.and_eq_true] at ht
  obtain ⟨hsrc, hdf⟩ := ht
  obtain ⟨hflt, hfp, hrange⟩ := hgeo t ht64 hsrc
  rw [Nat.testBit_and, Bool.and_eq_true] at hfp
  have hfto : b.friendly.testBit t = false := hsub t hdf
  by_cases hcp : canP t = true
  · rw [if_pos hcp, List.mem_map] at hmm
    obtain ⟨promo, hpm, rfl⟩ := hmm
    have hpshape : promo = PieceT.queen ∨ promo = PieceT.rook ∨
        promo = PieceT.bishop ∨ promo = PieceT.knight := by
      simpa [promotionPieces] using hpm
    exact {
      from_lt := hflt
      to_lt := ht64
      piece_at := hfp.1
      friendly_from := hfp.2
      friendly_to := hfto
      promo_shape := by
        intro p hp
        injection hp with hpp
        subst hpp
        exact ⟨rfl, hpshape⟩
      pawn_to := fun _ hpn => nomatch hpn
      ep_shape := fun h => absurd h Bool.false_ne_true
      castle_shape := fun h => absurd h Bool.false_ne_true }
  · rw [if_neg hcp, List.mem_singleton] at hmm
    subst hmm
    have hcf : canP t = false := by
      cases h : canP t
      · rfl
      · exact absurd h hcp
    exact {
      from_lt := hflt
      to_lt := ht64
      piece_at := hfp.1
      friendly_from := hfp.2
      friendly_to := hfto
      promo_shape := fun p hp => nomatch hp
      pawn_to := fun _ _ => hrange hcf
      ep_shape := fun h => absurd h Bool.false_ne_true
      castle_shape := fun h => absurd h Bool.false_ne_true }

theorem facts_pawn_nopromo (b : Board) (m : Move) (src DF : Nat)
    (hlt : src &&& DF < wordSize)
    (hsub : ∀ j, DF.testBit j = true → b.friendly.testBit j = false)
    (fOf : Nat → Nat)
    (hgeo : ∀ t, t < 64 → src.testBit t = true →
      fOf t < 64 ∧ (b.pawn &&& b.friendly).testBit (fOf t) = true ∧
        8 ≤ t ∧ t < 56)
    (hmem : m ∈ (scanBits (src &&& DF)).map fun t =>
      Move.mk (fOf t) t PieceT.pawn none false false) :
    MoveFacts b m := by
  rw [List.mem_map] at hmem
  obtain ⟨t, ht, rfl⟩ := hmem
  rw [mem_scanBits hlt] at ht
  have ht64 : t < 64 := testBit_true_lt hlt ht
  rw [Nat.testBit_and, Bool.and_eq_true] at ht
  obtain ⟨hsrc, hdf⟩ := ht
  obtain ⟨hflt, hfp, hrange⟩ := hgeo t ht64 hsrc
  rw [Nat.testBit_and, Bool.and_eq_true] at hfp
  exact {
    from_lt := hflt
    to_lt := ht64
    piece_at := hfp.1
    friendly_from := hfp.2
    friendly_to := hsub t hdf
    promo_shape := fun p hp => nomatch hp
    pawn_to := fun _ _ => hrange
    ep_shape := fun h => absurd h Bool.false_ne_true
    castle_shape := fun h => absurd h Bool.false_ne_true }

theorem facts_pawn_caps (b : Board) (m : Move) (src : Nat)
    (hlt : src < wordSize)
    (hsub : ∀ j, src.testBit j = true → b.friendly.testBit j = false)
    (canP : Nat → Bool)
    (hrange : ∀ t, t < 64 → src.testBit t = true → canP t = false →
      8 ≤ t ∧ t < 56)
    (dirs : List (Direction × Nat))
    (hmem : m ∈ (scanBits src).flatMap fun t =>
      dirs.flatMap fun dm =>
        if (bit64 ((dm.1.shiftIdx t).getD 0) &&& dm.2) &&&
            (b.pawn &&& b.friendly) ≠ 0 then
          if canP t = true then
            promotionPieces.map fun promo =>
              Move.mk ((dm.1.shiftIdx t).getD 0) t PieceT.pawn (some promo)
                false false
          else [Move.mk ((dm.1.shiftIdx t).getD 0) t PieceT.pawn none
            false false]
        else []) :
    MoveFacts b m := by
  rw [List.mem_flatMap] at hmem
  obtain ⟨t, ht, hmm⟩ := hmem
  rw [mem_scanBits hlt] at ht
  have ht64 : t < 64 := testBit_true_lt hlt ht
  have hfto := hsub t ht
  rw [List.mem_flatMap] at hmm
  obtain ⟨dm, _, hmm⟩ := hmm
  by_cases hc : (bit64 ((dm.1.shiftIdx t).getD 0) &&& dm.2) &&&
      (b.pawn &&& b.friendly) ≠ 0
  · rw [if_pos hc] at hmm
    obtain ⟨hflt, hfp⟩ := bit64_and_and_ne_zero hc
    rw [Nat.testBit_and, Bool.and_eq_true] at hfp
    by_cases hcp : canP t = true
    · rw [if_pos hcp, List.mem_map] at hmm
      obtain ⟨promo, hpm, rfl⟩ := hmm
      have hpshape : promo = PieceT.queen ∨ promo = PieceT.rook ∨
          promo = PieceT.bishop ∨ promo = PieceT.knight := by
        simpa [promotionPieces] using hpm
      exact {
        from_lt := hflt
        to_lt := ht64
        piece_at := hfp.1
        friendly_from := hfp.2
        friendly_to := hfto
        promo_shape := by
          intro p hp
          injection hp with hpp
          subst hpp
          exact ⟨rfl, hpshape⟩
        pawn_to := fun _ hpn => nomatch hpn
        ep_shape := fun h => absurd h Bool.false_ne_true
        castle_shape := fun h => absurd h Bool.false_ne_true }
    · rw [if_neg hcp, List.mem_singleton] at hmm
      subst hmm
      have hcf : canP t = false := by
        cases h : canP t
        · rfl
        · exact absurd h hcp
      exact {
        from_lt := hflt
        to_lt := ht64
        piece_at := hfp.1
        friendly_from := hfp.2
        friendly_to := hfto
        promo_shape := fun p hp => nomatch hp
        pawn_to := fun _ _ => hrange t ht64 ht hcf
        ep_shape := fun h => absurd h Bool.false_ne_true
        castle_shape := fun h => absurd h Bool.false_ne_true }
  · rw [if_neg hc] at hmm
    simp at hmm

theorem facts_ep (b : Board) (m : Move)
    (heplt : b.enPassantSquare < 64)
    (hfto : b.friendly.testBit b.enPassantSquare = false)
    (hrange : 8 ≤ b.enPassantSquare ∧ b.enPassantSquare < 56)
    (dirs : List Direction)
    (hmem : m ∈ dirs.flatMap fun d =>
      if bit64 ((d.shiftIdx b.enPassantSquare).getD 0) &&&
          (b.pawn &&& b.friendly) ≠ 0 then
        [Move.mk ((d.shiftIdx b.enPassantSquare).getD 0) b.enPassantSquare
          PieceT.pawn none false true]
      else []) :
    MoveFacts b m := by
  rw [List.mem_flatMap] at hmem
  obtain ⟨d, _, hmm⟩ := hmem
  by_cases hc : bit64 ((d.shiftIdx b.enPassantSquare).getD 0) &&&
      (b.pawn &&& b.friendly) ≠ 0
  · rw [if_pos hc, List.mem_singleton] at hmm
    subst hmm
    obtain ⟨hflt, hfp⟩ := bit64_and_ne_zero hc
    rw [Nat.testBit_and, Bool.and_eq_true] at hfp
    exact {
      from_lt := hflt
      to_lt := heplt
      piece_at := hfp.1
      friendly_from := hfp.2
      friendly_to := hfto
      promo_shape := fun p hp => nomatch hp
      pawn_to := fun _ _ => hrange
      ep_shape := fun _ => ⟨rfl, rfl, rfl, rfl⟩
      castle_shape := fun h => absurd h Bool.false_ne_true }
  · rw [if_neg hc] at hmm
    simp at hmm

theorem facts_slider (b : Board) (m : Move) (k : PieceT)
    (hknp : k ≠ PieceT.pawn) (srcBB DF : Nat)
    (hsrcBB : srcBB = b.bb k)
    (hfl : b.friendly < wordSize) (hDFlt : DF < wordSize)
    (hsub : ∀ j, DF.testBit j = true → b.friendly.testBit j = false)
    (gen : Nat → Nat)
    (hmem : m ∈ (scanBits (srcBB &&& b.friendly)).flatMap fun f =>
      (scanBits (gen f &&& DF)).map fun t =>
        Move.mk f t k none false false) :
    MoveFacts b m := by
  rw [List.mem_flatMap] at hmem
  obtain ⟨f, hf, hmm⟩ := hmem
  rw [mem_scanBits (land_lt_wordSize _ hfl)] at hf
  have hf64 := testBit_true_lt (land_lt_wordSize _ hfl) hf
  rw [Nat.testBit_and, Bool.and_eq_true] at hf
  rw [List.mem_map] at hmm
  obtain ⟨t, ht, rfl⟩ := hmm
  rw [mem_scanBits (land_lt_wordSize _ hDFlt)] at ht
  have ht64 := testBit_true_lt (land_lt_wordSize _ hDFlt) ht
  rw [Nat.testBit_and, Bool.and_eq_true] at ht
  exact {
    from_lt := hf64
    to_lt := ht64
    piece_at := by
      show (b.bb k).testBit f = true
      rw [← hsrcBB]
      exact hf.1
    friendly_from := hf.2
    friendly_to := hsub t ht.2
    promo_shape := fun p hp => nomatch hp
    pawn_to := fun h _ => absurd h hknp
    ep_shape := fun h => absurd h Bool.false_ne_true
    castle_shape := fun h => absurd h Bool.false_ne_true }

theorem facts_knight (b : Board) (m : Move)
    (hfl : b.friendly < wordSize) (src DF : Nat) (hDFlt : DF < wordSize)
    (hsub : ∀ j, DF.testBit j = true → b.friendly.testBit j = false)
    (gen : Nat → Nat)
    (hmem : m ∈ (scanBits (src &&& DF)).flatMap fun t =>
      (scanBits (gen t &&& (b.knight &&& b.friendly))).map fun f =>
        Move.mk f t PieceT.knight none false false) :
    MoveFacts b m := by
  rw [List.mem_flatMap] at hmem
  obtain ⟨t, ht, hmm⟩ := hmem
  rw [mem_scanBits (land_lt_wordSize _ hDFlt)] at ht
  have ht64 := testBit_true_lt (land_lt_wordSize _ hDFlt) ht
  rw [Nat.testBit_and, Bool.and_eq_true] at ht
  rw [List.mem_map] at hmm
  obtain ⟨f, hf, rfl⟩ := hmm
  rw [mem_scanBits (land_lt_wordSize _ (land_lt_wordSize _ hfl))] at hf
  have hf64 := testBit_true_lt (land_lt_wordSize _ (land_lt_wordSize _ hfl)) hf
  rw [Nat.testBit_and, Bool.and_eq_true] at hf
  have hkn := hf.2
  rw [Nat.testBit_and, Bool.and_eq_true] at hkn
  exact {
    from_lt := hf64
    to_lt := ht64
    piece_at := hkn.1
    friendly_from := hkn.2
    friendly_to := hsub t ht.2
    promo_shape := fun p hp => nomatch hp
    pawn_to := fun h _ => nomatch h
    ep_shape := fun h => absurd h Bool.false_ne_true
    castle_shape := fun h => absurd h Bool.false_ne_true }

theorem facts_king (b : Board) (m : Move) (hvf : b.verify = true)
    (hws : b.wordsOk) (hk : b.kingsOk) (D : Nat) (hDlt : D < wordSize)
    (hDsub : ∀ j, j < 64 → D.testBit j = true →
      b.friendly.testBit j = false)
    (hmem : m ∈ (scanBits D).map fun t =>
      Move.mk (squareOf (b.king &&& b.friendly)) t PieceT.king none
        false false) :
    MoveFacts b m := by
  obtain ⟨k0, hk0, hsq, hkbit, hfbit⟩ := allyKing_square hvf hws hk
  rw [List.mem_map] at hmem
  obtain ⟨t, ht, rfl⟩ := hmem
  rw [mem_scanBits hDlt] at ht
  have ht64 := testBit_true_lt hDlt ht
  exact {
    from_lt := by
      show squareOf (b.king &&& b.friendly) < 64
      rw [hsq]
      exact hk0
    to_lt := ht64
    piece_at := by
      show (b.bb PieceT.king).testBit (squareOf (b.king &&& b.friendly)) =
        true
      rw [hsq]
      exact hkbit
    friendly_from := by
      show b.friendly.testBit (squareOf (b.king &&& b.friendly)) = true
      rw [hsq]
      exact hfbit
    friendly_to := hDsub t ht64 ht
    promo_shape := fun p hp => nomatch hp
    pawn_to := fun h _ => nomatch h
    ep_shape := fun h => absurd h Bool.false_ne_true
    castle_shape := fun h => absurd h Bool.false_ne_true }

theorem facts_castle (b : Board) (hvf : b.verify = true)
    (hws : b.wordsOk) (hk : b.kingsOk) (t : Nat) (ht64 : t < 64)
    (hocc_t : b.occupied.testBit t = false)
    (hshape : (b.whiteToMove = true ∧
       ((t = 6 ∧ b.wk = true ∧ b.occupied &&& 0x60 = 0) ∨
        (t = 2 ∧ b.wq = true ∧ b.occupied &&& 0x0e = 0))) ∨
     (b.whiteToMove = false ∧
       ((t = 62 ∧ b.bk = true ∧
          b.occupied &&& 0x6000000000000000 = 0) ∨
        (t = 58 ∧ b.bq = true ∧
          b.occupied &&& 0x0e00000000000000 = 0)))) :
    MoveFacts b (Move.mk (squareOf (b.king &&& b.friendly)) t PieceT.king
      none true false) := by
  obtain ⟨k0, hk0, hsq, hkbit, hfbit⟩ := allyKing_square hvf hws hk
  have hfto : b.friendly.testBit t = false := by
    cases hft : b.friendly.testBit t
    · rfl
    · rw [friendly_sub_occ hvf t hft] at hocc_t
      exact hocc_t
  exact {
    from_lt := by
      show squareOf (b.king &&& b.friendly) < 64
      rw [hsq]
      exact hk0
    to_lt := ht64
    piece_at := by
      show (b.bb PieceT.king).testBit (squareOf (b.king &&& b.friendly)) =
        true
      rw [hsq]
      exact hkbit
    friendly_from := by
      show b.friendly.testBit (squareOf (b.king &&& b.friendly)) = true
      rw [hsq]
      exact hfbit
    friendly_to := hfto
    promo_shape := fun p hp => nomatch hp
    pawn_to := fun h _ => nomatch h
    ep_shape := fun h => absurd h Bool.false_ne_true
    castle_shape := fun _ => ⟨rfl, rfl, rfl, hshape⟩ }

theorem geo_singles_white (b : Board) :
    ∀ t, t < 64 →
      (shl64 (b.pawn &&& b.friendly) 8 &&& bnot64 b.occupied).testBit t =
        true →
      t - 8 < 64 ∧ (b.pawn &&& b.friendly).testBit (t - 8) = true ∧
        (decide (56 ≤ t) = false → 8 ≤ t ∧ t < 56) := by
  intro t ht64 h
  rw [Nat.testBit_and, Bool.and_eq_true] at h
  have hs := h.1
  rw [testBit_shl64 _ _ _ ht64, Bool.and_eq_true, decide_eq_true_eq] at hs
  refine ⟨by omega, hs.2, fun hc => ?_⟩
  rw [decide_eq_false_iff_not] at hc
  exact ⟨hs.1, by omega⟩

theorem geo_singles_black (b : Board)
    (hfpl : b.pawn &&& b.friendly < wordSize) :
    ∀ t, t < 64 →
      (((b.pawn &&& b.friendly) >>> 8) &&& bnot64 b.occupied).testBit t =
        true →
      t + 8 < 64 ∧ (b.pawn &&& b.friendly).testBit (t + 8) = true ∧
        (decide (t ≤ 7) = false → 8 ≤ t ∧ t < 56) := by
  intro t ht64 h
  rw [Nat.testBit_and, Bool.and_eq_true] at h
  have hs := h.1
  rw [testBit_shr, Nat.add_comm] at hs
  have hlt := testBit_true_lt hfpl hs
  refine ⟨hlt, hs, fun hc => ?_⟩
  rw [decide_eq_false_iff_not] at hc
  exact ⟨by omega, by omega⟩

theorem geo_doubles_white (b : Board) :
    ∀ t, t < 64 →
      (shl64 ((shl64 (b.pawn &&& b.friendly) 8 &&& bnot64 b.occupied) &&&
        RANK_3) 8 &&& bnot64 b.occupied).testBit t = true →
      t - 16 < 64 ∧ (b.pawn &&& b.friendly).testBit (t - 16) = true ∧
        8 ≤ t ∧ t < 56 := by
  intro t ht64 h
  rw [Nat.testBit_and, Bool.and_eq_true] at h
  have hs := h.1
  rw [testBit_shl64 _ _ _ ht64, Bool.and_eq_true, decide_eq_true_eq] at hs
  obtain ⟨h8, hin⟩ := hs
  rw [Nat.testBit_and, Bool.and_eq_true] at hin
  obtain ⟨hps, hr3⟩ := hin
  have hr3b := mask_rank3_bits ⟨t - 8, by omega⟩
  rw [hr3] at hr3b
  have hr3r : 16 ≤ t - 8 ∧ t - 8 < 24 := of_decide_eq_true hr3b.symm
  rw [Nat.testBit_and, Bool.and_eq_true] at hps
  have hps1 := hps.1
  rw [testBit_shl64 _ _ _ (by omega), Bool.and_eq_true,
    decide_eq_true_eq] at hps1
  have hsub : t - 8 - 8 = t - 16 := by omega
  rw [hsub] at hps1
  exact ⟨by omega, hps1.2, by omega, by omega⟩

theorem geo_doubles_black (b : Board)
    (hfpl : b.pawn &&& b.friendly < wordSize) :
    ∀ t, t < 64 →
      (((((b.pawn &&& b.friendly) >>> 8 &&& bnot64 b.occupied) &&&
        RANK_6) >>> 8) &&& bnot64 b.occupied).testBit t = true →
      t + 16 < 64 ∧ (b.pawn &&& b.friendly).testBit (t + 16) = true ∧
        8 ≤ t ∧ t < 56 := by
  intro t ht64 h
  rw [Nat.testBit_and, Bool.and_eq_true] at h
  have hs := h.1
  rw [testBit_shr] at hs
  rw [Nat.testBit_and, Bool.and_eq_true] at hs
  obtain ⟨hps, hr6⟩ := hs
  rw [Nat.testBit_and, Bool.and_eq_true] at hps
  have hps1 := hps.1
  rw [testBit_shr] at hps1
  have heq : 8 + (8 + t) = t + 16 := by omega
  rw [heq] at hps1
  have hlt : t + 16 < 64 := testBit_true_lt hfpl hps1
  have hr6b := mask_rank6_bits ⟨8 + t, by omega⟩
  rw [hr6] at hr6b
  have hr6r : 40 ≤ 8 + t ∧ 8 + t < 48 := of_decide_eq_true hr6b.symm
  exact ⟨hlt, hps1, by omega, by omega⟩

theorem pawnAttacks_white_range (b : Board) (hpw : b.pawnsOk) :
    ∀ t, t < 64 →
      (genPawnAttacks (b.pawn &&& b.friendly) Color.white).testBit t =
        true → 8 ≤ t := by
  intro t ht64 h
  rw [genPawnAttacks, Nat.testBit_or, Bool.or_eq_true] at h
  rcases h with h | h
  · rw [Nat.testBit_and, Bool.and_eq_true] at h
    have hs := h.1
    rw [testBit_shl64 _ _ _ ht64, Bool.and_eq_true, decide_eq_true_eq] at hs
    omega
  · rw [Nat.testBit_and, Bool.and_eq_true] at h
    have hs := h.1
    rw [testBit_shl64 _ _ _ ht64, Bool.and_eq_true, decide_eq_true_eq] at hs
    obtain ⟨h7, hfp⟩ := hs
    by_cases ht7 : t = 7
    · subst ht7
      rw [Nat.testBit_and, Bool.and_eq_true] at hfp
      have := hfp.1
      rw [pawn_rank_free hpw (7 - 7) (by omega) (by omega)] at this
      exact absurd this (by simp)
    · omega

theorem pawnAttacks_black_upper (b : Board) (hpw : b.pawnsOk)
    (hfpl : b.pawn &&& b.friendly < wordSize) :
    ∀ t, (genPawnAttacks (b.pawn &&& b.friendly) Color.black).testBit t =
        true → t < 56 := by
  intro t h
  rw [genPawnAttacks, Nat.testBit_or, Bool.or_eq_true] at h
  rcases h with h | h
  · rw [Nat.testBit_and, Bool.and_eq_true] at h
    have hs := h.1
    rw [testBit_shr] at hs
    have hlt := testBit_true_lt hfpl hs
    rw [Nat.testBit_and, Bool.and_eq_true] at hs
    by_cases hge : 56 ≤ 7 + t
    · rw [pawn_rank_free hpw (7 + t) (by omega) (by omega)] at hs
      exact absurd hs.1 (by simp)
    · omega
  · rw [Nat.testBit_and, Bool.and_eq_true] at h
    have hs := h.1
    rw [testBit_shr] at hs
    have hlt := testBit_true_lt hfpl hs
    rw [Nat.testBit_and, Bool.and_eq_true] at hs
    by_cases hge : 56 ≤ 9 + t
    · rw [pawn_rank_free hpw (9 + t) (by omega) (by omega)] at hs
      exact absurd hs.1 (by simp)
    · omega

theorem gen_mem_facts (b : Board) (hv : b.valid) (m : Move)
    (hm : m ∈ (generateMoves b).1) : MoveFacts b m := by
  obtain ⟨hws, hvf, hk, hpw, hep, hcas⟩ := hv
  have hfl : b.friendly < wordSize := friendly_lt hws
  have hfpl : b.pawn &&& b.friendly < wordSize := land_lt_wordSize _ hfl
  unfold Board.epOk at hep
  cases hwc : b.whiteToMove
  · -- black to move
    simp only [generateMoves, Board.nextToMove, Color.opposite, hwc,
      Bool.false_eq_true, if_false, if_true, eq_self_iff_true] at hm
    rw [List.mem_filter] at hm
    replace hm := hm.1
    rcases List.mem_append.mp hm with hm | hCast
    rcases List.mem_append.mp hm with hm | hKing
    rcases List.mem_append.mp hm with hm | hKnight
    rcases List.mem_append.mp hm with hm | hQueen
    rcases List.mem_append.mp hm with hm | hBishop
    rcases List.mem_append.mp hm with hm | hRook
    rcases List.mem_append.mp hm with hm | hEp
    rcases List.mem_append.mp hm with hm | hCaps
    rcases List.mem_append.mp hm with hSingles | hDoubles
    · refine facts_pawn_promo b m _ _ ?_ ?_ _ _ ?_ hSingles
      · exact land_lt_wordSize _ (destFilter_bound b hfl _ _ _ _ _)
      · intro j hj
        exact destFilter_facts b hfl _ _ _ _ _ j hj
      · exact geo_singles_black b hfpl
    · refine facts_pawn_nopromo b m _ _ ?_ ?_ _ ?_ hDoubles
      · exact land_lt_wordSize _ (destFilter_bound b hfl _ _ _ _ _)
      · intro j hj
        exact destFilter_facts b hfl _ _ _ _ _ j hj
      · exact geo_doubles_black b hfpl
    · refine facts_pawn_caps b m _ ?_ ?_ _ ?_ _ hCaps
      · exact land_lt_wordSize _ (destFilter_bound b hfl _ _ _ _ _)
      · intro j hj
        rw [Nat.testBit_and, Bool.and_eq_true] at hj
        exact destFilter_facts b hfl _ _ _ _ _ j hj.2
      · intro t ht64 hsrc hc
        rw [decide_eq_false_iff_not] at hc
        rw [Nat.testBit_and, Bool.and_eq_true] at hsrc
        have hpa := hsrc.1
        rw [Nat.testBit_and, Bool.and_eq_true] at hpa
        exact ⟨by omega, pawnAttacks_black_upper b hpw hfpl t hpa.1⟩
    · split at hEp
      · rename_i hcond
        obtain ⟨heplt, hbit⟩ := and_bit64_ne_zero hcond
        rw [Nat.testBit_and, Bool.and_eq_true] at hbit
        have hfto := destFilter_facts b hfl _ _ _ _ _ _ hbit.2
        have hepr := hep heplt
        rw [hwc] at hepr
        rw [if_neg (Bool.false_ne_true)] at hepr
        exact facts_ep b m heplt hfto ⟨by omega, by omega⟩ _ hEp
      · simp at hEp
    · refine facts_slider b m PieceT.rook (by decide) _ _ ?_ hfl ?_ ?_ _
        hRook
      · rfl
      · exact destFilter_bound b hfl _ _ _ _ _
      · intro j hj
        exact destFilter_facts b hfl _ _ _ _ _ j hj
    · refine facts_slider b m PieceT.bishop (by decide) _ _ ?_ hfl ?_ ?_ _
        hBishop
      · rfl
      · exact destFilter_bound b hfl _ _ _ _ _
      · intro j hj
        exact destFilter_facts b hfl _ _ _ _ _ j hj
    · refine facts_slider b m PieceT.queen (by decide) _ _ ?_ hfl ?_ ?_ _
        hQueen
      · rfl
      · exact destFilter_bound b hfl _ _ _ _ _
      · intro j hj
        exact destFilter_facts b hfl _ _ _ _ _ j hj
    · refine facts_knight b m hfl _ _ ?_ ?_ _ hKnight
      · exact destFilter_bound b hfl _ _ _ _ _
      · intro j hj
        exact destFilter_facts b hfl _ _ _ _ _ j hj
    · refine facts_king b m hvf hws hk _ ?_ ?_ hKing
      · exact land_le_left_lt (land_lt_wordSize _ (bnot64_lt hfl)) _
      · intro j hj hbit
        rw [Nat.testBit_and, Bool.and_eq_true] at hbit
        have h1 := hbit.1
        rw [Nat.testBit_and, Bool.and_eq_true] at h1
        have h2 := h1.2
        rw [testBit_bnot64_lt _ hj] at h2
        cases hf : b.friendly.testBit j
        · rfl
        · rw [hf] at h2
          exact absurd h2 (by simp)
    · split at hCast
      · rcases List.mem_append.mp hCast with h1 | h2
        · split at h1
          · rename_i hc1
            rw [List.mem_singleton] at h1
            subst h1
            have hocc0 := or_and_eq_zero_left hc1.2
            exact facts_castle b hvf hws hk 62 (by omega)
              (and_eq_zero_bit hocc0 (by decide))
              (Or.inr ⟨hwc, Or.inl ⟨rfl, hc1.1, hocc0⟩⟩)
          · simp at h1
        · split at h2
          · rename_i hc2
            rw [List.mem_singleton] at h2
            subst h2
            exact facts_castle b hvf hws hk 58 (by omega)
              (and_eq_zero_bit hc2.2.2 (by decide))
              (Or.inr ⟨hwc, Or.inr ⟨rfl, hc2.1, hc2.2.2⟩⟩)
          · simp at h2
      · simp at hCast
  · -- white to move
    simp only [generateMoves, Board.nextToMove, Color.opposite, hwc,
      if_false, if_true, eq_self_iff_true] at hm
    rw [List.mem_filter] at hm
    replace hm := hm.1
    rcases List.mem_append.mp hm with hm | hCast
    rcases List.mem_append.mp hm with hm | hKing
    rcases List.mem_append.mp hm with hm | hKnight
    rcases List.mem_append.mp hm with hm | hQueen
    rcases List.mem_append.mp hm with hm | hBishop
    rcases List.mem_append.mp hm with hm | hRook
    rcases List.mem_append.mp hm with hm | hEp
    rcases List.mem_append.mp hm with hm | hCaps
    rcases List.mem_append.mp hm with hSingles | hDoubles
    · refine facts_pawn_promo b m _ _ ?_ ?_ _ _ ?_ hSingles
      · exact land_lt_wordSize _ (destFilter_bound b hfl _ _ _ _ _)
      · intro j hj
        exact destFilter_facts b hfl _ _ _ _ _ j hj
      · exact geo_singles_white b
    · refine facts_pawn_nopromo b m _ _ ?_ ?_ _ ?_ hDoubles
      · exact land_lt_wordSize _ (destFilter_bound b hfl _ _ _ _ _)
      · intro j hj
        exact destFilter_facts b hfl _ _ _ _ _ j hj
      · exact geo_doubles_white b
    · refine facts_pawn_caps b m _ ?_ ?_ _ ?_ _ hCaps
      · exact land_lt_wordSize _ (destFilter_bound b hfl _ _ _ _ _)
      · intro j hj
        rw [Nat.testBit_and, Bool.and_eq_true] at hj
        exact destFilter_facts b hfl _ _ _ _ _ j hj.2
      · intro t ht64 hsrc hc
        rw [decide_eq_false_iff_not] at hc
        rw [Nat.testBit_and, Bool.and_eq_true] at hsrc
        have hpa := hsrc.1
        rw [Nat.testBit_and, Bool.and_eq_true] at hpa
        exact ⟨pawnAttacks_white_range b hpw t ht64 hpa.1, by omega⟩
    · split at hEp
      · rename_i hcond
        obtain ⟨heplt, hbit⟩ := and_bit64_ne_zero hcond
        rw [Nat.testBit_and, Bool.and_eq_true] at hbit
        have hfto := destFilter_facts b hfl _ _ _ _ _ _ hbit.2
        have hepr := hep heplt
        rw [hwc] at hepr
        rw [if_pos rfl] at hepr
        exact facts_ep b m heplt hfto ⟨by omega, by omega⟩ _ hEp
      · simp at hEp
    · refine facts_slider b m PieceT.rook (by decide) _ _ ?_ hfl ?_ ?_ _
        hRook
      · rfl
      · exact destFilter_bound b hfl _ _ _ _ _
      · intro j hj
        exact destFilter_facts b hfl _ _ _ _ _ j hj
    · refine facts_slider b m PieceT.bishop (by decide) _ _ ?_ hfl ?_ ?_ _
        hBishop
      · rfl
      · exact destFilter_bound b hfl _ _ _ _ _
      · intro j hj
        exact destFilter_facts b hfl _ _ _ _ _ j hj
    · refine facts_slider b m PieceT.queen (by decide) _ _ ?_ hfl ?_ ?_ _
        hQueen
      · rfl
      · exact destFilter_bound b hfl _ _ _ _ _
      · intro j hj
        exact destFilter_facts b hfl _ _ _ _ _ j hj
    · refine facts_knight b m hfl _ _ ?_ ?_ _ hKnight
      · exact destFilter_bound b hfl _ _ _ _ _
      · intro j hj
        exact destFilter_facts b hfl _ _ _ _ _ j hj
    · refine facts_king b m hvf hws hk _ ?_ ?_ hKing
      · exact land_le_left_lt (land_lt_wordSize _ (bnot64_lt hfl)) _
      · intro j hj hbit
        rw [Nat.testBit_and, Bool.and_eq_true] at hbit
        have h1 := hbit.1
        rw [Nat.testBit_and, Bool.and_eq_true] at h1
        have h2 := h1.2
        rw [testBit_bnot64_lt _ hj] at h2
        cases hf : b.friendly.testBit j
        · rfl
        · rw [hf] at h2
          exact absurd h2 (by simp)
    · split at hCast
      · rcases List.mem_append.mp hCast with h1 | h2
        · split at h1
          · rename_i hc1
            rw [List.mem_singleton] at h1
            subst h1
            have hocc0 := or_and_eq_zero_left hc1.2
            exact facts_castle b hvf hws hk 6 (by omega)
              (and_eq_zero_bit hocc0 (by decide))
              (Or.inl ⟨hwc, Or.inl ⟨rfl, hc1.1, hocc0⟩⟩)
          · simp at h1
        · split at h2
          · rename_i hc2
            rw [List.mem_singleton] at h2
            subst h2
            exact facts_castle b hvf hws hk 2 (by omega)
              (and_eq_zero_bit hc2.2.2 (by decide))
              (Or.inl ⟨hwc, Or.inr ⟨rfl, hc2.1, hc2.2.2⟩⟩)
          · simp at h2
      · simp at hCast

/-- C3.  Corrected form: for every valid Board and every move returned by
generate_moves whose destination is not the enemy king's square, apply
preserves the Board invariants (piece bitboards pairwise disjoint, union
equal to occupied, white a subset of occupied, one king per side, no pawn
on rank 1 or 8), empties the origin square, and puts the moving piece (or
the promotion piece) on the destination square. -/
theorem c3_apply_preserves_invariants_on_generated_moves (b : Board)
    (m : Move) (hv : b.valid) (hm : m ∈ (generateMoves b).1)
    (hkto : (b.king &&& b.enemy).testBit m.toSq = false) :
    (m.apply b).verify = true ∧ (m.apply b).kingsOk ∧
      (m.apply b).pawnsOk ∧
      (m.apply b).occupied.testBit m.fromSq = false ∧
      ((m.apply b).bb (m.promotion.getD m.piece)).testBit m.toSq = true :=
  apply_preserves_of_facts m b hv (gen_mem_facts b hv m hm) hkto

/-- Witness for C3 at a concrete input: on the board of FEN
k7/8/8/8/8/8/8/R3K3 w - - 0 1, the generated rook move a1-a2 keeps every
invariant. -/
theorem c3_apply_preserves_invariants_on_generated_moves_witness :
    kingCaptureBoard.valid ∧
    Move.mk 0 8 PieceT.rook none false false ∈
      (generateMoves kingCaptureBoard).1 ∧
    (kingCaptureBoard.king &&& kingCaptureBoard.enemy).testBit 8 = false ∧
    (((Move.mk 0 8 PieceT.rook none false false).apply
        kingCaptureBoard).verify = true ∧
      ((Move.mk 0 8 PieceT.rook none false false).apply
        kingCaptureBoard).kingsOk ∧
      ((Move.mk 0 8 PieceT.rook none false false).apply
        kingCaptureBoard).pawnsOk ∧
      ((Move.mk 0 8 PieceT.rook none false false).apply
        kingCaptureBoard).occupied.testBit 0 = false ∧
      (((Move.mk 0 8 PieceT.rook none false false).apply
        kingCaptureBoard).bb PieceT.rook).testBit 8 = true) :=
  ⟨by decide, by decide, by decide,
    c3_apply_preserves_invariants_on_generated_moves kingCaptureBoard
      (Move.mk 0 8 PieceT.rook none false false) (by decide) (by decide)
      (by decide)⟩


/-- C1.  The claim states that generate_moves returns exactly the strictly
legal moves on every valid board.  It fails: on the valid position
k7/8/8/r2pP2K/8/8/8/8 w - d6 (black just played d7-d5), the en-passant
capture e5xd6 is returned although it removes both rank-5 pawns and leaves
the white king on h5 attacked by the rook on a5; the generator's pin x-ray
cannot see through two adjacent pawns and it applies no other en-passant
legality check. -/
theorem c1_generate_moves_returns_illegal_ep_capture :
    Board.fromFen epBugFen = some epBugBoard ∧ epBugBoard.valid ∧
    epBugMove ∈ (generateMoves epBugBoard).1 ∧
    enemyKingAttacked (epBugMove.apply epBugBoard) = true :=
  ⟨by decide, by decide, by decide, by decide⟩

/-- C4.  The claim states that generate_moves never returns an en-passant
capture after which the capturing side's king is attacked along a file or
rank.  It fails on the same position as C1: the returned capture e5xd6 is
flagged EN_PASSANT and afterwards a black rook attacks the white king along
rank 5. -/
theorem c4_ep_discovered_check_not_rejected :
    epBugMove.ep = true ∧ epBugMove ∈ (generateMoves epBugBoard).1 ∧
    enemyKingAttackedOnLine (epBugMove.apply epBugBoard) = true :=
  ⟨by decide, by decide, by decide⟩

/-- C5.  The claim states that Bitboard::scan yields the set bits in
ascending index order.  The implementation clears the bit returned by
ilog2, the most significant set bit, so on the word 3 it yields index 1
before index 0 — descending order, contradicting the ascending order the
claim (and the comment inside the iterator) promise. -/
theorem c5_scan_yields_msb_first : scanBits 3 = [1, 0] := by decide

/-- C8.  The claim states that a candidate magic is rejected exactly when
the high byte of mask·M has fewer than 6 set bits.  The code compares the
masked 64-bit value itself against 6, so any non-zero high byte passes: for
mask 1 and M = 2^56 the high byte has a single set bit (fewer than 6), yet
the candidate is not rejected. -/
theorem c8_magic_prefilter_compares_value_not_popcount :
    magicCandidateRejected 1 (2 ^ 56) = false ∧
    countOnes (wmul64 1 (2 ^ 56) &&& 0xFF00000000000000) = 1 :=
  ⟨by decide, by decide⟩

/-- C9.  The claim states that searching 6k1/5ppp/8/8/8/8/5PPP/R5K1 w with
depth limit 2 yields best move a1a8 and a mate score.  It fails: the loop
checks `epoch >= depth_limit` immediately after incrementing the epoch and
before processing the freshly pushed root frame, so with limit 2 only the
depth-1 pass ever runs; every child keeps its static material score 5, the
tie is won by the last generated move, and the engine reports g1f1 with
score 5 instead of a1a8 with a mate score. -/
theorem c9_depth_two_search_misses_mate :
    Board.fromFen mateFen = some mateBoard ∧
    (deriveResults (runSearch 100000 (some 2) mateBoard)).map
        (fun r => (r.2.1, r.2.2)) =
      some (Move.mk 6 5 .king none false false, Score.fin 5) :=
  ⟨by decide, by decide⟩

/-- C10.  With depth limit 1 the loop performs exactly one epoch increment
(pushing the root evaluation frame) and then exits on the depth check
before popping it: the tree still holds only the root, and derive_results
returns none, so the engine reports bestmove (none). -/
theorem c10_depth_one_search_does_nothing (e : TreeEntry) (fuel : Nat) :
    runLoop (fuel + 2) (some 1) (Tree.new e) [] 0 =
      (Tree.new e, [StackEntry.evaluating 0 .negInf .posInf], 1) ∧
    deriveResults (Tree.new e) = none :=
  ⟨rfl, rfl⟩

/-- C6.  When the search evaluates a node with no children that is due for
expansion and move generation returns the empty list, the node is marked
checkmate for the side not to move with the mover's losing infinity as
score (minus infinity when White is to move, plus infinity when Black is),
and otherwise — not in check — it is marked stalemate with score zero. -/
theorem c6_empty_move_list_scores_terminal (t : Tree)
    (stack : List StackEntry) (epoch noderef : Nat) (alpha beta : Score)
    (hlen : noderef < t.length)
    (hch : (t.node noderef).firstChild = none)
    (hse : (t.node noderef).value.shouldEvaluate epoch = true)
    (hgen : (generateMoves (t.node noderef).value.board).1 = []) :
    ((generateMoves (t.node noderef).value.board).2 = true →
      if (t.node noderef).value.board.nextToMove = Color.white then
        (((processEvaluating t stack epoch noderef alpha beta).1.node
            noderef).value.cmBlackWin = true ∧
          ((processEvaluating t stack epoch noderef alpha beta).1.node
            noderef).value.score = Score.negInf)
      else
        (((processEvaluating t stack epoch noderef alpha beta).1.node
            noderef).value.cmWhiteWin = true ∧
          ((processEvaluating t stack epoch noderef alpha beta).1.node
            noderef).value.score = Score.posInf)) ∧
    ((generateMoves (t.node noderef).value.board).2 = false →
      ((processEvaluating t stack epoch noderef alpha beta).1.node
          noderef).value.stalemate = true ∧
        ((processEvaluating t stack epoch noderef alpha beta).1.node
          noderef).value.score = Score.fin 0) := by
  have hset : ∀ (n : TreeNode), ((t.setNode noderef n).node noderef) = n := by
    intro n
    unfold Tree.setNode Tree.node
    rw [List.getD_eq_getElem?_getD, List.getElem?_set_eq_of_lt _ hlen]
    rfl
  simp only [processEvaluating, hch, hse, hgen, if_true]
  cases hc : (generateMoves (t.node noderef).value.board).2 <;>
    cases hw : (t.node noderef).value.board.nextToMove <;>
      simp [hset, hc, hw, Color.minmaxIni]

/-- The one-node tree holding the checkmated position of the mate scenario,
used to witness the terminal handling. -/
def matedTree : Tree :=
  Tree.new (TreeEntry.mk none 0 (Score.fin 0) matedBoard false false false)

/-- Witness for C6 on the concrete checkmated position (Black to move,
mated): the node receives CHECKMATE_WHITE_WIN and score plus infinity. -/
theorem c6_empty_move_list_scores_terminal_witness :
    ((generateMoves (matedTree.node 0).value.board).2 = true →
      if (matedTree.node 0).value.board.nextToMove = Color.white then
        (((processEvaluating matedTree [] 1 0 .negInf .posInf).1.node
            0).value.cmBlackWin = true ∧
          ((processEvaluating matedTree [] 1 0 .negInf .posInf).1.node
            0).value.score = Score.negInf)
      else
        (((processEvaluating matedTree [] 1 0 .negInf .posInf).1.node
            0).value.cmWhiteWin = true ∧
          ((processEvaluating matedTree [] 1 0 .negInf .posInf).1.node
            0).value.score = Score.posInf)) ∧
    ((generateMoves (matedTree.node 0).value.board).2 = false →
      ((processEvaluating matedTree [] 1 0 .negInf .posInf).1.node
          0).value.stalemate = true ∧
        ((processEvaluating matedTree [] 1 0 .negInf .posInf).1.node
          0).value.score = Score.fin 0) :=
  c6_empty_move_list_scores_terminal matedTree [] 1 0 .negInf .posInf
    (by decide) (by decide) (by decide) (by decide)

/-- C3, counterexample.  The claim quantifies over every board satisfying
the section-3 invariants; on such a board the enemy king may stand en
prise, and the generated capture of the king then breaks the one-king-per-
side invariant: after Ra1xa8 on k7/8/8/8/8/8/8/R3K3 w the board holds no
black king at all. -/
theorem c3_apply_can_capture_the_enemy_king :
    kingCaptureBoard.valid ∧
    kingCaptureMove ∈ (generateMoves kingCaptureBoard).1 ∧
    ¬(kingCaptureMove.apply kingCaptureBoard).kingsOk :=
  ⟨by decide, by decide, by decide⟩


/-- C7.  For every FEN string F emitted by fen() on a valid board, parsing
it and re-emitting is the identity: fen(from_fen(F)) = F.  Confirmed:
parsing the emitted placement writes every square back, the metadata
characters restore side to move, castling rights and the en-passant square
(an absent en-passant square is emitted and re-parsed as the dash), and the
square-centric/bitboard conversions preserve every square, so the second
emission reproduces the first character for character. -/
theorem c7_fen_roundtrip_on_valid_boards (b : Board) (hv : b.valid) :
    (Board.fromFen b.fenChars).map Board.fenChars = some b.fenChars := by
  have hepOk : b.epOk := hv.2.2.2.2.1
  have hepS : b.toSCB.ep < 64 →
      if b.toSCB.whiteToMove then 40 ≤ b.toSCB.ep ∧ b.toSCB.ep < 48
      else 16 ≤ b.toSCB.ep ∧ b.toSCB.ep < 24 := by
    intro hlt
    have h := hepOk hlt
    have he : b.toSCB.ep = b.enPassantSquare := rfl
    have hwtm : b.toSCB.whiteToMove = b.whiteToMove := rfl
    rw [he, hwtm]
    by_cases hw : b.whiteToMove
    · rw [if_pos hw] at h ⊢
      exact ⟨h.1, h.2.1⟩
    · rw [if_neg hw] at h ⊢
      exact ⟨h.1, h.2.1⟩
  have hparse := parse_fenChars b.toSCB hepS
  rw [Board.fenChars, Board.fromFen, hparse]
  refine congrArg some ?_
  rw [Board.fenChars]
  apply fenChars_ext
  · intro i hi
    rw [toSCB_toBoard_getD _ i hi]
    show (parsedSquares b.toSCB).getD i none = _
    rw [parsedSquares_getD b.toSCB i hi]
  · rfl
  · rfl
  · rfl
  · rfl
  · rfl
  · by_cases hlt : b.toSCB.ep < 64
    · left
      show (if b.toSCB.ep < 64 then b.toSCB.ep else 64) = b.toSCB.ep
      rw [if_pos hlt]
    · right
      constructor
      · show 64 ≤ (if b.toSCB.ep < 64 then b.toSCB.ep else 64)
        rw [if_neg hlt]
      · omega

/-- Witness for C7 at a concrete input: the mate-in-one study position
6k1/5ppp/8/8/8/8/5PPP/R5K1 w - - is valid and its emitted FEN survives the
parse/emit round trip unchanged. -/
theorem c7_fen_roundtrip_on_valid_boards_witness :
    mateBoard.valid ∧
      (Board.fromFen mateBoard.fenChars).map Board.fenChars =
        some mateBoard.fenChars :=
  ⟨by decide, c7_fen_roundtrip_on_valid_boards mateBoard (by decide)⟩

end Chess
